import Mathlib

/-!
# libRaptorQ: `src/Interleaver.hpp`

A shallow embedding of the partitioning and symbol addressing code of
`Interleaver.hpp`, and theorems about it.

Conventions of the embedding.

* Unsigned machine integers are natural numbers.  Every store into, and every
  return through, a `uint8_t` or `uint16_t` is written with an explicit
  remainder (`u8`, `u16`).  Arithmetic in `int` or `size_t` is written in
  natural numbers where it cannot leave the range of the type.  In
  `Symbol_it::operator[]` it can: a product of two `uint16_t` values is an
  `int`, which wraps from `2^31` on and is then converted to `size_t`
  (`int_mul`), and the sum is a `size_t`, taken modulo `2^64` (`size_t`).
* `div_floor` and `div_ceil` are evaluated by the source in binary32: each
  operand is converted to the nearest binary32 value (`f32`), the quotient is
  rounded to the nearest binary32 value, ties to the even significand
  (`f32_quot`), and the floor or ceiling of that value is taken.  For two
  operands below `2^24` the conversions are exact and the rounded quotient
  has the floor and the ceiling of the exact quotient (`f32_quot_floor`,
  `f32_quot_ceil`), so that range is written with integer division; the
  functions are the binary32 computation for all operands all the same
  (`f32_binary32`, `div_floor_binary32`, `div_ceil_binary32`).  For a
  zero divisor the quotient of the source is infinite or not a number; `0`
  stands for it, and the places that compare it or convert it to `size_t`
  treat the zero divisor on their own.
* A conversion of a binary32 value that does not fit the target is undefined
  in C++.  The embedding follows the code that GCC emits for x86-64:
  `static_cast<uint16_t>` keeps the remainder modulo `2^16` of a value below
  `2^31` and gives `0` from `2^31` on, for an infinite value and for a value
  that is not a number (`cast_u16`); `static_cast<size_t>` gives `0` for an
  infinite value and `2^63` for a value that is not a number.
* Elements of the buffer (`T`) are natural numbers, `0` being the zero
  element; `sizeof(T)` is a parameter.
* `assert` is compiled in or out by `NDEBUG`; functions that contain one take
  a flag `asserts` and return `none` when an assertion that is compiled in
  fails.
* The members `_sub_blocks`, `_source_symbols` and `_source_blocks` of
  `Interleaver` have no initialiser; what they hold before the constructor
  assigns them is a parameter (`Indeterminate`).
* The table `K_padded` of `table2.hpp` is a parameter of the constructor;
  concrete runs use the values of RFC 6330, Table 2.
* The tables `oct_log` and `oct_exp` of `multiplication.hpp` are parameters of
  the operators of `Symbol_Wrap`; concrete runs use the values of RFC 6330,
  sections 5.7.3 and 5.7.4.  A run of `Symbol_Wrap` is the list of its bytes.
-/

namespace RaptorQ
namespace Impl

/-- Store into a `uint8_t`. -/
def u8 (n : Nat) : Nat := n % 256

/-- Store into a `uint16_t`. -/
def u16 (n : Nat) : Nat := n % 65536

/-- The position of the leading bit of `n` (`0` for `n < 2`), found with at
most `fuel` halvings. -/
def ilog2 : Nat → Nat → Nat
  | 0, _ => 0
  | fuel + 1, n => if n < 2 then 0 else ilog2 fuel (n / 2) + 1

/-- Binary32 division: the binary32 value nearest to the quotient `x / y` of
two positive integers below `2^64`, ties to the even significand, times
`2^128`.  The significand `m` has 24 bits; `e` is the weight of its last bit,
counted in units of `2^-128`. -/
def f32_quot (x y : Nat) : Nat :=
  let t := x * 2 ^ 128
  let e := ilog2 256 (t / y) - 23
  let m := t / (y * 2 ^ e)
  let r := t % (y * 2 ^ e)
  if y * 2 ^ e < 2 * r ∨ (2 * r = y * 2 ^ e ∧ m % 2 = 1) then (m + 1) * 2 ^ e
  else m * 2 ^ e

/-- The conversion of an unsigned integer to `float`: the nearest binary32
value, the integer itself below `2^24`. -/
def f32 (n : Nat) : Nat := if n < 16777216 then n else f32_quot n 1 / 2 ^ 128

/-- The function `div_floor (a, b)`: `std::floor (a / b)` on `float`
parameters.  For `b = 0` the quotient of the source is infinite or not a
number; `0` stands for it. -/
def div_floor (a b : Nat) : Nat :=
  if b = 0 then 0
  else if a < 16777216 ∧ b < 16777216 then a / b
  else f32_quot (f32 a) (f32 b) / 2 ^ 128

/-- The function `div_ceil (a, b)`: `std::ceil (a / b)` on `float`
parameters.  For `b = 0`, `0` stands for the infinite quotient, as for
`div_floor`. -/
def div_ceil (a b : Nat) : Nat :=
  if b = 0 then 0
  else if a < 16777216 ∧ b < 16777216 then (a + b - 1) / b
  else (f32_quot (f32 a) (f32 b) + (2 ^ 128 - 1)) / 2 ^ 128

/-- The conversion `static_cast<uint16_t>` of a `float` with a non-negative
integer value: the remainder modulo `2^16` below `2^31`, and `0` from `2^31`
on.  An infinite quotient, for which `0` stands, gives `0` as well. -/
def cast_u16 (x : Nat) : Nat := if x < 2147483648 then x % 65536 else 0

/-- The product of two `uint16_t` values as `Symbol_it::operator[]` adds it to
a `size_t`: the product is an `int`, which wraps to a negative value from
`2^31` on, and the conversion of a negative `int` to `size_t` adds `2^64`. -/
def int_mul (a b : Nat) : Nat :=
  if a * b < 2147483648 then a * b else a * b + (2 ^ 64 - 2 ^ 32)

/-- A value of type `size_t`: sums and products of `size_t` are taken modulo
`2^64`. -/
def size_t (n : Nat) : Nat := n % 2 ^ 64

/-- Class `Partition`: two pairs `(amount, size)`. -/
structure Partition where
  part1 : Nat × Nat
  part2 : Nat × Nat
  deriving DecidableEq

namespace Partition

/-- The defaulted constructor `Partition()`: both pairs are value-initialised. -/
def default : Partition := ⟨(0, 0), (0, 0)⟩

/-- The constructor `Partition (obj_size, partitions)`.  `partitions` is a
`uint8_t` parameter, so the argument is converted on the way in.  The
difference `obj_size - size_2 * partitions` never goes below zero: `size_2`
is at most the quotient for `obj_size < 2^24`, and `size_2 * partitions` is
below `2^24` in any case.  `partitions - blocks_1` is an `int` that may be
negative and is stored as `uint16_t`, hence the added `65536`. -/
def ctor (obj_size partitions0 : Nat) : Partition :=
  let partitions := u8 partitions0
  let size_1 := cast_u16 (div_ceil obj_size partitions)
  let size_2 := cast_u16 (div_floor obj_size partitions)
  let blocks_1 := u16 (obj_size - size_2 * partitions)
  let blocks_2 := u16 (partitions + 65536 - blocks_1)
  let size_1 := if blocks_1 = 0 then 0 else size_1
  ⟨(blocks_1, size_1), (blocks_2, size_2)⟩

/-- The accessor `size (part_number)`. -/
def size (p : Partition) (part_number : Nat) : Nat :=
  if part_number = 0 then p.part1.2 else p.part2.2

/-- The accessor `num (part_number)`. -/
def num (p : Partition) (part_number : Nat) : Nat :=
  if part_number = 0 then p.part1.1 else p.part2.1

/-- The accessor `tot (part_number)`: the product, returned as `uint16_t`. -/
def tot (p : Partition) (part_number : Nat) : Nat :=
  if part_number = 0 then u16 (p.part1.1 * p.part1.2)
  else u16 (p.part2.1 * p.part2.2)

end Partition

/-- Class `Symbol_it<T>`: the view of one symbol of a source block. -/
structure Symbol_it where
  _raw : List Nat
  _start : Nat
  _end : Nat
  _idx : Nat
  _sub_blocks : Partition
  _symbol_size : Nat
  _symbol_id : Nat
  _k : Nat
  deriving DecidableEq

namespace Symbol_it

/-- The constructor of `Symbol_it`; `symbol_size`, `symbol_id` and `k` are
`uint16_t` parameters. -/
def ctor (raw : List Nat) (start end_ idx : Nat) (sub_blocks : Partition)
    (symbol_size symbol_id k : Nat) : Symbol_it :=
  ⟨raw, start, end_, idx, sub_blocks, u16 symbol_size, u16 symbol_id, u16 k⟩

/-- The method `begin()`. -/
def begin_ (s : Symbol_it) : Symbol_it :=
  ctor s._raw s._start s._end 0 s._sub_blocks s._symbol_size s._symbol_id s._k

/-- The method `end()`. -/
def end_ (s : Symbol_it) : Symbol_it :=
  ctor s._raw s._start s._end (s._sub_blocks.tot 0 + s._sub_blocks.tot 1)
    s._sub_blocks s._symbol_size s._symbol_id s._k

/-- The index `i` that `operator[] (pos)` computes; `none` when the branch
taken divides by a zero `size`.  `pos / size` and `sub_blk_id * _k * size` are
`size_t`; `_symbol_id * size` and `tot (0) * _k` are products of two
`uint16_t` values, computed in `int` (`int_mul`); the sum is a `size_t`. -/
def index (s : Symbol_it) (pos : Nat) : Option Nat :=
  if pos < s._sub_blocks.tot 0 then
    if s._sub_blocks.size 0 = 0 then none
    else
      let sub_blk_id := pos / s._sub_blocks.size 0
      some (size_t (s._start +
        sub_blk_id * s._k * s._sub_blocks.size 0 +
        int_mul s._symbol_id (s._sub_blocks.size 0) +
        pos % s._sub_blocks.size 0))
  else
    if s._sub_blocks.size 1 = 0 then none
    else
      let pos_part2 := pos - s._sub_blocks.tot 0
      let sub_blk_id := pos_part2 / s._sub_blocks.size 1
      some (size_t (s._start + int_mul (s._sub_blocks.tot 0) s._k +
        sub_blk_id * s._k * s._sub_blocks.size 1 +
        int_mul s._symbol_id (s._sub_blocks.size 1) +
        pos_part2 % s._sub_blocks.size 1))

/-- The tail of `operator[]`: padding past the end of the buffer. -/
def read (raw : List Nat) (i : Nat) : Nat :=
  if i ≥ raw.length then 0 else raw.getD i 0

/-- The method `operator[] (pos)`. -/
def get (s : Symbol_it) (pos : Nat) : Option Nat :=
  (s.index pos).map (read s._raw)

/-- The method `operator* ()`. -/
def deref (s : Symbol_it) : Option Nat := s.get s._idx

/-- The prefix `operator++ ()`. -/
def incr (s : Symbol_it) : Symbol_it :=
  if s._idx < s._sub_blocks.tot 0 + s._sub_blocks.tot 1 then
    { s with _idx := s._idx + 1 }
  else s

/-- The method `operator== (s)`. -/
def eq (a b : Symbol_it) : Bool := a._idx == b._idx

end Symbol_it

/-- Class `Source_Block<T>`. -/
structure Source_Block where
  _raw : List Nat
  _start : Nat
  _end : Nat
  _idx : Nat
  _sub_blocks : Partition
  _symbol_size : Nat
  _symbols : Nat
  deriving DecidableEq

namespace Source_Block

/-- The constructor of `Source_Block`; `symbol_size` is a `uint16_t`
parameter and `_symbols` a `uint16_t` member. -/
def ctor (raw : List Nat) (start end_ idx : Nat) (sub_blocks : Partition)
    (symbol_size : Nat) : Source_Block :=
  ⟨raw, start, end_, idx, sub_blocks, u16 symbol_size,
    u16 ((end_ - start) / u16 symbol_size)⟩

/-- The method `operator[] (symbol_id)`. -/
def get (b : Source_Block) (symbol_id : Nat) : Symbol_it :=
  if symbol_id < b._symbols then
    Symbol_it.ctor b._raw b._start b._end 0 b._sub_blocks b._symbol_size
      symbol_id b._symbols
  else
    Symbol_it.ctor b._raw 0 0 0 b._sub_blocks b._symbol_size 0 0

end Source_Block

/-- Modelled from the spec: the table `K_padded` of `table2.hpp`, which is
not among the sources.  The spec calls it the RFC-specified monotonically
increasing table of valid source-symbols-per-block values; these are the 477
values `K'` of RFC 6330, Table 2 (section 5.6). -/
def K_padded : List Nat :=
  [10, 12, 18, 20, 26, 30, 32, 36, 42, 46, 48, 49, 55, 60, 62, 69, 75, 84,
   88, 91, 95, 97, 101, 114, 119, 125, 127, 138, 140, 149, 153, 160, 166,
   168, 179, 181, 185, 187, 200, 213, 217, 225, 236, 242, 248, 257, 263, 269,
   280, 295, 301, 305, 324, 337, 341, 347, 355, 362, 368, 372, 380, 385, 393,
   405, 418, 428, 434, 447, 453, 466, 478, 486, 491, 497, 511, 526, 532, 542,
   549, 557, 563, 573, 580, 588, 594, 600, 606, 619, 633, 640, 648, 666, 675,
   685, 693, 703, 718, 728, 736, 747, 759, 778, 792, 802, 811, 821, 835, 845,
   860, 870, 891, 903, 913, 926, 938, 950, 963, 977, 989, 1002, 1020, 1032,
   1050, 1074, 1085, 1099, 1111, 1136, 1152, 1169, 1183, 1205, 1220, 1236,
   1255, 1269, 1285, 1306, 1347, 1361, 1389, 1404, 1420, 1436, 1461, 1477,
   1502, 1522, 1539, 1561, 1579, 1600, 1616, 1649, 1673, 1698, 1716, 1734,
   1759, 1777, 1800, 1824, 1844, 1863, 1887, 1906, 1926, 1954, 1979, 2005,
   2040, 2070, 2103, 2125, 2152, 2195, 2217, 2247, 2278, 2315, 2339, 2367,
   2392, 2416, 2447, 2473, 2502, 2528, 2565, 2601, 2640, 2668, 2701, 2737,
   2772, 2802, 2831, 2875, 2906, 2938, 2979, 3015, 3056, 3101, 3151, 3186,
   3224, 3265, 3299, 3344, 3387, 3423, 3466, 3502, 3539, 3579, 3616, 3658,
   3697, 3751, 3792, 3840, 3883, 3924, 3970, 4015, 4069, 4112, 4165, 4207,
   4252, 4318, 4365, 4418, 4468, 4513, 4567, 4626, 4681, 4731, 4780, 4838,
   4901, 4954, 5008, 5063, 5116, 5172, 5225, 5279, 5334, 5391, 5449, 5506,
   5566, 5637, 5694, 5763, 5823, 5896, 5975, 6039, 6102, 6169, 6233, 6296,
   6363, 6427, 6518, 6589, 6655, 6730, 6799, 6878, 6956, 7033, 7108, 7185,
   7281, 7360, 7445, 7520, 7596, 7675, 7770, 7855, 7935, 8030, 8111, 8194,
   8290, 8377, 8474, 8559, 8654, 8744, 8837, 8928, 9019, 9111, 9206, 9303,
   9400, 9497, 9601, 9708, 9813, 9916, 10017, 10120, 10241, 10351, 10458,
   10567, 10676, 10787, 10899, 11015, 11130, 11245, 11358, 11475, 11590,
   11711, 11829, 11956, 12087, 12208, 12333, 12460, 12593, 12726, 12857,
   13002, 13143, 13284, 13417, 13558, 13695, 13833, 13974, 14115, 14272,
   14415, 14560, 14713, 14862, 15011, 15170, 15325, 15496, 15651, 15808,
   15977, 16161, 16336, 16505, 16674, 16851, 17024, 17195, 17376, 17559,
   17742, 17929, 18116, 18309, 18503, 18694, 18909, 19126, 19325, 19539,
   19740, 19939, 20152, 20355, 20564, 20778, 20988, 21199, 21412, 21629,
   21852, 22073, 22301, 22536, 22779, 23010, 23252, 23491, 23730, 23971,
   24215, 24476, 24721, 24976, 25230, 25493, 25756, 26022, 26291, 26566,
   26838, 27111, 27392, 27682, 27959, 28248, 28548, 28845, 29138, 29434,
   29731, 30037, 30346, 30654, 30974, 31285, 31605, 31948, 32272, 32601,
   32932, 33282, 33623, 33961, 34302, 34654, 35031, 35395, 35750, 36112,
   36479, 36849, 37227, 37606, 37992, 38385, 38787, 39176, 39576, 39980,
   40398, 40816, 41226, 41641, 42067, 42490, 42916, 43388, 43840, 44279,
   44729, 45183, 45638, 46104, 46574, 47047, 47523, 48007, 48489, 48976,
   49470, 49978, 50511, 51017, 51530, 52062, 52586, 53114, 53650, 54188,
   54735, 55289, 55843, 56403]

/-- Class `Interleaver<T>`.  `sizeofT` stands for `sizeof(T)` of the template
argument. -/
structure Interleaver where
  sizeofT : Nat
  _raw : List Nat
  _sub_blocks : Nat
  _source_symbols : Nat
  iterator_idx : Nat
  _symbol_size : Nat
  _alignment : Nat
  _source_blocks : Nat
  _source_part : Partition
  _sub_part : Partition
  deriving DecidableEq

/-- The content of the members `_sub_blocks`, `_source_symbols` and
`_source_blocks` before the constructor body runs: they have no initialiser,
so they hold whatever the storage of the object held. -/
structure Indeterminate where
  _sub_blocks : Nat
  _source_symbols : Nat
  _source_blocks : Nat
  deriving DecidableEq

namespace Interleaver

/-- The inner loop of the constructor (`for (idx = 0; idx < K_padded.size();
++idx) if (K_padded[idx] > upper_bound) break;`): the value of `idx` after
the loop. -/
def scan (upper_bound : Nat) : List Nat → Nat
  | [] => 0
  | x :: xs => if x > upper_bound then 0 else scan upper_bound xs + 1

/-- The value `upper_bound` of the constructor for one `tmp`, as far as the
comparisons `K_padded[idx] > upper_bound` see it.  The divisor
`_alignment * div_ceil (_symbol_size, _alignment * tmp)` is a `float`; it is
an integer below `2^24`.  The quotient `max_block_decodable / divisor` is the
binary32 quotient of `div_floor`, and an integer table entry exceeds it
exactly when it exceeds its floor. -/
def upper_bound (max_block_decodable alignment symbol_size tmp : Nat) : Nat :=
  div_floor max_block_decodable (alignment * div_ceil symbol_size (alignment * tmp))

/-- The value pushed on `sizes` for one `tmp`:
`K_padded[idx == 0 ? 0 : --idx]`, stored as `uint16_t`. -/
def KL (K_padded : List Nat) (max_block_decodable alignment symbol_size tmp : Nat) :
    Nat :=
  let idx := scan (upper_bound max_block_decodable alignment symbol_size tmp) K_padded
  u16 (K_padded.getD (if idx = 0 then 0 else idx - 1) 0)

/-- The loop `for (tmp = 1; tmp <= N_max; ++tmp)` filling `sizes`, written
from `tmp` with `n` rounds left. -/
def fill (K_padded : List Nat) (max_block_decodable alignment symbol_size : Nat) :
    Nat → Nat → List Nat
  | _, 0 => []
  | tmp, n + 1 =>
    KL K_padded max_block_decodable alignment symbol_size tmp ::
      fill K_padded max_block_decodable alignment symbol_size (tmp + 1) n

/-- The loop searching `sizes` for the first `i` with `tmp <= sizes[i]`,
started at index `i`: the index found, if any. -/
def search (tmp : Nat) : List Nat → Nat → Option Nat
  | [], _ => none
  | x :: xs, i => if tmp ≤ x then some i else search tmp xs (i + 1)

/-- The constructor `Interleaver (raw, min_subsymbol_size,
max_block_decodable, symbol_size)`.  `asserts` tells whether `assert` is
compiled in (no `NDEBUG`); the result is `none` when an assertion fails and
the program aborts.  `K_padded` is the table of `table2.hpp`.

When the stored `_source_blocks` is `0`, both quotients by it are infinite, or
not a number for `Kt = 0`: the assertion `... <= 56403` fails, and `tmp` is
the conversion of that quotient to `size_t`, `2^63` when it is not a number
and `0` when it is infinite. -/
def ctor (asserts : Bool) (K_padded : List Nat) (mem : Indeterminate)
    (sizeofT : Nat) (raw : List Nat)
    (min_subsymbol_size max_block_decodable symbol_size : Nat) :
    Option Interleaver :=
  let _alignment := u8 sizeofT
  let fresh : Interleaver :=
    ⟨sizeofT, raw, mem._sub_blocks, mem._source_symbols, 0, symbol_size,
      _alignment, mem._source_blocks, Partition.default, Partition.default⟩
  if asserts && !(decide (symbol_size ≥ _alignment) &&
      decide (symbol_size % _alignment = 0) &&
      decide (min_subsymbol_size ≥ _alignment) &&
      decide (min_subsymbol_size % _alignment = 0)) then none
  else
  let Kt := div_ceil (raw.length * sizeofT) symbol_size
  let N_max := div_floor symbol_size min_subsymbol_size
  if symbol_size % _alignment ≠ 0 ∨ min_subsymbol_size < _alignment ∨
      min_subsymbol_size % _alignment ≠ 0 ∨ min_subsymbol_size > symbol_size then
    some { fresh with _alignment := 0 }
  else
  let sizes := fill K_padded max_block_decodable _alignment symbol_size 1 N_max
  let _source_blocks := u8 (cast_u16 (div_ceil Kt (sizes.getD (N_max - 1) 0)))
  let tmp := if _source_blocks = 0 ∧ Kt = 0 then 2 ^ 63 else div_ceil Kt _source_blocks
  let _sub_blocks :=
    match search tmp sizes 0 with
    | some i => u16 (i + 1)
    | none => mem._sub_blocks
  let bound := div_ceil (div_ceil raw.length symbol_size) _source_blocks
  if asserts && !(decide (_source_blocks ≠ 0) && decide (bound ≤ 56403)) then none
  else
  if _source_blocks = 0 ∨ _sub_blocks = 0 ∨ symbol_size < _alignment ∨
      symbol_size % _alignment ≠ 0 ∨ bound > 56403 then
    some { fresh with _sub_blocks := _sub_blocks, _source_blocks := _source_blocks,
                      _alignment := 0 }
  else
  let _source_part := Partition.ctor Kt _source_blocks
  let _source_symbols := u16 (_source_part.size 0 + _source_part.size 1)
  let _sub_part := Partition.ctor (symbol_size / _alignment) _sub_blocks
  some { fresh with _sub_blocks := _sub_blocks, _source_blocks := _source_blocks,
                    _source_part := _source_part,
                    _source_symbols := _source_symbols, _sub_part := _sub_part }

/-- The conversion `operator bool()`. -/
def valid (i : Interleaver) : Bool := i._alignment != 0

/-- The method `operator[] (source_block_id)`; `source_block_id` is a
`uint8_t` parameter.  `none` when the index is out of range and `assert` is
compiled in. -/
def get (asserts : Bool) (i : Interleaver) (source_block_id0 : Nat) :
    Option Source_Block :=
  let source_block_id := u8 source_block_id0
  let al_symbol_size := i._symbol_size / i.sizeofT
  if source_block_id < i._source_part.num 0 then
    let sb_start := source_block_id * i._source_part.size 0 * al_symbol_size
    let sb_end := (source_block_id + 1) * i._source_part.size 0 * al_symbol_size
    some (Source_Block.ctor i._raw sb_start sb_end 0 i._sub_part al_symbol_size)
  else if source_block_id - i._source_part.num 0 < i._source_part.num 1 then
    let sb_start := i._source_part.tot 0 * al_symbol_size +
      (source_block_id - i._source_part.num 0) * i._source_part.size 1 * al_symbol_size
    let sb_end := sb_start + i._source_part.size 1 * al_symbol_size
    some (Source_Block.ctor i._raw sb_start sb_end 0 i._sub_part al_symbol_size)
  else if asserts then none
  else some (Source_Block.ctor i._raw 0 0 0 i._sub_part al_symbol_size)

/-- The method `symbol_size()`. -/
def symbol_size (i : Interleaver) : Nat := u16 (i._symbol_size / i.sizeofT)

/-- The method `get_partition()`. -/
def get_partition (i : Interleaver) : Partition := i._source_part

/-- The method `source_symbols (SBN)`; `SBN` is a `uint8_t` parameter. -/
def source_symbols (i : Interleaver) (SBN0 : Nat) : Nat :=
  let SBN := u8 SBN0
  if SBN < i._source_part.num 0 then i._source_part.size 0
  else if SBN - i._source_part.num 0 < i._source_part.num 1 then i._source_part.size 1
  else 0

/-- The method `blocks()`, returned as `uint8_t`. -/
def blocks (i : Interleaver) : Nat := u8 (i._source_part.num 0 + i._source_part.num 1)

/-- The method `sub_blocks()`, returned as `uint16_t`. -/
def sub_blocks (i : Interleaver) : Nat := u16 (i._sub_part.num 0 + i._sub_part.num 1)

end Interleaver

/-- The byte index of the spec (section 4.3, steps 1 and 2), written from the
spec's words: for `pos < tot(0)` it is
`start + sub_blk*k*size(0) + symbol_id*size(0) + (pos mod size(0))` with
`sub_blk = pos / size(0)`; otherwise, with `pos' = pos - tot(0)` and
`sub_blk = pos' / size(1)`, it is
`start + tot(0)*k + sub_blk*k*size(1) + symbol_id*size(1) + (pos' mod size(1))`. -/
def spec_index (start k symbol_id : Nat) (P : Partition) (pos : Nat) : Nat :=
  if pos < P.tot 0 then
    start + (pos / P.size 0) * k * P.size 0 + symbol_id * P.size 0 + pos % P.size 0
  else
    start + P.tot 0 * k + ((pos - P.tot 0) / P.size 1) * k * P.size 1 +
      symbol_id * P.size 1 + (pos - P.tot 0) % P.size 1

/-- The sum of `source_symbols (i)` over `i = 0 .. blocks() - 1`. -/
def Interleaver.total_source_symbols (I : Interleaver) : Nat :=
  ((List.range I.blocks).map I.source_symbols).sum

/-- The values `Interleaver[block][symbol][pos]`, for the source blocks
`0 .. blocks() - 1` in order, the symbols `0 .. source_symbols (block) - 1` in
order and the positions `0 .. symbol_size() - 1` in order, concatenated.  An
entry is `none` where an access fails. -/
def Interleaver.read_object (asserts : Bool) (I : Interleaver) : List (Option Nat) :=
  (List.range I.blocks).flatMap fun block =>
    (List.range (I.source_symbols block)).flatMap fun symbol =>
      (List.range I.symbol_size).map fun pos =>
        (I.get asserts block).bind fun b => (b.get symbol).get pos

/-- Modelled from the spec: the antilog table `oct_exp` of `multiplication.hpp`,
which is not among the sources.  The spec asks for the exp table of GF(256)
with the generator polynomial of the RFC, large enough for sums of two logs;
these are the 510 values `OCT_EXP` of RFC 6330, section 5.7.3. -/
def oct_exp : List Nat :=
  [1, 2, 4, 8, 16, 32, 64, 128, 29, 58, 116, 232, 205, 135, 19, 38, 76, 152,
   45, 90, 180, 117, 234, 201, 143, 3, 6, 12, 24, 48, 96, 192, 157, 39, 78,
   156, 37, 74, 148, 53, 106, 212, 181, 119, 238, 193, 159, 35, 70, 140, 5,
   10, 20, 40, 80, 160, 93, 186, 105, 210, 185, 111, 222, 161, 95, 190, 97,
   194, 153, 47, 94, 188, 101, 202, 137, 15, 30, 60, 120, 240, 253, 231, 211,
   187, 107, 214, 177, 127, 254, 225, 223, 163, 91, 182, 113, 226, 217, 175,
   67, 134, 17, 34, 68, 136, 13, 26, 52, 104, 208, 189, 103, 206, 129, 31,
   62, 124, 248, 237, 199, 147, 59, 118, 236, 197, 151, 51, 102, 204, 133,
   23, 46, 92, 184, 109, 218, 169, 79, 158, 33, 66, 132, 21, 42, 84, 168, 77,
   154, 41, 82, 164, 85, 170, 73, 146, 57, 114, 228, 213, 183, 115, 230, 209,
   191, 99, 198, 145, 63, 126, 252, 229, 215, 179, 123, 246, 241, 255, 227,
   219, 171, 75, 150, 49, 98, 196, 149, 55, 110, 220, 165, 87, 174, 65, 130,
   25, 50, 100, 200, 141, 7, 14, 28, 56, 112, 224, 221, 167, 83, 166, 81,
   162, 89, 178, 121, 242, 249, 239, 195, 155, 43, 86, 172, 69, 138, 9, 18,
   36, 72, 144, 61, 122, 244, 245, 247, 243, 251, 235, 203, 139, 11, 22, 44,
   88, 176, 125, 250, 233, 207, 131, 27, 54, 108, 216, 173, 71, 142, 1, 2, 4,
   8, 16, 32, 64, 128, 29, 58, 116, 232, 205, 135, 19, 38, 76, 152, 45, 90,
   180, 117, 234, 201, 143, 3, 6, 12, 24, 48, 96, 192, 157, 39, 78, 156, 37,
   74, 148, 53, 106, 212, 181, 119, 238, 193, 159, 35, 70, 140, 5, 10, 20,
   40, 80, 160, 93, 186, 105, 210, 185, 111, 222, 161, 95, 190, 97, 194, 153,
   47, 94, 188, 101, 202, 137, 15, 30, 60, 120, 240, 253, 231, 211, 187, 107,
   214, 177, 127, 254, 225, 223, 163, 91, 182, 113, 226, 217, 175, 67, 134,
   17, 34, 68, 136, 13, 26, 52, 104, 208, 189, 103, 206, 129, 31, 62, 124,
   248, 237, 199, 147, 59, 118, 236, 197, 151, 51, 102, 204, 133, 23, 46, 92,
   184, 109, 218, 169, 79, 158, 33, 66, 132, 21, 42, 84, 168, 77, 154, 41,
   82, 164, 85, 170, 73, 146, 57, 114, 228, 213, 183, 115, 230, 209, 191, 99,
   198, 145, 63, 126, 252, 229, 215, 179, 123, 246, 241, 255, 227, 219, 171,
   75, 150, 49, 98, 196, 149, 55, 110, 220, 165, 87, 174, 65, 130, 25, 50,
   100, 200, 141, 7, 14, 28, 56, 112, 224, 221, 167, 83, 166, 81, 162, 89,
   178, 121, 242, 249, 239, 195, 155, 43, 86, 172, 69, 138, 9, 18, 36, 72,
   144, 61, 122, 244, 245, 247, 243, 251, 235, 203, 139, 11, 22, 44, 88, 176,
   125, 250, 233, 207, 131, 27, 54, 108, 216, 173, 71, 142]

/-- Modelled from the spec: the log table `oct_log` of `multiplication.hpp`,
which is not among the sources.  The spec asks for a 256-entry log table of
GF(256); entry `v` is the value `OCT_LOG[v]` of RFC 6330, section 5.7.4, for
`v = 1 .. 255`, and entry `0`, which has no logarithm, is `0`. -/
def oct_log : List Nat :=
  [0, 0, 1, 25, 2, 50, 26, 198, 3, 223, 51, 238, 27, 104, 199, 75, 4, 100,
   224, 14, 52, 141, 239, 129, 28, 193, 105, 248, 200, 8, 76, 113, 5, 138,
   101, 47, 225, 36, 15, 33, 53, 147, 142, 218, 240, 18, 130, 69, 29, 181,
   194, 125, 106, 39, 249, 185, 201, 154, 9, 120, 77, 228, 114, 166, 6, 191,
   139, 98, 102, 221, 48, 253, 226, 152, 37, 179, 16, 145, 34, 136, 54, 208,
   148, 206, 143, 150, 219, 189, 241, 210, 19, 92, 131, 56, 70, 64, 30, 66,
   182, 163, 195, 72, 126, 110, 107, 58, 40, 84, 250, 133, 186, 61, 202, 94,
   155, 159, 10, 21, 121, 43, 78, 212, 229, 172, 115, 243, 167, 87, 7, 112,
   192, 247, 140, 128, 99, 13, 103, 74, 222, 237, 49, 197, 254, 24, 227, 165,
   153, 119, 38, 184, 180, 124, 17, 68, 146, 217, 35, 32, 137, 46, 55, 63,
   209, 91, 149, 188, 207, 205, 144, 135, 151, 178, 220, 252, 190, 97, 242,
   86, 211, 171, 20, 42, 93, 158, 132, 60, 57, 83, 71, 109, 65, 162, 31, 45,
   67, 216, 183, 123, 164, 118, 196, 23, 73, 236, 127, 12, 111, 246, 108,
   161, 59, 82, 41, 157, 85, 170, 251, 96, 134, 177, 187, 204, 62, 90, 203,
   89, 95, 176, 156, 169, 160, 81, 11, 245, 22, 235, 122, 117, 44, 215, 79,
   174, 213, 233, 230, 231, 173, 232, 116, 214, 244, 234, 168, 80, 88, 175]

/-- Class `Symbol_Wrap<T>`: a run of `_size` elements of `T`, seen as
`_size * sizeof(T)` bytes. -/
structure Symbol_Wrap where
  _raw : List Nat
  _size : Nat
  deriving DecidableEq

namespace Symbol_Wrap

/-- The body of the loop of `operator*=` for one byte pair: the new value of
`_raw[i]`, stored as `uint8_t`.  The tables are parameters. -/
def times_byte (log exp : List Nat) (x y : Nat) : Nat :=
  if x = 0 ∨ y = 0 then 0
  else u8 (exp.getD (log.getD x 0 + exp.getD y 0) 0)

/-- The body of the loop of `operator/=` for one byte pair: the new value of
`_raw[i]`, stored as `uint8_t`.  The index is computed in `int`; it is never
negative, since a log is at least 0 and an entry of the exp table at most
255. -/
def div_byte (log exp : List Nat) (x y : Nat) : Nat :=
  if x ≠ 0 then u8 (exp.getD (log.getD x 0 + 255 - exp.getD y 0) 0)
  else x

/-- The loop `for (i = 0; i < _size * sizeof(T); ++i)` of the operators, with
body `f`: the first `_size * sizeof(T)` bytes are rewritten from the bytes of
both runs, the others are kept. -/
def loop (f : Nat → Nat → Nat) (sizeofT : Nat) (s a : Symbol_Wrap) : Symbol_Wrap :=
  ⟨List.zipWith f (s._raw.take (s._size * sizeofT)) (a._raw.take (s._size * sizeofT)) ++
      s._raw.drop (s._size * sizeofT), s._size⟩

/-- The method `operator+= (a)`: byte-wise exclusive or. -/
def plus (sizeofT : Nat) (s a : Symbol_Wrap) : Symbol_Wrap :=
  loop (fun x y => Nat.xor x y) sizeofT s a

/-- The method `operator*= (a)`. -/
def times (log exp : List Nat) (sizeofT : Nat) (s a : Symbol_Wrap) : Symbol_Wrap :=
  loop (times_byte log exp) sizeofT s a

/-- The method `operator/= (a)`. -/
def div (log exp : List Nat) (sizeofT : Nat) (s a : Symbol_Wrap) : Symbol_Wrap :=
  loop (div_byte log exp) sizeofT s a

end Symbol_Wrap

/-- The product of two bytes in the words of the spec: `0` if either operand
is `0`, otherwise `exp[log[a] + log[b]]`. -/
def spec_times (log exp : List Nat) (a b : Nat) : Nat :=
  if a = 0 ∨ b = 0 then 0 else exp.getD (log.getD a 0 + log.getD b 0) 0

/-- The table index that the constructor uses for one `upper_bound`:
`idx == 0 ? 0 : --idx`, with `idx` the value left by the scan of the table. -/
def Interleaver.KL_index (K_padded : List Nat) (upper_bound : Nat) : Nat :=
  if Interleaver.scan upper_bound K_padded = 0 then 0
  else Interleaver.scan upper_bound K_padded - 1

/-- A test that a table is strictly increasing: each entry is below the
next. -/
def increasing : List Nat → Bool
  | [] => true
  | [_] => true
  | x :: y :: rest => decide (x < y) && increasing (y :: rest)

/-! ## Theorems -/

/-- A value below 256 is stored unchanged in a `uint8_t`. -/
theorem u8_of_lt {n : Nat} (h : n < 256) : u8 n = n := Nat.mod_eq_of_lt h

/-- A value below 65536 is stored unchanged in a `uint16_t`. -/
theorem u16_of_lt {n : Nat} (h : n < 65536) : u16 n = n := Nat.mod_eq_of_lt h

/-- A value below 65536 is converted unchanged to `uint16_t`. -/
theorem cast_u16_of_lt {n : Nat} (h : n < 65536) : cast_u16 n = n := by
  unfold cast_u16
  rw [if_pos (by omega)]
  exact Nat.mod_eq_of_lt h

/-- Below `2^24`, `div_floor` is the integer quotient. -/
theorem div_floor_eq (a b : Nat) (hb : 0 < b) (ha : a < 16777216) (hb2 : b < 16777216) :
    div_floor a b = a / b := by
  unfold div_floor
  rw [if_neg (by omega), if_pos ⟨ha, hb2⟩]

/-- Below `2^24`, `div_ceil` is the ceiling of the quotient, from the floor and
the remainder. -/
theorem div_ceil_eq (a b : Nat) (hb : 0 < b) (ha : a < 16777216) (hb2 : b < 16777216) :
    div_ceil a b = if a % b = 0 then a / b else a / b + 1 := by
  unfold div_ceil
  rw [if_neg (by omega), if_pos ⟨ha, hb2⟩]
  have hdm := Nat.div_add_mod a b
  split
  · next h0 =>
    have ha : a = b * (a / b) := by omega
    have : a + b - 1 = (b - 1) + b * (a / b) := by omega
    rw [this, Nat.add_mul_div_left _ _ hb, Nat.div_eq_of_lt (by omega)]
    simp
  · next h0 =>
    have hlt := Nat.mod_lt a hb
    have : a + b - 1 = (a % b - 1) + b * (a / b + 1) := by
      rw [Nat.mul_add]; omega
    rw [this, Nat.add_mul_div_left _ _ hb, Nat.div_eq_of_lt (by omega)]
    simp

/-- Below `2^24`, the floor of a quotient is at most its ceiling. -/
theorem div_floor_le_div_ceil (a b : Nat) (hb : 0 < b) (ha : a < 16777216)
    (hb2 : b < 16777216) : div_floor a b ≤ div_ceil a b := by
  rw [div_ceil_eq a b hb ha hb2, div_floor_eq a b hb ha hb2]; split <;> omega

/-- Below `2^24`, the ceiling of `a / b` is at most `a`. -/
theorem div_ceil_le_self (a b : Nat) (hb : 0 < b) (ha : a < 16777216)
    (hb2 : b < 16777216) : div_ceil a b ≤ a := by
  rw [div_ceil_eq a b hb ha hb2]
  have hdm := Nat.div_add_mod a b
  have hle := Nat.div_le_self a b
  split
  · exact hle
  · next h0 =>
    have h2 : 2 ≤ b := by
      by_contra hc
      have : b = 1 := by omega
      rw [this, Nat.mod_one] at h0
      exact h0 rfl
    have h3 : 2 * (a / b) ≤ b * (a / b) := Nat.mul_le_mul_right _ h2
    omega

/-- Below `2^24`, the ceiling of `a / b` is at most `c` when `a <= c * b`. -/
theorem div_ceil_le_of_le_mul (a b c : Nat) (hb : 0 < b) (ha : a < 16777216)
    (hb2 : b < 16777216) (h : a ≤ c * b) : div_ceil a b ≤ c := by
  unfold div_ceil
  rw [if_neg (by omega), if_pos ⟨ha, hb2⟩]
  apply Nat.le_of_lt_succ
  rw [Nat.div_lt_iff_lt_mul hb, Nat.succ_mul]
  omega

/-- Below `2^24`, the ceiling of `a / b` times `b` is less than `a + b`. -/
theorem div_ceil_mul_lt (a b : Nat) (hb : 0 < b) (ha : a < 16777216)
    (hb2 : b < 16777216) : div_ceil a b * b < a + b := by
  rw [div_ceil_eq a b hb ha hb2]
  have h := Nat.div_add_mod a b
  have hlt := Nat.mod_lt a hb
  split
  · next h0 => rw [Nat.mul_comm]; omega
  · rw [Nat.add_mul, Nat.mul_comm]; omega

/-- The leading bit found by `ilog2` is at least `k` for a value of at least
`2^k`, when the fuel allows it. -/
theorem ilog2_ge (fuel : Nat) : ∀ (k n : Nat), k ≤ fuel → 2 ^ k ≤ n → k ≤ ilog2 fuel n := by
  induction fuel with
  | zero => intro k n hk _; omega
  | succ f ih =>
    intro k n hk h
    cases k with
    | zero => omega
    | succ k =>
      have h2 : 2 ≤ n := by
        have : 1 ≤ 2 ^ k := Nat.one_le_two_pow
        rw [Nat.pow_succ] at h
        omega
      unfold ilog2
      rw [if_neg (by omega)]
      have := ih k (n / 2) (by omega) (by
        rw [Nat.pow_succ] at h
        omega)
      omega

/-- The power of two at the leading bit found by `ilog2` does not exceed the
value. -/
theorem ilog2_le (fuel : Nat) : ∀ n : Nat, 1 ≤ n → 2 ^ ilog2 fuel n ≤ n := by
  induction fuel with
  | zero => intro n hn; exact hn
  | succ f ih =>
    intro n hn
    unfold ilog2
    split
    · exact hn
    · have := ih (n / 2) (by omega)
      rw [Nat.pow_succ]
      omega

/-- The leading bit found by `ilog2` is at most `k` for a value below
`2^(k+1)`. -/
theorem ilog2_le_of_lt (fuel : Nat) : ∀ (k n : Nat), n < 2 ^ (k + 1) → ilog2 fuel n ≤ k := by
  induction fuel with
  | zero => intro k n _; exact Nat.zero_le _
  | succ f ih =>
    intro k n h
    unfold ilog2
    split
    · exact Nat.zero_le _
    · next h2 =>
      cases k with
      | zero =>
        exfalso
        have e : (2 : Nat) ^ (0 + 1) = 2 := rfl
        omega
      | succ j =>
        have := ih j (n / 2) (by
          rw [Nat.pow_succ] at h
          omega)
        omega

/-- The heart of the exactness of binary32 below `2^24`: the rounded quotient
of `x >= 1` by `y`, both below `2^24`, is `(x / y) * 2^128` when `y` divides
`x`, and lies strictly between `(x / y) * 2^128` and `(x / y + 1) * 2^128`
otherwise. -/
theorem f32_quot_bounds (x y : Nat) (hy : 0 < y) (hx1 : 1 ≤ x) (hx : x < 16777216)
    (hy2 : y < 16777216) :
    (x % y = 0 → f32_quot x y = x / y * 2 ^ 128) ∧
    (x % y ≠ 0 → x / y * 2 ^ 128 < f32_quot x y ∧ f32_quot x y < (x / y + 1) * 2 ^ 128) := by
  have hT : (0 : Nat) < 2 ^ 128 := Nat.two_pow_pos _
  have e24 : (2 : Nat) ^ 24 = 16777216 := by decide
  -- the scaled quotient and its leading bit
  have hn_lo : 2 ^ 104 ≤ x * 2 ^ 128 / y := by
    rw [Nat.le_div_iff_mul_le hy]
    have h1 : 2 ^ 104 * y ≤ 2 ^ 104 * 2 ^ 24 := Nat.mul_le_mul_left _ (by omega)
    have h2 : (2 : Nat) ^ 104 * 2 ^ 24 = 2 ^ 128 := by rw [← Nat.pow_add]
    have h3 : 1 * 2 ^ 128 ≤ x * 2 ^ 128 := Nat.mul_le_mul_right _ hx1
    omega
  have hn_hi : x * 2 ^ 128 / y < 2 ^ (151 + 1) := by
    have h1 : x * 2 ^ 128 / y ≤ x * 2 ^ 128 := Nat.div_le_self _ _
    have h2 : x * 2 ^ 128 < 2 ^ 24 * 2 ^ 128 := Nat.mul_lt_mul_of_pos_right (by omega) hT
    have h3 : (2 : Nat) ^ 24 * 2 ^ 128 = 2 ^ (151 + 1) := by rw [← Nat.pow_add]
    omega
  have hn1 : 1 ≤ x * 2 ^ 128 / y := le_trans Nat.one_le_two_pow hn_lo
  have hlb_lo := ilog2_ge 256 104 _ (by decide) hn_lo
  have hlb_hi := ilog2_le_of_lt 256 151 _ hn_hi
  have hlb := ilog2_le 256 _ hn1
  generalize hlbdef : ilog2 256 (x * 2 ^ 128 / y) = lb at hlb_lo hlb_hi hlb
  have hny : x * 2 ^ 128 / y * y ≤ x * 2 ^ 128 := Nat.div_mul_le_self _ _
  have hsplit : (2 : Nat) ^ lb = 2 ^ 23 * 2 ^ (lb - 23) := by
    rw [← Nat.pow_add]
    congr 1
    omega
  have hTsplit : (2 : Nat) ^ 128 = 2 ^ (lb - 23) * 2 ^ (128 - (lb - 23)) := by
    rw [← Nat.pow_add]
    congr 1
    omega
  have hE : (0 : Nat) < 2 ^ (lb - 23) := Nat.two_pow_pos _
  have hD : 0 < y * 2 ^ (lb - 23) := Nat.mul_pos hy hE
  -- the last bit of the significand weighs less than `2 * 2^128 / y`
  have hD2 : y * 2 ^ (lb - 23) < 2 * 2 ^ 128 := by
    have h1 : 2 ^ lb * y ≤ x * 2 ^ 128 := le_trans (Nat.mul_le_mul_right y hlb) hny
    have h2 : x * 2 ^ 128 < 2 ^ 24 * 2 ^ 128 := Nat.mul_lt_mul_of_pos_right (by omega) hT
    have h3 : 2 ^ 23 * (y * 2 ^ (lb - 23)) = 2 ^ lb * y := by
      rw [hsplit]
      ring
    have h4 : (2 : Nat) ^ 24 * 2 ^ 128 = 2 ^ 23 * (2 * 2 ^ 128) := by
      have : (2 : Nat) ^ 24 = 2 ^ 23 * 2 := by decide
      rw [this]
      ring
    have h5 : 2 ^ 23 * (y * 2 ^ (lb - 23)) < 2 ^ 23 * (2 * 2 ^ 128) := by omega
    exact Nat.lt_of_mul_lt_mul_left h5
  have hdm := Nat.div_add_mod (x * 2 ^ 128) (y * 2 ^ (lb - 23))
  have hr := Nat.mod_lt (x * 2 ^ 128) hD
  have hxy := Nat.div_add_mod x y
  have hρ := Nat.mod_lt x hy
  unfold f32_quot
  simp only [hlbdef]
  constructor
  · intro h0
    have hx' : x = y * (x / y) := by omega
    have ht : x * 2 ^ 128 = y * 2 ^ (lb - 23) * (x / y * 2 ^ (128 - (lb - 23))) := by
      conv_lhs => rw [hx', hTsplit]
      ring
    have hm : x * 2 ^ 128 / (y * 2 ^ (lb - 23)) = x / y * 2 ^ (128 - (lb - 23)) := by
      rw [ht, Nat.mul_div_cancel_left _ hD]
    have hr0 : x * 2 ^ 128 % (y * 2 ^ (lb - 23)) = 0 := by
      rw [ht, Nat.mul_mod_right]
    rw [hr0, hm, if_neg (by omega)]
    rw [Nat.mul_assoc, Nat.mul_comm (2 ^ (128 - (lb - 23))), ← hTsplit]
  · intro h0
    have hρ1 : 1 ≤ x % y := Nat.pos_of_ne_zero h0
    -- everything is compared after multiplication by `y`
    have hxT : x * 2 ^ 128 = x / y * 2 ^ 128 * y + x % y * 2 ^ 128 := by
      conv_lhs => rw [← hxy]
      ring
    have hρT1 : 1 * 2 ^ 128 ≤ x % y * 2 ^ 128 := Nat.mul_le_mul_right _ hρ1
    have hρT2 : (x % y + 1) * 2 ^ 128 ≤ y * 2 ^ 128 := Nat.mul_le_mul_right _ hρ
    have hnext : (x / y + 1) * 2 ^ 128 * y = x / y * 2 ^ 128 * y + y * 2 ^ 128 := by ring
    rw [Nat.add_mul] at hρT2
    split
    · next hup =>
      have hFy : (x * 2 ^ 128 / (y * 2 ^ (lb - 23)) + 1) * 2 ^ (lb - 23) * y =
          y * 2 ^ (lb - 23) * (x * 2 ^ 128 / (y * 2 ^ (lb - 23))) + y * 2 ^ (lb - 23) := by
        ring
      constructor
      · apply Nat.lt_of_mul_lt_mul_right (a := y)
        omega
      · apply Nat.lt_of_mul_lt_mul_right (a := y)
        omega
    · next hdown =>
      have hFy : x * 2 ^ 128 / (y * 2 ^ (lb - 23)) * 2 ^ (lb - 23) * y =
          y * 2 ^ (lb - 23) * (x * 2 ^ 128 / (y * 2 ^ (lb - 23))) := by
        ring
      constructor
      · apply Nat.lt_of_mul_lt_mul_right (a := y)
        omega
      · apply Nat.lt_of_mul_lt_mul_right (a := y)
        omega

/-- Binary32 is exact for the floor below `2^24`: the floor of the rounded
quotient of `x` by `y`, both below `2^24`, is the integer quotient. -/
theorem f32_quot_floor (x y : Nat) (hy : 0 < y) (hx : x < 16777216) (hy2 : y < 16777216) :
    f32_quot x y / 2 ^ 128 = x / y := by
  have hT : (0 : Nat) < 2 ^ 128 := Nat.two_pow_pos _
  by_cases hx0 : x = 0
  · subst hx0
    simp [f32_quot, ilog2]
  · obtain ⟨h1, h2⟩ := f32_quot_bounds x y hy (by omega) hx hy2
    by_cases h0 : x % y = 0
    · rw [h1 h0, Nat.mul_div_cancel _ hT]
    · obtain ⟨hlo, hhi⟩ := h2 h0
      exact Nat.div_eq_of_lt_le (le_of_lt hlo) hhi

/-- Binary32 is exact for the ceiling below `2^24`: the ceiling of the rounded
quotient of `x` by `y`, both below `2^24`, is the ceiling of the exact
quotient. -/
theorem f32_quot_ceil (x y : Nat) (hy : 0 < y) (hx : x < 16777216) (hy2 : y < 16777216) :
    (f32_quot x y + (2 ^ 128 - 1)) / 2 ^ 128 = (x + y - 1) / y := by
  have hT : (0 : Nat) < 2 ^ 128 := Nat.two_pow_pos _
  have hxy := Nat.div_add_mod x y
  have hρ := Nat.mod_lt x hy
  by_cases hx0 : x = 0
  · subst hx0
    have e1 : f32_quot 0 y = 0 := by simp [f32_quot, ilog2]
    rw [e1, Nat.zero_add, Nat.zero_add, Nat.div_eq_of_lt (by omega),
      Nat.div_eq_of_lt (by omega)]
  · obtain ⟨h1, h2⟩ := f32_quot_bounds x y hy (by omega) hx hy2
    by_cases h0 : x % y = 0
    · have hr : (x + y - 1) / y = x / y := by
        have e : x + y - 1 = (y - 1) + y * (x / y) := by omega
        rw [e, Nat.add_mul_div_left _ _ hy, Nat.div_eq_of_lt (by omega), Nat.zero_add]
      rw [h1 h0, hr]
      have e : x / y * 2 ^ 128 + (2 ^ 128 - 1) = (2 ^ 128 - 1) + 2 ^ 128 * (x / y) := by
        rw [Nat.mul_comm]
        omega
      rw [e, Nat.add_mul_div_left _ _ hT, Nat.div_eq_of_lt (by omega), Nat.zero_add]
    · obtain ⟨hlo, hhi⟩ := h2 h0
      have hr : (x + y - 1) / y = x / y + 1 := by
        have e : x + y - 1 = (x % y - 1) + y * (x / y + 1) := by
          rw [Nat.mul_add]
          omega
        rw [e, Nat.add_mul_div_left _ _ hy, Nat.div_eq_of_lt (by omega), Nat.zero_add]
      rw [hr]
      apply Nat.div_eq_of_lt_le
      · rw [Nat.add_mul] at hhi ⊢
        omega
      · have e : (x / y + 1 + 1) * 2 ^ 128 = (x / y + 1) * 2 ^ 128 + 2 ^ 128 := by
          rw [Nat.add_mul (x / y + 1) 1, Nat.one_mul]
        rw [e]
        omega

/-- Binary32 holds every integer below `2^24`: the conversion written with
`f32_quot` returns the integer. -/
theorem f32_quot_one (n : Nat) (h : n < 16777216) : f32_quot n 1 / 2 ^ 128 = n := by
  rw [f32_quot_floor n 1 (by decide) h (by decide), Nat.div_one]

/-- The conversion `f32` is the binary32 rounding of `f32_quot` for every
value: the shortcut below `2^24` does not change it. -/
theorem f32_binary32 (n : Nat) : f32 n = f32_quot n 1 / 2 ^ 128 := by
  unfold f32
  split
  · next h => exact (f32_quot_one n h).symm
  · rfl

/-- The function `div_floor` is the floor of the binary32 quotient of the
converted operands, for every dividend and every non-zero divisor: the
integer division written below `2^24` does not change it. -/
theorem div_floor_binary32 (a b : Nat) (hb : 0 < b) :
    div_floor a b =
      f32_quot (f32_quot a 1 / 2 ^ 128) (f32_quot b 1 / 2 ^ 128) / 2 ^ 128 := by
  rw [← f32_binary32 a, ← f32_binary32 b]
  unfold div_floor
  rw [if_neg (by omega)]
  split
  · next h =>
    have ea : f32 a = a := by
      unfold f32
      rw [if_pos h.1]
    have eb : f32 b = b := by
      unfold f32
      rw [if_pos h.2]
    rw [ea, eb, f32_quot_floor a b hb h.1 h.2]
  · rfl

/-- The function `div_ceil` is the ceiling of the binary32 quotient of the
converted operands, for every dividend and every non-zero divisor: the
integer division written below `2^24` does not change it. -/
theorem div_ceil_binary32 (a b : Nat) (hb : 0 < b) :
    div_ceil a b =
      (f32_quot (f32_quot a 1 / 2 ^ 128) (f32_quot b 1 / 2 ^ 128) + (2 ^ 128 - 1)) /
        2 ^ 128 := by
  rw [← f32_binary32 a, ← f32_binary32 b]
  unfold div_ceil
  rw [if_neg (by omega)]
  split
  · next h =>
    have ea : f32 a = a := by
      unfold f32
      rw [if_pos h.1]
    have eb : f32 b = b := by
      unfold f32
      rw [if_pos h.2]
    rw [ea, eb, f32_quot_ceil a b hb h.1 h.2]
  · rfl


/-- The binary32 quotient of `x` by `y` is at least `2^k` when `x / y` is. -/
theorem f32_quot_ge (x y k : Nat) (hy : 0 < y) (hk : k ≤ 128) (h : 2 ^ k * y ≤ x) :
    2 ^ (k + 128) ≤ f32_quot x y := by
  have hn : 2 ^ (k + 128) ≤ x * 2 ^ 128 / y := by
    rw [Nat.le_div_iff_mul_le hy, Nat.pow_add, Nat.mul_right_comm]
    exact Nat.mul_le_mul_right _ h
  have hn1 : 1 ≤ x * 2 ^ 128 / y := le_trans Nat.one_le_two_pow hn
  have hlb := ilog2_ge 256 (k + 128) _ (by omega) hn
  have hle := ilog2_le 256 _ hn1
  have hm : 2 ^ 23 ≤ x * 2 ^ 128 / (y * 2 ^ (ilog2 256 (x * 2 ^ 128 / y) - 23)) := by
    rw [← Nat.div_div_eq_div_mul, Nat.le_div_iff_mul_le (Nat.two_pow_pos _), ← Nat.pow_add]
    have e : 23 + (ilog2 256 (x * 2 ^ 128 / y) - 23) = ilog2 256 (x * 2 ^ 128 / y) := by
      omega
    rw [e]
    exact hle
  have hF : 2 ^ (k + 128) ≤
      x * 2 ^ 128 / (y * 2 ^ (ilog2 256 (x * 2 ^ 128 / y) - 23)) *
        2 ^ (ilog2 256 (x * 2 ^ 128 / y) - 23) := by
    refine le_trans ?_ (Nat.mul_le_mul_right _ hm)
    rw [← Nat.pow_add]
    exact Nat.pow_le_pow_right (by decide) (by omega)
  unfold f32_quot
  simp only
  split
  · refine le_trans hF (Nat.mul_le_mul_right _ (by omega))
  · exact hF

/-- The conversion to `float` of a value of at least `2^24` is at least
`2^24`. -/
theorem f32_ge (n : Nat) (h : 16777216 ≤ n) : 16777216 ≤ f32 n := by
  unfold f32
  rw [if_neg (by omega), Nat.le_div_iff_mul_le (Nat.two_pow_pos _)]
  have := f32_quot_ge n 1 24 (by decide) (by decide) (by omega)
  rw [Nat.pow_add] at this
  exact this

/-- From `2^24` on, `div_floor` by a divisor `b` with `2^k * b <= 2^24` is at
least `2^k`. -/
theorem div_floor_ge (a b k : Nat) (hb : 0 < b) (hb2 : b < 16777216)
    (ha : 16777216 ≤ a) (hk : k ≤ 128) (h : 2 ^ k * b ≤ 16777216) :
    2 ^ k ≤ div_floor a b := by
  have hfa := f32_ge a ha
  have hfb : f32 b = b := by
    unfold f32
    rw [if_pos hb2]
  unfold div_floor
  rw [if_neg (by omega), if_neg (by omega), hfb,
    Nat.le_div_iff_mul_le (Nat.two_pow_pos _), ← Nat.pow_add]
  exact f32_quot_ge (f32 a) b k hb hk (by omega)

/-- From `2^24` on, `div_ceil` by a divisor `b` with `2^k * b <= 2^24` is at
least `2^k`. -/
theorem div_ceil_ge (a b k : Nat) (hb : 0 < b) (hb2 : b < 16777216)
    (ha : 16777216 ≤ a) (hk : k ≤ 128) (h : 2 ^ k * b ≤ 16777216) :
    2 ^ k ≤ div_ceil a b := by
  have hfa := f32_ge a ha
  have hfb : f32 b = b := by
    unfold f32
    rw [if_pos hb2]
  unfold div_ceil
  rw [if_neg (by omega), if_neg (by omega), hfb,
    Nat.le_div_iff_mul_le (Nat.two_pow_pos _), ← Nat.pow_add]
  have := f32_quot_ge (f32 a) b k hb hk (by omega)
  omega

/-- A quotient `div_ceil (a, b)` of at most 65535 by a divisor of at most 255
has a dividend below `2^24`. -/
theorem lt_of_div_ceil_le (a b : Nat) (hb : 0 < b) (hb2 : b ≤ 255)
    (h : div_ceil a b ≤ 65535) : a < 16777216 := by
  by_contra hc
  have := div_ceil_ge a b 16 hb (by omega) (by omega) (by decide) (by omega)
  omega

/-- A quotient `div_ceil (a, b)` of at most 255 by a 16-bit divisor has a
dividend below `2^24`. -/
theorem lt_of_div_ceil_le_255 (a b : Nat) (hb : 0 < b) (hb2 : b < 65536)
    (h : div_ceil a b ≤ 255) : a < 16777216 := by
  by_contra hc
  have := div_ceil_ge a b 8 hb (by omega) (by omega) (by decide) (by omega)
  omega

/-- The explicit value of `Partition (obj_size, partitions)` when the sizes
fit their 16-bit members. -/
theorem Partition.ctor_eq (total parts : Nat) (h1 : 1 ≤ parts) (h2 : parts ≤ 255)
    (h3 : div_ceil total parts ≤ 65535) :
    Partition.ctor total parts =
      ⟨(total % parts, if total % parts = 0 then 0 else total / parts + 1),
       (parts - total % parts, total / parts)⟩ := by
  have hb : 0 < parts := h1
  have ha : total < 16777216 := lt_of_div_ceil_le total parts hb h2 h3
  have hfl : total / parts ≤ 65535 := by
    have := div_floor_le_div_ceil total parts hb ha (by omega)
    rw [div_floor_eq total parts hb ha (by omega)] at this
    omega
  have hmod := Nat.mod_lt total hb
  have hdm := Nat.div_add_mod total parts
  have hsub : total - total / parts * parts = total % parts := by
    rw [Nat.mul_comm]; omega
  unfold Partition.ctor
  simp only [u8_of_lt (show parts < 256 by omega), div_floor_eq total parts hb ha (by omega),
    cast_u16_of_lt (show total / parts < 65536 by omega), hsub,
    u16_of_lt (show total % parts < 65536 by omega),
    cast_u16_of_lt (show div_ceil total parts < 65536 by omega)]
  have hb2 : u16 (parts + 65536 - total % parts) = parts - total % parts := by
    unfold u16; omega
  rw [hb2, div_ceil_eq total parts hb ha (by omega)]
  by_cases h0 : total % parts = 0 <;> simp [h0]

/-- Claim C1, as amended: for `parts` in `1..255` and every `total` whose
per-part size `ceil(total/parts)` fits the 16-bit members (at most 65535),
`Partition (total, parts)` has `num(0)*size(0) + num(1)*size(1) = total` and
`num(0) + num(1) = parts`. -/
theorem Partition.sum_invariant (total parts : Nat) (h1 : 1 ≤ parts)
    (h2 : parts ≤ 255) (h3 : div_ceil total parts ≤ 65535) :
    (Partition.ctor total parts).num 0 * (Partition.ctor total parts).size 0 +
        (Partition.ctor total parts).num 1 * (Partition.ctor total parts).size 1 = total ∧
      (Partition.ctor total parts).num 0 + (Partition.ctor total parts).num 1 = parts := by
  rw [Partition.ctor_eq total parts h1 h2 h3]
  have hb : 0 < parts := h1
  have hmod := Nat.mod_lt total hb
  have hdm := Nat.div_add_mod total parts
  simp only [Partition.num, Partition.size, if_true, if_false, Nat.one_ne_zero]
  constructor
  · by_cases h0 : total % parts = 0
    · simp only [h0, if_true, Nat.mul_zero, Nat.zero_add, Nat.sub_zero]
      omega
    · simp only [h0, if_false]
      have e : (parts - total % parts) * (total / parts) =
          parts * (total / parts) - total % parts * (total / parts) :=
        Nat.sub_mul _ _ _
      have hle : total % parts * (total / parts) ≤ parts * (total / parts) :=
        Nat.mul_le_mul_right _ (le_of_lt hmod)
      rw [e, Nat.mul_add, Nat.mul_one]
      omega
  · omega

/-- Witness of `Partition.sum_invariant` at `total = 10`, `parts = 3`. -/
theorem Partition.sum_invariant_witness :
    (1 ≤ 3 ∧ 3 ≤ 255 ∧ div_ceil 10 3 ≤ 65535) ∧
    ((Partition.ctor 10 3).num 0 * (Partition.ctor 10 3).size 0 +
        (Partition.ctor 10 3).num 1 * (Partition.ctor 10 3).size 1 = 10 ∧
      (Partition.ctor 10 3).num 0 + (Partition.ctor 10 3).num 1 = 3) :=
  ⟨by decide, Partition.sum_invariant 10 3 (by decide) (by decide) (by decide)⟩

/-- Claim C1 fails as stated: for `total = 70000`, `parts = 1` the sizes do
not fit 16 bits and `num(0)*size(0) + num(1)*size(1)` is `4464`. -/
theorem Partition.sum_invariant_fails :
    (Partition.ctor 70000 1).num 0 * (Partition.ctor 70000 1).size 0 +
      (Partition.ctor 70000 1).num 1 * (Partition.ctor 70000 1).size 1 = 4464 ∧
    ¬ ((Partition.ctor 70000 1).num 0 * (Partition.ctor 70000 1).size 0 +
      (Partition.ctor 70000 1).num 1 * (Partition.ctor 70000 1).size 1 = 70000) := by
  decide

/-- Claim C2, as amended: for `parts` in `1..255` and every `total` with
`ceil(total/parts)` at most 65535, `Partition (total, parts)` has
`size(0) = size(1) + 1` when `num(0) > 0` and `size(0) = 0` when
`num(0) = 0`. -/
theorem Partition.balance (total parts : Nat) (h1 : 1 ≤ parts)
    (h2 : parts ≤ 255) (h3 : div_ceil total parts ≤ 65535) :
    (0 < (Partition.ctor total parts).num 0 →
        (Partition.ctor total parts).size 0 = (Partition.ctor total parts).size 1 + 1) ∧
      ((Partition.ctor total parts).num 0 = 0 →
        (Partition.ctor total parts).size 0 = 0) := by
  rw [Partition.ctor_eq total parts h1 h2 h3]
  simp only [Partition.num, Partition.size, if_true, if_false, Nat.one_ne_zero]
  constructor
  · intro h
    have h0 : total % parts ≠ 0 := by omega
    simp [h0]
  · intro h
    simp [h]

/-- Witness of `Partition.balance` at `total = 10`, `parts = 3`. -/
theorem Partition.balance_witness :
    (1 ≤ 3 ∧ 3 ≤ 255 ∧ div_ceil 10 3 ≤ 65535) ∧
    ((0 < (Partition.ctor 10 3).num 0 →
        (Partition.ctor 10 3).size 0 = (Partition.ctor 10 3).size 1 + 1) ∧
      ((Partition.ctor 10 3).num 0 = 0 → (Partition.ctor 10 3).size 0 = 0)) :=
  ⟨by decide, Partition.balance 10 3 (by decide) (by decide) (by decide)⟩

/-- Claim C2 fails as stated: for `total = 131071`, `parts = 2` there is one
block of the first kind (`num(0) = 1`), `size(1)` is `65535`, and `size(0)`
is `0`, not `65536`. -/
theorem Partition.balance_fails :
    0 < (Partition.ctor 131071 2).num 0 ∧
    (Partition.ctor 131071 2).size 1 = 65535 ∧
    (Partition.ctor 131071 2).size 0 = 0 ∧
    ¬ ((Partition.ctor 131071 2).size 0 = (Partition.ctor 131071 2).size 1 + 1) := by
  decide

/-- A partition group with a positive `tot` has a non-zero `size`. -/
theorem Partition.size_ne_zero_of_tot_pos (P : Partition) (w : Nat)
    (h : 0 < P.tot w) : P.size w ≠ 0 := by
  intro hz
  unfold Partition.tot at h
  unfold Partition.size at hz
  by_cases hw : w = 0
  · simp only [hw, if_true] at h hz
    rw [hz] at h
    simp [u16] at h
  · simp only [hw, if_false] at h hz
    rw [hz] at h
    simp [u16] at h

/-- Reading below the length of the buffer gives the element there. -/
theorem Symbol_it.read_lt (raw : List Nat) (i : Nat) (h : i < raw.length) :
    some (Symbol_it.read raw i) = raw[i]? := by
  unfold Symbol_it.read
  rw [if_neg (by omega), List.getD_eq_getElem?_getD, List.getElem?_eq_getElem h]
  rfl

/-- Reading at or past the length of the buffer gives the zero element. -/
theorem Symbol_it.read_ge (raw : List Nat) (i : Nat) (h : raw.length ≤ i) :
    Symbol_it.read raw i = 0 := by
  unfold Symbol_it.read
  rw [if_pos h]

/-- A product below `2^31` is not changed by the `int` arithmetic. -/
theorem int_mul_of_lt {a b : Nat} (h : a * b < 2147483648) : int_mul a b = a * b := by
  unfold int_mul
  rw [if_pos h]

/-- A value below `2^64` is not changed by the `size_t` arithmetic. -/
theorem size_t_of_lt {n : Nat} (h : n < 2 ^ 64) : size_t n = n := Nat.mod_eq_of_lt h

/-- For a position below `tot(0) + tot(1)` the index computed by `operator[]`
is the index of the spec, as long as the products `_symbol_id * size` and
`tot(0) * _k` stay below `2^31` and the index of the spec below `2^64`. -/
theorem Symbol_it.index_eq (s : Symbol_it) (pos : Nat)
    (hpos : pos < s._sub_blocks.tot 0 + s._sub_blocks.tot 1)
    (h0 : s._symbol_id * s._sub_blocks.size 0 < 2147483648)
    (h1 : s._symbol_id * s._sub_blocks.size 1 < 2147483648)
    (h2 : s._sub_blocks.tot 0 * s._k < 2147483648)
    (h3 : spec_index s._start s._k s._symbol_id s._sub_blocks pos < 2 ^ 64) :
    s.index pos = some (spec_index s._start s._k s._symbol_id s._sub_blocks pos) := by
  unfold Symbol_it.index
  unfold spec_index at h3 ⊢
  by_cases hlt : pos < s._sub_blocks.tot 0
  · have hs := Partition.size_ne_zero_of_tot_pos s._sub_blocks 0 (by omega)
    simp only [hlt, if_true, hs, if_false] at h3 ⊢
    rw [int_mul_of_lt h0, size_t_of_lt h3]
  · have hs := Partition.size_ne_zero_of_tot_pos s._sub_blocks 1 (by omega)
    simp only [hlt, if_false, hs] at h3 ⊢
    rw [int_mul_of_lt h1, int_mul_of_lt h2, size_t_of_lt h3]

/-- For a position below `tot(0) + tot(1)`, `operator[]` reads the buffer at
the index of the spec, as long as the products `_symbol_id * size` and
`tot(0) * _k` stay below `2^31` and the index of the spec below `2^64`. -/
theorem Symbol_it.get_eq (s : Symbol_it) (pos : Nat)
    (hpos : pos < s._sub_blocks.tot 0 + s._sub_blocks.tot 1)
    (h0 : s._symbol_id * s._sub_blocks.size 0 < 2147483648)
    (h1 : s._symbol_id * s._sub_blocks.size 1 < 2147483648)
    (h2 : s._sub_blocks.tot 0 * s._k < 2147483648)
    (h3 : spec_index s._start s._k s._symbol_id s._sub_blocks pos < 2 ^ 64) :
    s.get pos =
      some (Symbol_it.read s._raw
        (spec_index s._start s._k s._symbol_id s._sub_blocks pos)) := by
  unfold Symbol_it.get
  rw [Symbol_it.index_eq s pos hpos h0 h1 h2 h3]
  rfl

/-- Inside the range of the index arithmetic, `operator[]` does what the spec
says: for every symbol view `s` and every `pos < tot(0) + tot(1)`, when the
products `_symbol_id * size(0)`, `_symbol_id * size(1)` and `tot(0) * _k` are
below `2^31` and the index of the spec is below `2^64`, no branch divides by
zero, the index computed is the one of the spec, and `operator[]` returns
`raw[i]` when `i < raw.size()` and the zero element when `i >= raw.size()`. -/
theorem Symbol_it.get_spec_in_range (s : Symbol_it) (pos : Nat)
    (hpos : pos < s._sub_blocks.tot 0 + s._sub_blocks.tot 1)
    (h0 : s._symbol_id * s._sub_blocks.size 0 < 2147483648)
    (h1 : s._symbol_id * s._sub_blocks.size 1 < 2147483648)
    (h2 : s._sub_blocks.tot 0 * s._k < 2147483648)
    (h3 : spec_index s._start s._k s._symbol_id s._sub_blocks pos < 2 ^ 64) :
    (pos < s._sub_blocks.tot 0 → s._sub_blocks.size 0 ≠ 0) ∧
    (¬ pos < s._sub_blocks.tot 0 → s._sub_blocks.size 1 ≠ 0) ∧
    s.index pos = some (spec_index s._start s._k s._symbol_id s._sub_blocks pos) ∧
    (spec_index s._start s._k s._symbol_id s._sub_blocks pos < s._raw.length →
      s.get pos =
        s._raw[spec_index s._start s._k s._symbol_id s._sub_blocks pos]?) ∧
    (s._raw.length ≤ spec_index s._start s._k s._symbol_id s._sub_blocks pos →
      s.get pos = some 0) := by
  refine ⟨fun h => Partition.size_ne_zero_of_tot_pos _ 0 (by omega),
    fun h => Partition.size_ne_zero_of_tot_pos _ 1 (by omega),
    Symbol_it.index_eq s pos hpos h0 h1 h2 h3, ?_, ?_⟩
  · intro hi
    rw [Symbol_it.get_eq s pos hpos h0 h1 h2 h3, Symbol_it.read_lt _ _ hi]
  · intro hi
    rw [Symbol_it.get_eq s pos hpos h0 h1 h2 h3, Symbol_it.read_ge _ _ hi]

/-- The first test of the constructor rejects every configuration named in the
invariants: when one of them is violated, one of the four tested conditions
holds. -/
theorem Interleaver.first_test_of_bad (al min_subsymbol_size symbol_size : Nat)
    (hbad : symbol_size % al ≠ 0 ∨ min_subsymbol_size < al ∨
      min_subsymbol_size % al ≠ 0 ∨ min_subsymbol_size > symbol_size ∨
      symbol_size < al) :
    symbol_size % al ≠ 0 ∨ min_subsymbol_size < al ∨
      min_subsymbol_size % al ≠ 0 ∨ min_subsymbol_size > symbol_size := by
  rcases hbad with h | h | h | h | h
  · exact Or.inl h
  · exact Or.inr (Or.inl h)
  · exact Or.inr (Or.inr (Or.inl h))
  · exact Or.inr (Or.inr (Or.inr h))
  · by_cases h0 : symbol_size = 0
    · by_cases hm : min_subsymbol_size < al
      · exact Or.inr (Or.inl hm)
      · exact Or.inr (Or.inr (Or.inr (by omega)))
    · left
      rw [Nat.mod_eq_of_lt h]
      exact h0

/-- Claim C9, as amended: for every input in which
`symbol_size % alignment != 0`, or `min_subsymbol_size < alignment`, or
`min_subsymbol_size % alignment != 0`, or `min_subsymbol_size > symbol_size`,
or `symbol_size < alignment`: with assertions compiled out the constructor
finishes with the instance flagged invalid; with assertions compiled in it
aborts when one of the four asserted conditions fails, and finishes with the
instance flagged invalid otherwise. -/
theorem Interleaver.ctor_bad_configuration (K : List Nat) (mem : Indeterminate)
    (sizeofT : Nat) (raw : List Nat)
    (min_subsymbol_size max_block_decodable symbol_size : Nat)
    (hal2 : sizeofT < 256)
    (hbad : symbol_size % sizeofT ≠ 0 ∨ min_subsymbol_size < sizeofT ∨
      min_subsymbol_size % sizeofT ≠ 0 ∨ min_subsymbol_size > symbol_size ∨
      symbol_size < sizeofT) :
    (∃ i, Interleaver.ctor false K mem sizeofT raw min_subsymbol_size
        max_block_decodable symbol_size = some i ∧ i.valid = false) ∧
    ((symbol_size < sizeofT ∨ symbol_size % sizeofT ≠ 0 ∨
        min_subsymbol_size < sizeofT ∨ min_subsymbol_size % sizeofT ≠ 0) →
      Interleaver.ctor true K mem sizeofT raw min_subsymbol_size
        max_block_decodable symbol_size = none) ∧
    (¬ (symbol_size < sizeofT ∨ symbol_size % sizeofT ≠ 0 ∨
        min_subsymbol_size < sizeofT ∨ min_subsymbol_size % sizeofT ≠ 0) →
      ∃ i, Interleaver.ctor true K mem sizeofT raw min_subsymbol_size
        max_block_decodable symbol_size = some i ∧ i.valid = false) := by
  have hfirst := Interleaver.first_test_of_bad sizeofT min_subsymbol_size
    symbol_size hbad
  refine ⟨?_, ?_, ?_⟩
  · refine ⟨⟨sizeofT, raw, mem._sub_blocks, mem._source_symbols, 0, symbol_size, 0,
      mem._source_blocks, Partition.default, Partition.default⟩, ?_, rfl⟩
    unfold Interleaver.ctor
    simp only [u8_of_lt hal2, Bool.false_and, Bool.false_eq_true, if_false]
    rw [if_pos hfirst]
  · intro h
    have hA : (decide (symbol_size ≥ sizeofT) && decide (symbol_size % sizeofT = 0) &&
        decide (min_subsymbol_size ≥ sizeofT) &&
        decide (min_subsymbol_size % sizeofT = 0)) = false := by
      rw [Bool.eq_false_iff]
      intro hc
      simp only [Bool.and_eq_true, decide_eq_true_eq] at hc
      omega
    unfold Interleaver.ctor
    simp only [u8_of_lt hal2, hA, Bool.not_false, Bool.and_self, if_true]
  · intro h
    have hA : (decide (symbol_size ≥ sizeofT) && decide (symbol_size % sizeofT = 0) &&
        decide (min_subsymbol_size ≥ sizeofT) &&
        decide (min_subsymbol_size % sizeofT = 0)) = true := by
      simp only [Bool.and_eq_true, decide_eq_true_eq]
      omega
    refine ⟨⟨sizeofT, raw, mem._sub_blocks, mem._source_symbols, 0, symbol_size, 0,
      mem._source_blocks, Partition.default, Partition.default⟩, ?_, rfl⟩
    unfold Interleaver.ctor
    simp only [u8_of_lt hal2, hA, Bool.not_true, Bool.and_false, Bool.false_eq_true,
      if_false]
    rw [if_pos hfirst]

/-- Witness of `Interleaver.ctor_bad_configuration`: two-byte elements and a
minimum sub-symbol size of 3 bytes. -/
theorem Interleaver.ctor_bad_configuration_witness :
    (2 < 256 ∧ (10 % 2 ≠ 0 ∨ 3 < 2 ∨ 3 % 2 ≠ 0 ∨ 3 > 10 ∨ 10 < 2)) ∧
    (∃ i, Interleaver.ctor false K_padded ⟨0, 0, 0⟩ 2 [1, 2, 3, 4, 5] 3 1000 10 = some i ∧
      i.valid = false) :=
  ⟨by decide, (Interleaver.ctor_bad_configuration K_padded ⟨0, 0, 0⟩ 2 [1, 2, 3, 4, 5]
    3 1000 10 (by decide) (by decide)).1⟩

/-- Claim C9 fails as stated: with assertions compiled in, two-byte elements
and `min_subsymbol_size = 3` (not a multiple of the alignment), the
constructor does not finish: the assertion on `min_subsymbol_size` aborts
it. -/
theorem Interleaver.ctor_bad_configuration_aborts :
    3 % 2 ≠ 0 ∧
    Interleaver.ctor true K_padded ⟨0, 0, 0⟩ 2 [1, 2, 3, 4, 5] 3 1000 10 = none := by
  decide

/-- The run of the constructor on a configuration that passes every test: the
instance it builds.  `Z` is the stored `_source_blocks`, `sub` the stored
`_sub_blocks`. -/
theorem Interleaver.ctor_run (asserts : Bool) (K : List Nat) (mem : Indeterminate)
    (sizeofT : Nat) (raw : List Nat)
    (min_subsymbol_size max_block_decodable symbol_size : Nat)
    (L Kt N_max Z sub : Nat)
    (hL : raw.length = L)
    (h1 : symbol_size % u8 sizeofT = 0) (h2 : u8 sizeofT ≤ min_subsymbol_size)
    (h3 : min_subsymbol_size % u8 sizeofT = 0) (h4 : min_subsymbol_size ≤ symbol_size)
    (h5 : u8 sizeofT ≤ symbol_size)
    (hKt : div_ceil (L * sizeofT) symbol_size = Kt)
    (hN : div_floor symbol_size min_subsymbol_size = N_max)
    (hZ : u8 (cast_u16 (div_ceil Kt
      ((Interleaver.fill K max_block_decodable (u8 sizeofT) symbol_size 1 N_max).getD
        (N_max - 1) 0))) = Z)
    (hZ0 : Z ≠ 0)
    (hsub : (match Interleaver.search (div_ceil Kt Z)
        (Interleaver.fill K max_block_decodable (u8 sizeofT) symbol_size 1 N_max) 0 with
      | some i => u16 (i + 1)
      | none => mem._sub_blocks) = sub)
    (hsub0 : sub ≠ 0)
    (hbound : div_ceil (div_ceil L symbol_size) Z ≤ 56403) :
    Interleaver.ctor asserts K mem sizeofT raw min_subsymbol_size max_block_decodable
        symbol_size =
      some ⟨sizeofT, raw, sub,
        u16 ((Partition.ctor Kt Z).size 0 + (Partition.ctor Kt Z).size 1), 0,
        symbol_size, u8 sizeofT, Z, Partition.ctor Kt Z,
        Partition.ctor (symbol_size / u8 sizeofT) sub⟩ := by
  subst hL hKt hN hZ hsub
  have hA : (decide (symbol_size ≥ u8 sizeofT) && decide (symbol_size % u8 sizeofT = 0) &&
      decide (min_subsymbol_size ≥ u8 sizeofT) &&
      decide (min_subsymbol_size % u8 sizeofT = 0)) = true := by
    simp only [Bool.and_eq_true, decide_eq_true_eq]
    exact ⟨⟨⟨h5, h1⟩, h2⟩, h3⟩
  have hB : ¬ (symbol_size % u8 sizeofT ≠ 0 ∨ min_subsymbol_size < u8 sizeofT ∨
      min_subsymbol_size % u8 sizeofT ≠ 0 ∨ min_subsymbol_size > symbol_size) := by
    omega
  unfold Interleaver.ctor
  simp only [hA, Bool.not_true, Bool.and_false, Bool.false_eq_true, if_false]
  rw [if_neg hB]
  simp only [hZ0, false_and, if_false, ne_eq, not_false_eq_true, decide_True,
    decide_eq_true hbound, Bool.and_self, Bool.not_true, Bool.and_false,
    Bool.false_eq_true]
  rw [if_neg]
  rintro (hc | hc | hc | hc | hc)
  · exact hc
  · exact hsub0 hc
  · omega
  · exact hc h1
  · omega

/-- The constructor on a buffer of 58890 four-byte elements with
`symbol_size = 4`, `min_subsymbol_size = 4`, `max_block_decodable = 40`, when
the never assigned `_sub_blocks` holds 1. -/
theorem Interleaver.ctor_58890 (raw : List Nat) (h : raw.length = 58890) :
    Interleaver.ctor true K_padded ⟨1, 0, 0⟩ 4 raw 4 40 4 =
      some ⟨4, raw, 1, 58890, 0, 4, 4, 1, ⟨(0, 0), (1, 58890)⟩, ⟨(0, 0), (1, 1)⟩⟩ := by
  unfold Interleaver.ctor
  rw [h]
  rfl

/-- Claim C10, the code at the failing input: four-byte elements, a buffer of
58890 elements (235560 bytes), `symbol_size = 4`, `min_subsymbol_size = 4`,
`max_block_decodable = 40`, and a non-zero content of the never assigned
`_sub_blocks`.  The constructor stores `_source_blocks = 1` and yields a valid
instance, although `ceil(ceil(235560/4)/1) = 58890` exceeds 56403: the test
divides the element count, not the byte count, by the symbol size. -/
theorem Interleaver.ctor_valid_beyond_K_max :
    ∃ i, Interleaver.ctor true K_padded ⟨1, 0, 0⟩ 4 (List.replicate 58890 7) 4 40 4 = some i ∧
      i.valid = true ∧ i._source_blocks = 1 ∧
      div_ceil (div_ceil (58890 * 4) 4) i._source_blocks = 58890 ∧
      56403 < div_ceil (div_ceil (58890 * 4) 4) i._source_blocks :=
  ⟨_, Interleaver.ctor_58890 _ (List.length_replicate _ _), by decide, rfl, by decide,
    by decide⟩

/-- The constructor on a buffer of 25700 bytes with `symbol_size = 10`,
`min_subsymbol_size = 10`, `max_block_decodable = 100`, when the never
assigned `_sub_blocks` holds 1. -/
theorem Interleaver.ctor_25700 (raw : List Nat) (h : raw.length = 25700) :
    Interleaver.ctor true K_padded ⟨1, 0, 0⟩ 1 raw 10 100 10 =
      some ⟨1, raw, 1, 2570, 0, 10, 1, 1, ⟨(0, 0), (1, 2570)⟩, ⟨(0, 0), (1, 10)⟩⟩ := by
  unfold Interleaver.ctor
  rw [h]
  rfl

/-- Claim C7, the code at the failing input: a buffer of 25700 bytes,
`symbol_size = 10`, `min_subsymbol_size = 10`, `max_block_decodable = 100`
and a non-zero content of the never assigned `_sub_blocks`.  Here `Kt = 2570`,
`N_max = 1`, `KL(1) = 10` and `Z = ceil(2570/10) = 257`; the constructor
yields a valid instance whose `blocks()` is `1`. -/
theorem Interleaver.blocks_truncated :
    div_ceil (25700 * 1) 10 = 2570 ∧ div_floor 10 10 = 1 ∧
    Interleaver.KL K_padded 100 1 10 1 = 10 ∧ div_ceil 2570 10 = 257 ∧
    ∃ i, Interleaver.ctor true K_padded ⟨1, 0, 0⟩ 1 (List.replicate 25700 7) 10 100 10 = some i ∧
      i.valid = true ∧ i.blocks = 1 :=
  ⟨by decide, by decide, by decide, by decide,
    _, Interleaver.ctor_25700 _ (List.length_replicate _ _), by decide, by decide⟩

set_option maxRecDepth 1000000 in
/-- The search for the sub-block count over the 1024 entries of `sizes`
(`symbol_size = 1024`, `min_subsymbol_size = 1`, `max_block_decodable = 120`)
with `tmp = 33` stops at index 341. -/
theorem Interleaver.search_1024 :
    Interleaver.search 33 (Interleaver.fill K_padded 120 1 1024 1 1024) 0 = some 341 := by
  decide

set_option maxRecDepth 1000000 in
/-- The last of the 1024 entries of `sizes` for the same parameters. -/
theorem Interleaver.last_1024 :
    (Interleaver.fill K_padded 120 1 1024 1 1024).getD 1023 0 = 119 := by
  decide

set_option maxRecDepth 100000 in
/-- The constructor on a buffer of 33792 bytes with `symbol_size = 1024`,
`min_subsymbol_size = 1`, `max_block_decodable = 120`. -/
theorem Interleaver.ctor_33792 (mem : Indeterminate) (raw : List Nat)
    (h : raw.length = 33792) :
    Interleaver.ctor true K_padded mem 1 raw 1 120 1024 =
      some ⟨1, raw, 342, 33, 0, 1024, 1, 1, ⟨(0, 0), (1, 33)⟩, ⟨(78, 12), (8, 11)⟩⟩ := by
  rw [Interleaver.ctor_run true K_padded mem 1 raw 1 120 1024 33792 33 1024 1 342 h
    (by decide) (by decide) (by decide) (by decide) (by decide) (by decide) (by decide)
    (by
      have e1 : u8 1 = 1 := rfl
      have e6 : 1024 - 1 = 1023 := rfl
      rw [e1, e6, Interleaver.last_1024]
      decide)
    (by decide)
    (by
      have e1 : u8 1 = 1 := rfl
      have e5 : div_ceil 33 1 = 33 := by decide
      rw [e1, e5, Interleaver.search_1024]
      rfl)
    (by decide) (by decide)]
  rfl

/-- Claim C8, the code at the failing input: a buffer of 33792 bytes,
`symbol_size = 1024`, `min_subsymbol_size = 1`, `max_block_decodable = 120`.
Here `Kt = 33`, `N_max = 1024`, `Z = 1`, and the smallest `n` with
`33 <= KL(n)` is 342 (`KL(341) = 30`, `KL(342) = 36`), which the constructor
stores in `_sub_blocks`; the instance is valid and `sub_blocks()` is `86`. -/
theorem Interleaver.sub_blocks_truncated :
    Interleaver.KL K_padded 120 1 1024 341 = 30 ∧
    Interleaver.KL K_padded 120 1 1024 342 = 36 ∧
    Interleaver.search 33 (Interleaver.fill K_padded 120 1 1024 1 1024) 0 = some 341 ∧
    ∃ i, Interleaver.ctor true K_padded ⟨0, 0, 0⟩ 1 (List.replicate 33792 7) 1 120 1024 = some i ∧
      i.valid = true ∧ i._sub_blocks = 342 ∧ i.sub_blocks = 86 :=
  ⟨by decide, by decide, Interleaver.search_1024,
    _, Interleaver.ctor_33792 _ _ (List.length_replicate _ _), by decide, rfl, by decide⟩

/-- The source block handed out by `operator[]` carries the buffer and the
sub-block partition of the interleaver. -/
theorem Interleaver.get_fields (asserts : Bool) (I : Interleaver) (id : Nat)
    (b : Source_Block) (hb : I.get asserts id = some b) :
    b._raw = I._raw ∧ b._sub_blocks = I._sub_part ∧ b._symbols < 65536 := by
  unfold Interleaver.get at hb
  simp only at hb
  split at hb
  · cases hb
    exact ⟨rfl, rfl, Nat.mod_lt _ (by decide)⟩
  · split at hb
    · cases hb
      exact ⟨rfl, rfl, Nat.mod_lt _ (by decide)⟩
    · split at hb
      · cases hb
      · cases hb
        exact ⟨rfl, rfl, Nat.mod_lt _ (by decide)⟩

/-- The index of the spec is at least `start + pos` when the block has at
least one symbol. -/
theorem spec_index_ge (start k symbol_id : Nat) (P : Partition) (pos : Nat)
    (hk : 1 ≤ k) : start + pos ≤ spec_index start k symbol_id P pos := by
  unfold spec_index
  split
  · have h1 := Nat.div_add_mod pos (P.size 0)
    have h2 : pos / P.size 0 * 1 * P.size 0 ≤ pos / P.size 0 * k * P.size 0 :=
      Nat.mul_le_mul_right _ (Nat.mul_le_mul_left _ hk)
    rw [Nat.mul_one, Nat.mul_comm] at h2
    omega
  · next hlt =>
    have h1 := Nat.div_add_mod (pos - P.tot 0) (P.size 1)
    have h2 : (pos - P.tot 0) / P.size 1 * 1 * P.size 1 ≤
        (pos - P.tot 0) / P.size 1 * k * P.size 1 :=
      Nat.mul_le_mul_right _ (Nat.mul_le_mul_left _ hk)
    rw [Nat.mul_one, Nat.mul_comm] at h2
    have h3 : P.tot 0 * 1 ≤ P.tot 0 * k := Nat.mul_le_mul_left _ hk
    omega

/-- The symbol view that a source block hands out for a symbol id in range. -/
theorem Source_Block.get_in_range (b : Source_Block) (symbol_id : Nat)
    (hs : symbol_id < b._symbols) (hk : b._symbols < 65536) :
    b.get symbol_id =
      ⟨b._raw, b._start, b._end, 0, b._sub_blocks, u16 b._symbol_size, symbol_id,
        b._symbols⟩ := by
  unfold Source_Block.get Symbol_it.ctor
  rw [if_pos hs, u16_of_lt hk, u16_of_lt (show symbol_id < 65536 by omega)]

/-- Claim C5, as amended: for every interleaver over a buffer of `L` aligned
units, every source block it hands out (range starting at `start`, `k`
symbols), every symbol of that block (in particular the final symbol of the
last block) and every position `pos < tot(0) + tot(1)`, as long as the index
arithmetic stays in range (`k * size(0)`, `k * size(1)` and `tot(0) * k`
below `2^31`, the index `i` of the spec below `2^64`): the addressed index is
`i`, which is at least `start + pos`; every position `pos >= L - start` reads
the zero element; a position reads the buffer content `raw[i]` when `i < L`
and the zero element when `i >= L`. -/
theorem Interleaver.padding (asserts : Bool) (I : Interleaver) (id : Nat)
    (b : Source_Block) (hb : I.get asserts id = some b) (symbol_id : Nat)
    (hs : symbol_id < b._symbols) (pos : Nat)
    (hpos : pos < I._sub_part.tot 0 + I._sub_part.tot 1)
    (hr0 : b._symbols * I._sub_part.size 0 < 2147483648)
    (hr1 : b._symbols * I._sub_part.size 1 < 2147483648)
    (hr2 : I._sub_part.tot 0 * b._symbols < 2147483648)
    (hr3 : spec_index b._start b._symbols symbol_id I._sub_part pos < 2 ^ 64) :
    (b.get symbol_id).index pos =
      some (spec_index b._start b._symbols symbol_id I._sub_part pos) ∧
    b._start + pos ≤ spec_index b._start b._symbols symbol_id I._sub_part pos ∧
    (I._raw.length - b._start ≤ pos → (b.get symbol_id).get pos = some 0) ∧
    (spec_index b._start b._symbols symbol_id I._sub_part pos < I._raw.length →
      (b.get symbol_id).get pos =
        I._raw[spec_index b._start b._symbols symbol_id I._sub_part pos]?) ∧
    (I._raw.length ≤ spec_index b._start b._symbols symbol_id I._sub_part pos →
      (b.get symbol_id).get pos = some 0) := by
  obtain ⟨hraw, hsub, hk⟩ := Interleaver.get_fields asserts I id b hb
  have hge := spec_index_ge b._start b._symbols symbol_id I._sub_part pos (by omega)
  have hm0 : symbol_id * I._sub_part.size 0 < 2147483648 :=
    lt_of_le_of_lt (Nat.mul_le_mul_right _ (le_of_lt hs)) hr0
  have hm1 : symbol_id * I._sub_part.size 1 < 2147483648 :=
    lt_of_le_of_lt (Nat.mul_le_mul_right _ (le_of_lt hs)) hr1
  have hidx : (b.get symbol_id).index pos =
      some (spec_index b._start b._symbols symbol_id I._sub_part pos) := by
    rw [Source_Block.get_in_range b symbol_id hs hk, Symbol_it.index_eq _ _
      (by simpa only [hsub] using hpos) (by simpa only [hsub] using hm0)
      (by simpa only [hsub] using hm1) (by simpa only [hsub] using hr2)
      (by simpa only [hsub] using hr3)]
    simp only [hsub]
  have hget : (b.get symbol_id).get pos =
      some (Symbol_it.read I._raw
        (spec_index b._start b._symbols symbol_id I._sub_part pos)) := by
    unfold Symbol_it.get
    rw [hidx, Source_Block.get_in_range b symbol_id hs hk]
    simp only [Option.map_some', hraw]
  refine ⟨hidx, hge, ?_, ?_, ?_⟩
  · intro h
    rw [hget, Symbol_it.read_ge _ _ (by omega)]
  · intro h
    rw [hget, Symbol_it.read_lt _ _ h]
  · intro h
    rw [hget, Symbol_it.read_ge _ _ h]

set_option maxRecDepth 100000 in
/-- The constructor on a buffer of 15 bytes with `symbol_size = 10`,
`min_subsymbol_size = 10`, `max_block_decodable = 10000`. -/
theorem Interleaver.ctor_15 (raw : List Nat) (h : raw.length = 15) :
    Interleaver.ctor true K_padded ⟨0, 0, 0⟩ 1 raw 10 10000 10 =
      some ⟨1, raw, 1, 2, 0, 10, 1, 1, ⟨(0, 0), (1, 2)⟩, ⟨(0, 0), (1, 10)⟩⟩ := by
  rw [Interleaver.ctor_run true K_padded ⟨0, 0, 0⟩ 1 raw 10 10000 10 15 2 1 1 1 h
    (by decide) (by decide) (by decide) (by decide) (by decide) (by decide) (by decide)
    (by decide) (by decide) (by decide) (by decide) (by decide)]
  rfl

/-- Witness of `Interleaver.padding`: the interleaver over 15 bytes equal to
7 with symbols of 10 bytes; its only block starts at 0 and has 2 symbols;
position 5 of the final symbol addresses index 15 and reads the zero element,
position 4 addresses index 14 and reads the buffer. -/
theorem Interleaver.padding_witness :
    ((⟨1, List.replicate 15 7, 1, 2, 0, 10, 1, 1, ⟨(0, 0), (1, 2)⟩,
        ⟨(0, 0), (1, 10)⟩⟩ : Interleaver).get true 0 =
      some ⟨List.replicate 15 7, 0, 20, 0, ⟨(0, 0), (1, 10)⟩, 10, 2⟩ ∧
      1 < 2 ∧
      5 < (⟨(0, 0), (1, 10)⟩ : Partition).tot 0 + (⟨(0, 0), (1, 10)⟩ : Partition).tot 1 ∧
      2 * (⟨(0, 0), (1, 10)⟩ : Partition).size 0 < 2147483648 ∧
      2 * (⟨(0, 0), (1, 10)⟩ : Partition).size 1 < 2147483648 ∧
      (⟨(0, 0), (1, 10)⟩ : Partition).tot 0 * 2 < 2147483648 ∧
      spec_index 0 2 1 (⟨(0, 0), (1, 10)⟩ : Partition) 5 < 2 ^ 64) ∧
    (((⟨List.replicate 15 7, 0, 20, 0, ⟨(0, 0), (1, 10)⟩, 10, 2⟩ :
        Source_Block).get 1).index 5 = some 15 ∧
      ((⟨List.replicate 15 7, 0, 20, 0, ⟨(0, 0), (1, 10)⟩, 10, 2⟩ :
        Source_Block).get 1).get 5 = some 0) := by
  have h := Interleaver.padding true
    ⟨1, List.replicate 15 7, 1, 2, 0, 10, 1, 1, ⟨(0, 0), (1, 2)⟩, ⟨(0, 0), (1, 10)⟩⟩
    0 ⟨List.replicate 15 7, 0, 20, 0, ⟨(0, 0), (1, 10)⟩, 10, 2⟩ (by decide) 1
    (by decide) 5 (by decide) (by decide) (by decide) (by decide) (by decide)
  exact ⟨⟨by decide, by decide, by decide, by decide, by decide, by decide, by decide⟩,
    h.1, h.2.2.2.2 (by decide)⟩

/-- Claim C5 fails as stated: the valid interleaver over 15 bytes, all equal
to 7, with `symbol_size = 10`, has one block, starting at 0, of 2 symbols.
In its final symbol (id 1), position 5 is below `L - start = 15`, yet the
addressed index is 15 and the position reads the zero element, not buffer
content. -/
theorem Interleaver.padding_fails :
    ∃ I b, Interleaver.ctor true K_padded ⟨0, 0, 0⟩ 1 (List.replicate 15 7)
        10 10000 10 = some I ∧
      I.valid = true ∧ I.blocks = 1 ∧ I.get true 0 = some b ∧
      b._start = 0 ∧ b._symbols = 2 ∧ (∀ x ∈ I._raw, x = 7) ∧
      5 < I._raw.length - b._start ∧
      (b.get 1).index 5 = some 15 ∧ (b.get 1).get 5 = some 0 :=
  ⟨_, ⟨List.replicate 15 7, 0, 20, 0, ⟨(0, 0), (1, 10)⟩, 10, 2⟩,
    Interleaver.ctor_15 _ (List.length_replicate _ _), by decide, by decide,
    by decide, rfl, rfl, fun _ hx => List.eq_of_mem_replicate hx, by decide, by decide,
    by decide⟩

/-- Claim C6, the code at the failing input: four-byte elements, a buffer of
66570 elements, `symbol_size = 4`, `min_subsymbol_size = 4`,
`max_block_decodable = 40`, and the never assigned `_sub_blocks` holding 1.
Here `Kt = 66570` and `Z = 6657` is stored as `_source_blocks = 1`; the
instance is valid, `blocks()` is 1 and the symbol counts sum to `1034`. -/
theorem Interleaver.total_source_symbols_fails :
    div_ceil (66570 * 4) 4 = 66570 ∧
    ∃ I, Interleaver.ctor true K_padded ⟨1, 0, 0⟩ 4 (List.replicate 66570 7) 4 40 4 = some I ∧
      I.valid = true ∧ I.blocks = 1 ∧ I.source_symbols 0 = 1034 ∧
      I.total_source_symbols = 1034 :=
  ⟨by decide, _,
    Interleaver.ctor_run true K_padded ⟨1, 0, 0⟩ 4 (List.replicate 66570 7) 4 40 4
      66570 66570 1 1 1 (List.length_replicate _ _)
      (by decide) (by decide) (by decide) (by decide) (by decide) (by decide) (by decide)
      (by decide) (by decide) (by decide) (by decide) (by decide),
    by decide, by decide, by decide, by decide⟩

set_option maxRecDepth 100000 in
/-- The concrete scenario of the spec: 1000 bytes, alignment 1,
`symbol_size = 10`, `min_subsymbol_size = 2`, `max_block_decodable = 10000`
and the table of RFC 6330 give a valid instance with `Kt = 100` whose symbol
counts sum to 100, whatever the storage held before. -/
theorem Interleaver.total_source_symbols_scenario (mem : Indeterminate) :
    div_ceil (1000 * 1) 10 = 100 ∧
    ∃ I, Interleaver.ctor true K_padded mem 1 (List.replicate 1000 7) 2 10000 10 = some I ∧
      I.valid = true ∧ I.blocks = 1 ∧ I.total_source_symbols = 100 :=
  ⟨by decide, _,
    Interleaver.ctor_run true K_padded mem 1 (List.replicate 1000 7) 2 10000 10
      1000 100 5 1 1 (List.length_replicate _ _)
      (by decide) (by decide) (by decide) (by decide) (by decide) (by decide) (by decide)
      (by decide) (by decide) rfl (by decide) (by decide),
    by decide, by decide, by decide⟩

/-- What a valid instance tells about the run of the constructor: every test
was passed, and the members hold the values computed on the way. -/
theorem Interleaver.ctor_valid_inv (asserts : Bool) (K : List Nat) (mem : Indeterminate)
    (sizeofT : Nat) (raw : List Nat)
    (min_subsymbol_size max_block_decodable symbol_size : Nat) (I : Interleaver)
    (h : Interleaver.ctor asserts K mem sizeofT raw min_subsymbol_size
      max_block_decodable symbol_size = some I)
    (hv : I.valid = true) :
    u8 sizeofT ≠ 0 ∧ symbol_size % u8 sizeofT = 0 ∧ u8 sizeofT ≤ min_subsymbol_size ∧
    min_subsymbol_size % u8 sizeofT = 0 ∧ min_subsymbol_size ≤ symbol_size ∧
    u8 sizeofT ≤ symbol_size ∧
    I._source_blocks ≠ 0 ∧ I._sub_blocks ≠ 0 ∧
    I._source_blocks = u8 (cast_u16 (div_ceil (div_ceil (raw.length * sizeofT) symbol_size)
      ((Interleaver.fill K max_block_decodable (u8 sizeofT) symbol_size 1
        (div_floor symbol_size min_subsymbol_size)).getD
          (div_floor symbol_size min_subsymbol_size - 1) 0))) ∧
    I._sub_blocks = (match Interleaver.search
        (div_ceil (div_ceil (raw.length * sizeofT) symbol_size) I._source_blocks)
        (Interleaver.fill K max_block_decodable (u8 sizeofT) symbol_size 1
          (div_floor symbol_size min_subsymbol_size)) 0 with
      | some i => u16 (i + 1)
      | none => mem._sub_blocks) ∧
    div_ceil (div_ceil raw.length symbol_size) I._source_blocks ≤ 56403 ∧
    I.sizeofT = sizeofT ∧ I._raw = raw ∧ I._symbol_size = symbol_size ∧
    I._alignment = u8 sizeofT ∧
    I._source_part =
      Partition.ctor (div_ceil (raw.length * sizeofT) symbol_size) I._source_blocks ∧
    I._sub_part = Partition.ctor (symbol_size / u8 sizeofT) I._sub_blocks := by
  unfold Interleaver.ctor at h
  simp only at h
  split at h
  · cases h
  · split at h
    · cases h
      simp [Interleaver.valid] at hv
    · next hB =>
      by_cases hZ0 : u8 (cast_u16 (div_ceil (div_ceil (raw.length * sizeofT) symbol_size)
          ((Interleaver.fill K max_block_decodable (u8 sizeofT) symbol_size 1
            (div_floor symbol_size min_subsymbol_size)).getD
              (div_floor symbol_size min_subsymbol_size - 1) 0))) = 0
      · exfalso
        rw [if_pos (Or.inl hZ0)] at h
        split at h
        · cases h
        · cases h
          simp [Interleaver.valid] at hv
      · simp only [hZ0, false_and, if_false, false_or] at h
        split at h
        · cases h
        · split at h
          · cases h
            simp [Interleaver.valid] at hv
          · next hC =>
            cases h
            simp only [Interleaver.valid, bne_iff_ne, ne_eq] at hv
            push_neg at hB hC
            refine ⟨hv, ?_, ?_, ?_, ?_, ?_, hZ0, ?_, rfl, rfl, ?_, rfl, rfl, rfl, rfl, rfl,
              rfl⟩
            all_goals first | omega | exact hC.1 | exact hC.2.2.2

/-- Consecutive runs of a sequence, concatenated: when run `b` has length
`len b` and starts at `off b`, and each run starts where the previous one
ends, the first `n` runs together are the first `off n` terms. -/
theorem flatMap_range_runs {α : Type} (f : Nat → α) (len off : Nat → Nat) (n : Nat)
    (h0 : off 0 = 0) (hstep : ∀ b, b < n → off (b + 1) = off b + len b) :
    ((List.range n).flatMap fun b => (List.range (len b)).map fun q => f (off b + q)) =
      (List.range (off n)).map f := by
  induction n with
  | zero => simp [h0]
  | succ n ih =>
    rw [List.range_succ, List.flatMap_append, ih (fun b hb => hstep b (by omega)),
      List.flatMap_singleton, hstep n (by omega), List.range_add, List.map_append,
      List.map_map]
    rfl

/-- The first `L` terms of a sequence of at least `L` reads of a buffer of
length `L` are the buffer. -/
theorem take_map_read (raw : List Nat) (M : Nat) (hM : raw.length ≤ M) :
    ((List.range M).map fun i => some (Symbol_it.read raw i)).take raw.length =
      raw.map some := by
  rw [← List.map_take, List.take_range, Nat.min_eq_left hM]
  apply List.ext_getElem
  · simp
  · intro i h1 h2
    simp only [List.getElem_map, List.getElem_range]
    simp only [List.length_map, List.length_range] at h1
    unfold Symbol_it.read
    rw [if_neg (by omega), List.getD_eq_getElem?_getD, List.getElem?_eq_getElem h1]
    rfl

/-- Below `2^24`, the ceiling of a quotient times the divisor covers the
dividend. -/
theorem le_div_ceil_mul (a b : Nat) (hb : 0 < b) (ha : a < 16777216)
    (hb2 : b < 16777216) : a ≤ div_ceil a b * b := by
  rw [div_ceil_eq a b hb ha hb2]
  have h := Nat.div_add_mod a b
  have hlt := Nat.mod_lt a hb
  split
  · next h0 => rw [Nat.mul_comm]; omega
  · rw [Nat.add_mul, Nat.mul_comm]; omega

/-- With a single sub-block of size `S`, the index of the spec is linear:
position `pos` of symbol `symbol_id` is unit `start + symbol_id*S + pos`. -/
theorem spec_index_single (start k symbol_id S pos : Nat) (hpos : pos < S) :
    spec_index start k symbol_id ⟨(0, 0), (1, S)⟩ pos = start + symbol_id * S + pos := by
  unfold spec_index
  simp only [Partition.tot, Partition.size, if_true, if_false, Nat.one_ne_zero,
    Nat.zero_mul, u16, Nat.zero_mod, Nat.not_lt_zero, Nat.sub_zero,
    Nat.div_eq_of_lt hpos, Nat.mod_eq_of_lt hpos, Nat.zero_add, Nat.add_zero]

/-- With a single sub-block of size `S`, a symbol of a source block reads the
buffer linearly, as long as `k * S` stays below `2^31` and the end of the block
below `2^64`. -/
theorem Source_Block.get_single (raw : List Nat) (start end_ S k symbol_id pos : Nat)
    (hS : S < 65536) (hk : (end_ - start) / S = k) (hk2 : k < 65536)
    (hkS : k * S < 2147483648) (hst : start + k * S < 2 ^ 64)
    (hs : symbol_id < k) (hpos : pos < S) :
    ((Source_Block.ctor raw start end_ 0 ⟨(0, 0), (1, S)⟩ S).get symbol_id).get pos =
      some (Symbol_it.read raw (start + symbol_id * S + pos)) := by
  have hB : Source_Block.ctor raw start end_ 0 ⟨(0, 0), (1, S)⟩ S =
      ⟨raw, start, end_, 0, ⟨(0, 0), (1, S)⟩, S, k⟩ := by
    unfold Source_Block.ctor
    rw [u16_of_lt hS, hk, u16_of_lt hk2]
  have hle : (symbol_id + 1) * S ≤ k * S := Nat.mul_le_mul_right S hs
  rw [Nat.add_mul, Nat.one_mul] at hle
  have ht : (⟨(0, 0), (1, S)⟩ : Partition).tot 0 = 0 := rfl
  have hz : (⟨(0, 0), (1, S)⟩ : Partition).size 0 = 0 := rfl
  have hz1 : (⟨(0, 0), (1, S)⟩ : Partition).size 1 = S := rfl
  rw [hB, Source_Block.get_in_range _ _ hs hk2, Symbol_it.get_eq]
  · simp only [spec_index_single start k symbol_id S pos hpos]
  · simp only [Partition.tot, if_true, if_false, Nat.one_ne_zero, Nat.zero_mul, u16,
      Nat.zero_mod, Nat.zero_add, Nat.one_mul, Nat.mod_eq_of_lt hS]
    exact hpos
  · simp only [hz, Nat.mul_zero]
    decide
  · simp only [hz1]
    omega
  · simp only [ht, Nat.zero_mul]
    decide
  · simp only [spec_index_single start k symbol_id S pos hpos]
    omega

/-- With a single sub-block, the symbols of one source block, read in order,
are the units of the block in order, as long as `k * S` stays below `2^31` and
the end of the block below `2^64`. -/
theorem Source_Block.read_single (raw : List Nat) (start end_ S k : Nat)
    (hS : S < 65536) (hk : (end_ - start) / S = k) (hk2 : k < 65536)
    (hkS : k * S < 2147483648) (hst : start + k * S < 2 ^ 64) :
    ((List.range k).flatMap fun symbol =>
      (List.range S).map fun pos =>
        (some (Source_Block.ctor raw start end_ 0 ⟨(0, 0), (1, S)⟩ S)).bind fun b =>
          (b.get symbol).get pos) =
      (List.range (k * S)).map fun q => some (Symbol_it.read raw (start + q)) := by
  have hrow : ∀ symbol ∈ List.range k,
      ((List.range S).map fun pos =>
        (some (Source_Block.ctor raw start end_ 0 ⟨(0, 0), (1, S)⟩ S)).bind fun b =>
          (b.get symbol).get pos) =
      (List.range S).map fun q =>
        (fun i => some (Symbol_it.read raw (start + i))) (symbol * S + q) := by
    intro symbol hsym
    apply List.map_congr_left
    intro pos hp
    rw [Option.some_bind, Source_Block.get_single raw start end_ S k symbol pos hS hk hk2
      hkS hst (List.mem_range.mp hsym) (List.mem_range.mp hp), Nat.add_assoc]
  rw [List.flatMap_congr hrow]
  exact flatMap_range_runs (fun i => some (Symbol_it.read raw (start + i)))
    (fun _ => S) (fun symbol => symbol * S) k (Nat.zero_mul S)
    (fun b _ => Nat.succ_mul b S)

/-- With a single sub-block, an exact `tot (0)`, fewer than 256 blocks and
blocks of fewer than `2^31` units, the units read through the interleaver, in
the order of blocks, symbols and positions, are the units `0, 1, 2, ...` of
the padded buffer, as many as the blocks hold. -/
theorem Interleaver.read_object_single (asserts : Bool) (I : Interleaver)
    (S n0 s0 n1 s1 : Nat)
    (hS : I._symbol_size / I.sizeofT = S) (hS1 : 1 ≤ S) (hS2 : S < 65536)
    (hsrc : I._source_part = ⟨(n0, s0), (n1, s1)⟩) (hn : n0 + n1 < 256)
    (htot : n0 * s0 < 65536) (hs0 : s0 < 65536) (hs1 : s1 < 65536)
    (hsubp : I._sub_part = ⟨(0, 0), (1, S)⟩)
    (hs0S : s0 * S < 2147483648) (hs1S : s1 * S < 2147483648)
    (htotal : (n0 * s0 + n1 * s1) * S < 2 ^ 64) :
    I.read_object asserts =
      (List.range ((n0 * s0 + n1 * s1) * S)).map fun i => some (Symbol_it.read I._raw i) := by
  have hblocks : I.blocks = n0 + n1 := by
    unfold Interleaver.blocks
    rw [hsrc]
    exact u8_of_lt hn
  have hsym : I.symbol_size = S := by
    unfold Interleaver.symbol_size
    rw [hS]
    exact u16_of_lt hS2
  have hrow : ∀ block ∈ List.range (n0 + n1),
      ((List.range (I.source_symbols block)).flatMap fun symbol =>
        (List.range I.symbol_size).map fun pos =>
          (I.get asserts block).bind fun b => (b.get symbol).get pos) =
      (List.range ((if block < n0 then s0 else s1) * S)).map fun q =>
        (fun i => some (Symbol_it.read I._raw i))
          ((if block < n0 then block * s0 * S else n0 * s0 * S + (block - n0) * s1 * S) + q) := by
    intro block hb
    have hb' : block < n0 + n1 := List.mem_range.mp hb
    have hu : u8 block = block := u8_of_lt (by omega)
    by_cases hlt : block < n0
    · have hcnt : I.source_symbols block = s0 := by
        unfold Interleaver.source_symbols
        simp only [hu, hsrc, Partition.num, Partition.size, if_true, hlt]
      have hget : I.get asserts block =
          some (Source_Block.ctor I._raw (block * s0 * S) ((block + 1) * s0 * S) 0
            ⟨(0, 0), (1, S)⟩ S) := by
        unfold Interleaver.get
        simp only [hu, hsrc, hsubp, hS, Partition.num, Partition.size, if_true, hlt]
      rw [hcnt, hget, hsym]
      simp only [hlt, if_true]
      have hle : (block + 1) * s0 * S ≤ n0 * s0 * S :=
        Nat.mul_le_mul_right S (Nat.mul_le_mul_right s0 hlt)
      rw [Nat.add_mul, Nat.add_mul, Nat.one_mul] at hle
      rw [Nat.add_mul] at htotal
      refine Source_Block.read_single I._raw _ _ S s0 hS2 ?_ hs0 hs0S (by omega)
      have e : (block + 1) * s0 * S - block * s0 * S = s0 * S := by
        rw [Nat.add_mul, Nat.add_mul, Nat.one_mul]; omega
      rw [e, Nat.mul_div_cancel _ (by omega)]
    · have hcnt : I.source_symbols block = s1 := by
        unfold Interleaver.source_symbols
        simp only [hu, hsrc, Partition.num, Partition.size, if_true, if_false, hlt,
          Nat.one_ne_zero]
        rw [if_pos (by omega)]
      have hget : I.get asserts block =
          some (Source_Block.ctor I._raw (n0 * s0 * S + (block - n0) * s1 * S)
            (n0 * s0 * S + (block - n0) * s1 * S + s1 * S) 0 ⟨(0, 0), (1, S)⟩ S) := by
        unfold Interleaver.get
        simp only [hu, hsrc, hsubp, hS, Partition.num, Partition.size, Partition.tot,
          if_true, if_false, hlt, Nat.one_ne_zero, u16_of_lt htot]
        rw [if_pos (by omega)]
      rw [hcnt, hget, hsym]
      simp only [hlt, if_false]
      have hle : (block - n0 + 1) * s1 * S ≤ n1 * s1 * S :=
        Nat.mul_le_mul_right S (Nat.mul_le_mul_right s1 (by omega))
      rw [Nat.add_mul, Nat.add_mul, Nat.one_mul] at hle
      rw [Nat.add_mul] at htotal
      refine Source_Block.read_single I._raw _ _ S s1 hS2 ?_ hs1 hs1S (by omega)
      rw [Nat.add_sub_cancel_left, Nat.mul_div_cancel _ (by omega)]
  unfold Interleaver.read_object
  rw [hblocks, List.flatMap_congr hrow]
  have hruns := flatMap_range_runs (fun i => some (Symbol_it.read I._raw i))
    (fun block => (if block < n0 then s0 else s1) * S)
    (fun block => if block < n0 then block * s0 * S
      else n0 * s0 * S + (block - n0) * s1 * S) (n0 + n1)
    (by
      by_cases h0 : 0 < n0
      · simp [h0]
      · have : n0 = 0 := by omega
        simp [this])
    (by
      intro b hb
      by_cases h1 : b + 1 < n0
      · have h2 : b < n0 := by omega
        simp only [h1, h2, if_true]
        rw [Nat.add_mul, Nat.add_mul, Nat.one_mul]
      · by_cases h2 : b < n0
        · have h3 : b + 1 = n0 := by omega
          simp only [h1, h2, if_true, if_false]
          rw [← h3, Nat.sub_self, Nat.zero_mul, Nat.zero_mul, Nat.add_zero, Nat.add_mul,
            Nat.add_mul, Nat.one_mul]
        · simp only [h1, h2, if_false]
          have h3 : b + 1 - n0 = (b - n0) + 1 := by omega
          rw [h3, Nat.add_mul, Nat.add_mul, Nat.one_mul, Nat.add_assoc])
  rw [hruns]
  have hoff : (if n0 + n1 < n0 then (n0 + n1) * s0 * S
      else n0 * s0 * S + (n0 + n1 - n0) * s1 * S) = (n0 * s0 + n1 * s1) * S := by
    rw [if_neg (by omega), Nat.add_sub_cancel_left, Nat.add_mul]
  simp only [hoff]

/-- The constructor of `Partition` only sees its second argument as a
`uint8_t`. -/
theorem Partition.ctor_u8 (total parts : Nat) :
    Partition.ctor total (u8 parts) = Partition.ctor total parts := by
  unfold Partition.ctor
  have : u8 (u8 parts) = u8 parts := by unfold u8; omega
  simp only [this]

/-- The two groups of an exact partition hold `total` elements. -/
theorem Partition.total_arith (total parts : Nat) (hb : 0 < parts) :
    total % parts * (if total % parts = 0 then 0 else total / parts + 1) +
      (parts - total % parts) * (total / parts) = total := by
  have hmod := Nat.mod_lt total hb
  have hdm := Nat.div_add_mod total parts
  by_cases h0 : total % parts = 0
  · simp only [h0, if_true, Nat.mul_zero, Nat.zero_add, Nat.sub_zero]
    omega
  · simp only [h0, if_false]
    have e : (parts - total % parts) * (total / parts) =
        parts * (total / parts) - total % parts * (total / parts) :=
      Nat.sub_mul _ _ _
    have hle : total % parts * (total / parts) ≤ parts * (total / parts) :=
      Nat.mul_le_mul_right _ (le_of_lt hmod)
    rw [e, Nat.mul_add, Nat.mul_one]
    omega

/-- A sub-block partition of `S` units (`1 <= S <= 65535`) that reports one
sub-block is the single group `(1, S)`. -/
theorem Partition.single_of_num (S sub : Nat) (hS1 : 1 ≤ S) (hS2 : S < 65536)
    (h : u16 ((Partition.ctor S sub).num 0 + (Partition.ctor S sub).num 1) = 1) :
    Partition.ctor S sub = ⟨(0, 0), (1, S)⟩ := by
  by_cases hp : u8 sub = 0
  · exfalso
    unfold Partition.ctor at h
    simp only [hp, Partition.num, if_true, if_false, Nat.one_ne_zero, div_floor,
      Nat.div_zero, Nat.mul_zero, Nat.sub_zero, Nat.zero_add] at h
    unfold u16 at h
    omega
  · have hlt : u8 sub < 256 := Nat.mod_lt _ (by decide)
    have hceil : div_ceil S (u8 sub) ≤ 65535 := by
      rw [div_ceil_eq S _ (by omega) (by omega) (by omega)]
      have := Nat.div_le_self S (u8 sub)
      have hdm := Nat.div_add_mod S (u8 sub)
      split
      · omega
      · next h0 =>
        have h2 : 2 ≤ u8 sub := by
          by_contra hc
          have : u8 sub = 1 := by omega
          rw [this, Nat.mod_one] at h0
          exact h0 rfl
        have h3 : 2 * (S / u8 sub) ≤ u8 sub * (S / u8 sub) := Nat.mul_le_mul_right _ h2
        omega
    have heq := Partition.ctor_eq S (u8 sub) (by omega) (by omega) hceil
    rw [Partition.ctor_u8] at heq
    rw [heq] at h ⊢
    simp only [Partition.num, if_true, if_false, Nat.one_ne_zero] at h
    have hmod := Nat.mod_lt S (show 0 < u8 sub by omega)
    have h1 : u8 sub = 1 := by
      unfold u16 at h
      omega
    rw [h1, Nat.mod_one, Nat.div_one]
    rfl

/-- Claim C4, as amended: for every valid interleaver over a buffer of fewer
than `2^24` bytes that reports a single sub-block (`sub_blocks() = 1`), whose
per-block symbol count `ceil(Kt/Z)` and whose first group total
`num(0)*size(0)` fit 16 bits, the values `Interleaver[block][symbol][pos]`,
concatenated over the blocks, symbols and positions in order and truncated to
the length of the buffer, are the buffer. -/
theorem Interleaver.round_trip (asserts : Bool) (K : List Nat) (mem : Indeterminate)
    (sizeofT : Nat) (raw : List Nat)
    (min_subsymbol_size max_block_decodable symbol_size : Nat) (I : Interleaver)
    (h : Interleaver.ctor asserts K mem sizeofT raw min_subsymbol_size
      max_block_decodable symbol_size = some I)
    (hv : I.valid = true) (hsz : sizeofT < 256) (hss : symbol_size < 65536)
    (hbytes : raw.length * sizeofT < 16777216)
    (hN : I.sub_blocks = 1)
    (hfit : div_ceil (div_ceil (raw.length * sizeofT) symbol_size) I._source_blocks
      ≤ 65535)
    (htot : I._source_part.num 0 * I._source_part.size 0 ≤ 65535) :
    (I.read_object asserts).take raw.length = raw.map some := by
  obtain ⟨hal0, hmod, -, -, -, hle, hZ0, -, hZeq, -, -, hIsz, hIraw, hIss, -, hsp, hsubp⟩ :=
    Interleaver.ctor_valid_inv asserts K mem sizeofT raw min_subsymbol_size
      max_block_decodable symbol_size I h hv
  rw [u8_of_lt hsz] at hal0 hmod hle hsubp
  have hal : 0 < sizeofT := Nat.pos_of_ne_zero hal0
  have hZlt : I._source_blocks < 256 := by
    rw [hZeq]
    exact Nat.mod_lt _ (by decide)
  have hZpos : 0 < I._source_blocks := Nat.pos_of_ne_zero hZ0
  have hsspos : 0 < symbol_size := by omega
  have hS1 : 1 ≤ symbol_size / sizeofT := Nat.div_pos hle hal
  have hSle : symbol_size / sizeofT ≤ symbol_size := Nat.div_le_self _ _
  have hS2 : symbol_size / sizeofT < 65536 := lt_of_le_of_lt hSle hss
  have hKle := div_ceil_le_self (raw.length * sizeofT) symbol_size hsspos hbytes (by omega)
  have hKmul := div_ceil_mul_lt (raw.length * sizeofT) symbol_size hsspos hbytes (by omega)
  have hsp' := Partition.ctor_eq (div_ceil (raw.length * sizeofT) symbol_size)
    I._source_blocks hZpos (by omega) hfit
  rw [← hsp] at hsp'
  have hsub' : I._sub_part = ⟨(0, 0), (1, symbol_size / sizeofT)⟩ := by
    rw [hsubp]
    apply Partition.single_of_num _ _ hS1 hS2
    rw [← hsubp]
    exact hN
  have hmodZ := Nat.mod_lt (div_ceil (raw.length * sizeofT) symbol_size) hZpos
  have hceil := div_ceil_eq (div_ceil (raw.length * sizeofT) symbol_size)
    I._source_blocks hZpos (by omega) (by omega)
  have hdivle := Nat.div_le_self (div_ceil (raw.length * sizeofT) symbol_size)
    I._source_blocks
  have hKS : div_ceil (raw.length * sizeofT) symbol_size * (symbol_size / sizeofT) ≤
      div_ceil (raw.length * sizeofT) symbol_size * symbol_size :=
    Nat.mul_le_mul_left _ hSle
  have hs0le : (if div_ceil (raw.length * sizeofT) symbol_size % I._source_blocks = 0 then 0
      else div_ceil (raw.length * sizeofT) symbol_size / I._source_blocks + 1) ≤
      div_ceil (raw.length * sizeofT) symbol_size := by
    split
    · omega
    · next h0 =>
      have hdm := Nat.div_add_mod (div_ceil (raw.length * sizeofT) symbol_size)
        I._source_blocks
      have h2 : 2 ≤ I._source_blocks := by
        by_contra hc
        have : I._source_blocks = 1 := by omega
        rw [this, Nat.mod_one] at h0
        exact h0 rfl
      have h3 : 2 * (div_ceil (raw.length * sizeofT) symbol_size / I._source_blocks) ≤
          I._source_blocks *
            (div_ceil (raw.length * sizeofT) symbol_size / I._source_blocks) :=
        Nat.mul_le_mul_right _ h2
      omega
  have hread := Interleaver.read_object_single asserts I (symbol_size / sizeofT)
    _ _ _ _ (by rw [hIsz, hIss]) hS1 hS2 hsp' (by omega)
    (by
      rw [hsp'] at htot
      simp only [Partition.num, Partition.size, if_true] at htot
      omega)
    (by
      split
      · omega
      · next h0 =>
        rw [if_neg h0] at hceil
        omega)
    (by
      split at hceil <;> omega)
    hsub'
    (by
      have := Nat.mul_le_mul_right (symbol_size / sizeofT) hs0le
      omega)
    (by
      have := Nat.mul_le_mul_right (symbol_size / sizeofT) hdivle
      omega)
    (by
      rw [Partition.total_arith _ _ hZpos]
      have : (2147483648 : Nat) < 2 ^ 64 := by decide
      omega)
  rw [hread, Partition.total_arith _ _ hZpos, hIraw]
  apply take_map_read
  have h1 := le_div_ceil_mul (raw.length * sizeofT) symbol_size hsspos hbytes (by omega)
  have h2 : symbol_size = symbol_size / sizeofT * sizeofT := by
    have := Nat.div_add_mod symbol_size sizeofT
    rw [Nat.mul_comm]
    omega
  rw [h2, ← Nat.mul_assoc] at h1
  have h3 : div_ceil (raw.length * sizeofT) (symbol_size / sizeofT * sizeofT) =
      div_ceil (raw.length * sizeofT) symbol_size := by rw [← h2]
  rw [h3] at h1
  exact Nat.le_of_mul_le_mul_right h1 hal

set_option maxRecDepth 100000 in
/-- Witness of `Interleaver.round_trip`: the buffer `0..14` of bytes with
`symbol_size = 10`, `min_subsymbol_size = 10`, `max_block_decodable = 10000`. -/
theorem Interleaver.round_trip_witness :
    (Interleaver.ctor true K_padded ⟨0, 0, 0⟩ 1 (List.range 15) 10 10000 10 =
        some ⟨1, List.range 15, 1, 2, 0, 10, 1, 1, ⟨(0, 0), (1, 2)⟩, ⟨(0, 0), (1, 10)⟩⟩ ∧
      (1 < 256 ∧ 10 < 65536 ∧ (List.range 15).length * 1 < 16777216)) ∧
    ((⟨1, List.range 15, 1, 2, 0, 10, 1, 1, ⟨(0, 0), (1, 2)⟩,
        ⟨(0, 0), (1, 10)⟩⟩ : Interleaver).read_object true).take (List.range 15).length =
      (List.range 15).map some :=
  ⟨⟨Interleaver.ctor_15 _ (List.length_range 15), by decide⟩,
    Interleaver.round_trip true K_padded ⟨0, 0, 0⟩ 1 (List.range 15) 10 10000 10 _
      (Interleaver.ctor_15 _ (List.length_range 15)) (by decide) (by decide) (by decide)
      (by decide) (by decide) (by decide) (by decide)⟩

set_option maxRecDepth 100000 in
/-- Claim C4 fails as stated: the buffer `0..51` of bytes with
`symbol_size = 4`, `min_subsymbol_size = 2`, `max_block_decodable = 48` gives a
valid interleaver with one block of 13 symbols and two sub-blocks.  The third
value of the concatenation is unit 26 of the buffer, not unit 2. -/
theorem Interleaver.round_trip_fails :
    ∃ I, Interleaver.ctor true K_padded ⟨0, 0, 0⟩ 1 (List.range 52) 2 48 4 = some I ∧
      I.valid = true ∧ I.blocks = 1 ∧ I.source_symbols 0 = 13 ∧ I.sub_blocks = 2 ∧
      ((I.read_object true).take (List.range 52).length)[2]? = some (some 26) ∧
      ((List.range 52).map some)[2]? = some (some 2) ∧
      (I.read_object true).take (List.range 52).length ≠ (List.range 52).map some := by
  refine ⟨_, Interleaver.ctor_run true K_padded ⟨0, 0, 0⟩ 1 (List.range 52) 2 48 4
      52 13 2 1 2 (List.length_range 52)
      (by decide) (by decide) (by decide) (by decide) (by decide) (by decide) (by decide)
      (by decide) (by decide) (by decide) (by decide) (by decide),
    by decide, by decide, by decide, by decide, by decide, by decide, ?_⟩
  intro hc
  have h2 := congrArg (fun l => l[2]?) hc
  revert h2
  decide

/-- The sum of `n0` terms `s0` followed by `n1` terms `s1`. -/
theorem sum_two_groups (n0 s0 s1 : Nat) (n1 : Nat) :
    ((List.range (n0 + n1)).map fun b => if b < n0 then s0 else s1).sum =
      n0 * s0 + n1 * s1 := by
  induction n1 with
  | zero =>
    induction n0 with
    | zero => simp
    | succ n ih =>
      have hcongr : ((List.range n).map fun b => if b < n + 1 then s0 else s1) =
          (List.range n).map fun b => if b < n then s0 else s1 := by
        apply List.map_congr_left
        intro b hb
        have := List.mem_range.mp hb
        rw [if_pos (by omega), if_pos this]
      simp only [Nat.add_zero, Nat.zero_mul] at ih ⊢
      rw [List.range_succ, List.map_append, List.sum_append, hcongr, ih]
      simp [Nat.succ_mul]
  | succ n ih =>
    rw [← Nat.add_assoc, List.range_succ, List.map_append, List.sum_append, ih]
    simp [Nat.succ_mul, Nat.add_assoc]

/-- For one-byte elements every valid instance meets the bound `K'_max` on
`ceil(Kt/Z)`, with `Kt` as the constructor computes it and `Z` the stored
`_source_blocks`. -/
theorem Interleaver.K_max_bound_bytes (asserts : Bool) (K : List Nat)
    (mem : Indeterminate) (raw : List Nat)
    (min_subsymbol_size max_block_decodable symbol_size : Nat) (I : Interleaver)
    (h : Interleaver.ctor asserts K mem 1 raw min_subsymbol_size
      max_block_decodable symbol_size = some I)
    (hv : I.valid = true) :
    div_ceil (div_ceil (raw.length * 1) symbol_size) I._source_blocks ≤ 56403 := by
  rw [Nat.mul_one]
  exact (Interleaver.ctor_valid_inv asserts K mem 1 raw min_subsymbol_size
    max_block_decodable symbol_size I h hv).2.2.2.2.2.2.2.2.2.2.1

/-- For one-byte elements the symbol counts of the blocks of every valid
instance sum to `Kt`, the value `div_ceil (object_len, symbol_size)` of the
constructor. -/
theorem Interleaver.total_source_symbols_bytes (asserts : Bool) (K : List Nat)
    (mem : Indeterminate) (raw : List Nat)
    (min_subsymbol_size max_block_decodable symbol_size : Nat) (I : Interleaver)
    (h : Interleaver.ctor asserts K mem 1 raw min_subsymbol_size
      max_block_decodable symbol_size = some I)
    (hv : I.valid = true) :
    I.total_source_symbols = div_ceil (raw.length * 1) symbol_size := by
  have hb := Interleaver.K_max_bound_bytes asserts K mem raw min_subsymbol_size
    max_block_decodable symbol_size I h hv
  obtain ⟨-, -, -, -, -, -, hZ0, -, hZeq, -, -, -, -, -, -, hsp, -⟩ :=
    Interleaver.ctor_valid_inv asserts K mem 1 raw min_subsymbol_size
      max_block_decodable symbol_size I h hv
  have hZlt : I._source_blocks < 256 := by
    rw [hZeq]
    exact Nat.mod_lt _ (by decide)
  have hZpos : 0 < I._source_blocks := Nat.pos_of_ne_zero hZ0
  have hsp' := Partition.ctor_eq (div_ceil (raw.length * 1) symbol_size)
    I._source_blocks hZpos (by omega) (by omega)
  rw [← hsp] at hsp'
  have hmodZ := Nat.mod_lt (div_ceil (raw.length * 1) symbol_size) hZpos
  have hblocks : I.blocks = div_ceil (raw.length * 1) symbol_size % I._source_blocks +
      (I._source_blocks - div_ceil (raw.length * 1) symbol_size % I._source_blocks) := by
    unfold Interleaver.blocks
    rw [hsp']
    simp only [Partition.num, if_true, if_false, Nat.one_ne_zero]
    exact u8_of_lt (by omega)
  unfold Interleaver.total_source_symbols
  rw [hblocks]
  have hcongr : ∀ b ∈ List.range
      (div_ceil (raw.length * 1) symbol_size % I._source_blocks +
        (I._source_blocks - div_ceil (raw.length * 1) symbol_size % I._source_blocks)),
      I.source_symbols b =
        if b < div_ceil (raw.length * 1) symbol_size % I._source_blocks then
          (if div_ceil (raw.length * 1) symbol_size % I._source_blocks = 0 then 0
            else div_ceil (raw.length * 1) symbol_size / I._source_blocks + 1)
        else div_ceil (raw.length * 1) symbol_size / I._source_blocks := by
    intro b hb
    have hb' := List.mem_range.mp hb
    unfold Interleaver.source_symbols
    rw [hsp']
    simp only [u8_of_lt (show b < 256 by omega), Partition.num, Partition.size, if_true,
      if_false, Nat.one_ne_zero]
    split
    · rfl
    · rw [if_pos (by omega)]
  rw [List.map_congr_left hcongr, sum_two_groups, Partition.total_arith _ _ hZpos]

/-- Claim C11, the code at the failing input: the one-byte runs `A = [0x01]`,
`B = [0x02]`, and `A = [0x07]`, `B = [0x01]`.  The product of the spec is
`exp[log[A[i]] + log[B[i]]]`, that is `0x02` and `0x07`; `operator*=` indexes
the exp table with `oct_log[A[i]] + oct_exp[B[i]]` and leaves `16` and `28`. -/
theorem Symbol_Wrap.times_fails :
    spec_times oct_log oct_exp 1 2 = 2 ∧
    (Symbol_Wrap.times oct_log oct_exp 1 ⟨[1], 1⟩ ⟨[2], 1⟩)._raw = [16] ∧
    spec_times oct_log oct_exp 7 1 = 7 ∧
    (Symbol_Wrap.times oct_log oct_exp 1 ⟨[7], 1⟩ ⟨[1], 1⟩)._raw = [28] := by
  decide

/-- Zero operands: `operator*=` leaves `0` in a
byte when either operand byte is `0`, as the product of the spec does. -/
theorem Symbol_Wrap.times_byte_zero (log exp : List Nat) (x y : Nat)
    (h : x = 0 ∨ y = 0) :
    Symbol_Wrap.times_byte log exp x y = 0 ∧ spec_times log exp x y = 0 := by
  unfold Symbol_Wrap.times_byte spec_times
  rw [if_pos h, if_pos h]
  exact ⟨rfl, rfl⟩

/-- The run that the loop of an operator leaves has the length of the run it
started from, for runs of equal length. -/
theorem Symbol_Wrap.loop_length (f : Nat → Nat → Nat) (sizeofT : Nat)
    (s a : Symbol_Wrap) (hlen : a._raw.length = s._raw.length) :
    (Symbol_Wrap.loop f sizeofT s a)._raw.length = s._raw.length := by
  unfold Symbol_Wrap.loop
  simp only [List.length_append, List.length_zipWith, List.length_take,
    List.length_drop]
  omega

/-- A byte below `_size * sizeof(T)` is rewritten by the body of the loop. -/
theorem Symbol_Wrap.loop_getElem?_lt (f : Nat → Nat → Nat) (sizeofT : Nat)
    (s a : Symbol_Wrap) (i x y : Nat) (hi : i < s._size * sizeofT)
    (hx : s._raw[i]? = some x) (hy : a._raw[i]? = some y) :
    (Symbol_Wrap.loop f sizeofT s a)._raw[i]? = some (f x y) := by
  have hxl : i < s._raw.length := by
    by_contra hc
    rw [List.getElem?_eq_none (by omega)] at hx
    cases hx
  have hyl : i < a._raw.length := by
    by_contra hc
    rw [List.getElem?_eq_none (by omega)] at hy
    cases hy
  unfold Symbol_Wrap.loop
  simp only
  rw [List.getElem?_append_left (by
    simp only [List.length_zipWith, List.length_take]
    omega), List.getElem?_zipWith, List.getElem?_take_of_lt hi,
    List.getElem?_take_of_lt hi, hx, hy]

/-- A byte at or past `_size * sizeof(T)` is kept by the loop, for runs of
equal length. -/
theorem Symbol_Wrap.loop_getElem?_ge (f : Nat → Nat → Nat) (sizeofT : Nat)
    (s a : Symbol_Wrap) (hlen : a._raw.length = s._raw.length) (i : Nat)
    (hi : s._size * sizeofT ≤ i) :
    (Symbol_Wrap.loop f sizeofT s a)._raw[i]? = s._raw[i]? := by
  unfold Symbol_Wrap.loop
  simp only
  by_cases hil : i < s._raw.length
  · rw [List.getElem?_append_right (by
      simp only [List.length_zipWith, List.length_take]
      omega), List.getElem?_drop]
    congr 1
    simp only [List.length_zipWith, List.length_take]
    omega
  · have h1 : s._raw[i]? = none := List.getElem?_eq_none (by omega)
    rw [h1]
    exact List.getElem?_eq_none (by
      simp only [List.length_append, List.length_zipWith, List.length_take,
        List.length_drop]
      omega)

/-- Claim C12, as amended: for every pair of byte runs of equal length, also
when some divisor byte is `0`, `operator/=` has no failure path: it returns
the run it was called on, of unchanged length and size, rewritten in place;
every dividend byte equal to `0` is left `0`, whatever the divisor byte. -/
theorem Symbol_Wrap.div_returns (log exp : List Nat) (sizeofT : Nat)
    (s a : Symbol_Wrap) (hlen : a._raw.length = s._raw.length) :
    (Symbol_Wrap.div log exp sizeofT s a)._raw.length = s._raw.length ∧
    (Symbol_Wrap.div log exp sizeofT s a)._size = s._size ∧
    ∀ i : Nat, s._raw[i]? = some 0 →
      (Symbol_Wrap.div log exp sizeofT s a)._raw[i]? = some 0 := by
  refine ⟨Symbol_Wrap.loop_length _ sizeofT s a hlen, rfl, ?_⟩
  intro i hi
  unfold Symbol_Wrap.div
  by_cases hlt : i < s._size * sizeofT
  · have hil : i < a._raw.length := by
      rw [hlen]
      by_contra hc
      rw [List.getElem?_eq_none (by omega)] at hi
      cases hi
    rw [Symbol_Wrap.loop_getElem?_lt _ sizeofT s a i 0 (a._raw[i]) hlt hi
      (List.getElem?_eq_getElem hil)]
    rfl
  · rw [Symbol_Wrap.loop_getElem?_ge _ sizeofT s a hlen i (by omega), hi]

/-- Witness of `Symbol_Wrap.div_returns`: the run `[3, 0]` divided by the run
`[0, 0]`. -/
theorem Symbol_Wrap.div_returns_witness :
    ([0, 0] : List Nat).length = ([3, 0] : List Nat).length ∧
    ((Symbol_Wrap.div oct_log oct_exp 1 ⟨[3, 0], 2⟩ ⟨[0, 0], 2⟩)._raw.length = 2 ∧
      (Symbol_Wrap.div oct_log oct_exp 1 ⟨[3, 0], 2⟩ ⟨[0, 0], 2⟩)._size = 2 ∧
      ∀ i : Nat, ([3, 0] : List Nat)[i]? = some 0 →
        (Symbol_Wrap.div oct_log oct_exp 1 ⟨[3, 0], 2⟩ ⟨[0, 0], 2⟩)._raw[i]? = some 0) :=
  ⟨rfl, Symbol_Wrap.div_returns oct_log oct_exp 1 ⟨[3, 0], 2⟩ ⟨[0, 0], 2⟩ rfl⟩

/-- Claim C12 fails as stated: dividing the run `[0x03, 0x00]` by the run
`[0x00, 0x00]` does not fail; `operator/=` returns the run `[143, 0]`: the
first dividend byte is rewritten, the second is left as it was. -/
theorem Symbol_Wrap.div_by_zero_fails :
    (Symbol_Wrap.div oct_log oct_exp 1 ⟨[3, 0], 2⟩ ⟨[0, 0], 2⟩) = ⟨[143, 0], 2⟩ := by
  decide

/-- Claim C13, as amended: for every source block with `k` symbols and every
`symbol_id >= k`, `operator[]` does not fail: it returns the view built with
start 0, end 0, symbol id 0 and `k = 0`, the same for every such id; a
position `pos < tot(0) + tot(1)` of that view reads unit `pos mod size(0)` of
the buffer when `pos < tot(0)`, and unit `(pos - tot(0)) mod size(1)`
otherwise (the zero element past the end of the buffer). -/
theorem Source_Block.get_out_of_range (b : Source_Block) (symbol_id : Nat)
    (h : b._symbols ≤ symbol_id) :
    b.get symbol_id = Symbol_it.ctor b._raw 0 0 0 b._sub_blocks b._symbol_size 0 0 ∧
    ∀ pos, pos < b._sub_blocks.tot 0 + b._sub_blocks.tot 1 →
      (b.get symbol_id).get pos =
        some (Symbol_it.read b._raw
          (if pos < b._sub_blocks.tot 0 then pos % b._sub_blocks.size 0
            else (pos - b._sub_blocks.tot 0) % b._sub_blocks.size 1)) := by
  have hget : b.get symbol_id =
      Symbol_it.ctor b._raw 0 0 0 b._sub_blocks b._symbol_size 0 0 := by
    unfold Source_Block.get
    rw [if_neg (by omega)]
  refine ⟨hget, ?_⟩
  intro pos hpos
  have ht0 : b._sub_blocks.tot 0 < 65536 := by
    unfold Partition.tot
    rw [if_pos rfl]
    exact Nat.mod_lt _ (by decide)
  have ht1 : b._sub_blocks.tot 1 < 65536 := by
    unfold Partition.tot
    rw [if_neg (by decide)]
    exact Nat.mod_lt _ (by decide)
  have hm0 := Nat.mod_le pos (b._sub_blocks.size 0)
  have hm1 := Nat.mod_le (pos - b._sub_blocks.tot 0) (b._sub_blocks.size 1)
  have hbig : (131072 : Nat) < 2 ^ 64 := by decide
  rw [hget, Symbol_it.get_eq _ _ hpos]
  · simp only [Symbol_it.ctor, spec_index, u16, Nat.zero_mod, Nat.mul_zero, Nat.zero_mul,
      Nat.zero_add, Nat.add_zero]
  · simp only [Symbol_it.ctor, u16, Nat.zero_mod, Nat.zero_mul]
    decide
  · simp only [Symbol_it.ctor, u16, Nat.zero_mod, Nat.zero_mul]
    decide
  · simp only [Symbol_it.ctor, u16, Nat.zero_mod, Nat.mul_zero]
    decide
  · simp only [Symbol_it.ctor, spec_index, u16, Nat.zero_mod, Nat.mul_zero, Nat.zero_mul,
      Nat.zero_add, Nat.add_zero]
    split <;> omega

/-- Witness of `Source_Block.get_out_of_range`: a block of 2 symbols of 4
units over the buffer `7 .. 14`; symbol id 2 is out of range. -/
theorem Source_Block.get_out_of_range_witness :
    (Source_Block.ctor [7, 8, 9, 10, 11, 12, 13, 14] 0 8 0 (Partition.ctor 4 1) 4)._symbols
      ≤ 2 ∧
    (Source_Block.ctor [7, 8, 9, 10, 11, 12, 13, 14] 0 8 0 (Partition.ctor 4 1) 4).get 2 =
      Symbol_it.ctor [7, 8, 9, 10, 11, 12, 13, 14] 0 0 0 (Partition.ctor 4 1) 4 0 0 :=
  ⟨by decide,
    (Source_Block.get_out_of_range
      (Source_Block.ctor [7, 8, 9, 10, 11, 12, 13, 14] 0 8 0 (Partition.ctor 4 1) 4) 2
      (by decide)).1⟩

/-- Claim C13 fails as stated: for the block of 2 symbols of 4 units over the
buffer `7 .. 14`, `operator[] (2)` returns a view, and position 1 of that view
reads the buffer content `8`, the same as position 1 of symbol 0. -/
theorem Source_Block.get_out_of_range_fails :
    (Source_Block.ctor [7, 8, 9, 10, 11, 12, 13, 14] 0 8 0 (Partition.ctor 4 1) 4)._symbols
      = 2 ∧
    ((Source_Block.ctor [7, 8, 9, 10, 11, 12, 13, 14] 0 8 0 (Partition.ctor 4 1) 4).get
      2).get 1 = some 8 ∧
    ((Source_Block.ctor [7, 8, 9, 10, 11, 12, 13, 14] 0 8 0 (Partition.ctor 4 1) 4).get
      0).get 1 = some 8 := by
  decide

/-- The partition that the constructor builds from zero parts. -/
theorem Partition.ctor_of_zero (total : Nat) :
    Partition.ctor total 0 = ⟨(u16 total, 0), (u16 (65536 - u16 total), 0)⟩ := by
  have e0 : u8 0 = 0 := rfl
  have e1 : div_ceil total 0 = 0 := by
    unfold div_ceil
    rw [if_pos rfl]
  have e2 : div_floor total 0 = 0 := by
    unfold div_floor
    rw [if_pos rfl]
  have e3 : cast_u16 0 = 0 := rfl
  unfold Partition.ctor
  simp only [e0, e1, e2, e3, Nat.zero_mul, Nat.sub_zero, Nat.zero_add, ite_self]

/-- Claim C14, as amended: `Partition (total, parts)` with `parts == 0` does
not fail, for any `total`: the constructor has no test of `parts` and returns
the partition with `num(0) = total mod 65536`,
`num(1) = (65536 - num(0)) mod 65536` and both sizes `0`, the conversion to
`uint16_t` of a quotient that is infinite or not a number; both `tot` are
`0`. -/
theorem Partition.ctor_zero (total : Nat) :
    Partition.ctor total 0 = ⟨(u16 total, 0), (u16 (65536 - u16 total), 0)⟩ ∧
    (Partition.ctor total 0).num 0 = total % 65536 ∧
    (Partition.ctor total 0).num 1 = (65536 - total % 65536) % 65536 ∧
    (Partition.ctor total 0).size 0 = 0 ∧ (Partition.ctor total 0).size 1 = 0 ∧
    (Partition.ctor total 0).tot 0 = 0 ∧ (Partition.ctor total 0).tot 1 = 0 := by
  rw [Partition.ctor_of_zero total]
  exact ⟨rfl, rfl, rfl, rfl, rfl, rfl, rfl⟩

/-- Claim C14 fails as stated: `Partition (10, 0)` does not fail; it is the
partition with `num(0) = 10`, `num(1) = 65526`.  Both quotients of the
source are infinite here, and both sizes are their conversion to
`uint16_t`, which is `0`. -/
theorem Partition.ctor_zero_parts :
    Partition.ctor 10 0 = ⟨(10, 0), (65526, 0)⟩ := by
  decide

/-- Claim C15, the code at the failing input: `Partition (100004, 5)` has 4
parts of size 20001 and 1 part of size 20000.  The product `num(0)*size(0)`
is `80004`, `tot(0)` returns `80004 mod 65536 = 14468`, and
`tot(0) + tot(1)` is `34468`, not `100004`. -/
theorem Partition.tot_truncated :
    (Partition.ctor 100004 5).num 0 = 4 ∧ (Partition.ctor 100004 5).size 0 = 20001 ∧
    (Partition.ctor 100004 5).num 1 = 1 ∧ (Partition.ctor 100004 5).size 1 = 20000 ∧
    (Partition.ctor 100004 5).size 0 * (Partition.ctor 100004 5).num 0 = 80004 ∧
    (Partition.ctor 100004 5).tot 0 = 14468 ∧
    (Partition.ctor 100004 5).tot 0 + (Partition.ctor 100004 5).tot 1 = 34468 := by
  decide

/-- Where the product fits 16 bits, `tot` is the product `size * num`. -/
theorem Partition.tot_exact (P : Partition) (w : Nat)
    (h : P.size w * P.num w < 65536) : P.tot w = P.size w * P.num w := by
  unfold Partition.tot Partition.size Partition.num at *
  by_cases hw : w = 0
  · simp only [hw, if_true] at h ⊢
    rw [Nat.mul_comm]
    exact u16_of_lt h
  · simp only [hw, if_false] at h ⊢
    rw [Nat.mul_comm]
    exact u16_of_lt h

/-- The scan of the table stops inside the table or at its end. -/
theorem Interleaver.scan_le_length (ub : Nat) (K : List Nat) :
    Interleaver.scan ub K ≤ K.length := by
  induction K with
  | nil => simp [Interleaver.scan]
  | cons x xs ih =>
    unfold Interleaver.scan
    split
    · omega
    · simp only [List.length_cons]
      omega

/-- The entries that the scan passes do not exceed the bound. -/
theorem Interleaver.scan_take (ub : Nat) (K : List Nat) :
    ∀ x ∈ K.take (Interleaver.scan ub K), x ≤ ub := by
  induction K with
  | nil => simp
  | cons x xs ih =>
    unfold Interleaver.scan
    split
    · simp
    · next hx =>
      intro y hy
      rw [List.take_succ_cons, List.mem_cons] at hy
      rcases hy with hy | hy
      · omega
      · exact ih y hy

/-- In a strictly increasing table every entry from the one where the scan
stops exceeds the bound. -/
theorem Interleaver.scan_drop (ub : Nat) (K : List Nat) (hK : K.Pairwise (· < ·)) :
    ∀ x ∈ K.drop (Interleaver.scan ub K), ub < x := by
  induction K with
  | nil => simp
  | cons x xs ih =>
    rw [List.pairwise_cons] at hK
    unfold Interleaver.scan
    split
    · next hx =>
      intro y hy
      rw [List.drop_zero, List.mem_cons] at hy
      rcases hy with hy | hy
      · omega
      · have := hK.1 y hy
        omega
    · intro y hy
      rw [List.drop_succ_cons] at hy
      exact ih hK.2 y hy

/-- The table look-up where binary32 is exact: for every non-empty strictly
increasing table, `max_block_decodable < 2^24`, an alignment in `1..255`, a
16-bit `symbol_size >= 1` and `n >= 1` with `alignment * n < 2^24`, the bound
that the comparisons see is the integer part of
`max_block_decodable / (alignment * ceil(symbol_size / (alignment * n)))`; the
table index used by the constructor is in range (also when every entry is at
most the bound, where it is the last index); the value recorded as `KL(n)` is
the entry at that index, stored as `uint16_t`; that entry is the largest entry
not exceeding the bound when there is one, and the index is that of the first
entry when no entry is at most the bound. -/
theorem Interleaver.KL_lookup_in_range (K : List Nat)
    (max_block_decodable alignment symbol_size n : Nat)
    (hne : K ≠ []) (hpw : K.Pairwise (· < ·))
    (hmax : max_block_decodable < 16777216) (hal : 1 ≤ alignment) (hal2 : alignment ≤ 255)
    (hss1 : 1 ≤ symbol_size) (hss : symbol_size < 65536) (hn : 1 ≤ n)
    (hn2 : alignment * n < 16777216) :
    Interleaver.upper_bound max_block_decodable alignment symbol_size n =
      max_block_decodable /
        (alignment * ((symbol_size + alignment * n - 1) / (alignment * n))) ∧
    Interleaver.KL_index K
        (max_block_decodable /
          (alignment * ((symbol_size + alignment * n - 1) / (alignment * n)))) < K.length ∧
    Interleaver.KL K max_block_decodable alignment symbol_size n =
      u16 (K.getD (Interleaver.KL_index K
        (max_block_decodable /
          (alignment * ((symbol_size + alignment * n - 1) / (alignment * n))))) 0) ∧
    ((∀ x ∈ K, x < 65536) →
      Interleaver.KL K max_block_decodable alignment symbol_size n =
        K.getD (Interleaver.KL_index K
          (max_block_decodable /
            (alignment * ((symbol_size + alignment * n - 1) / (alignment * n))))) 0) ∧
    ((∃ x ∈ K, x ≤ max_block_decodable /
          (alignment * ((symbol_size + alignment * n - 1) / (alignment * n)))) →
      K.getD (Interleaver.KL_index K
          (max_block_decodable /
            (alignment * ((symbol_size + alignment * n - 1) / (alignment * n))))) 0 ≤
        max_block_decodable /
          (alignment * ((symbol_size + alignment * n - 1) / (alignment * n))) ∧
      ∀ x ∈ K, x ≤ max_block_decodable /
          (alignment * ((symbol_size + alignment * n - 1) / (alignment * n))) →
        x ≤ K.getD (Interleaver.KL_index K
          (max_block_decodable /
            (alignment * ((symbol_size + alignment * n - 1) / (alignment * n))))) 0) ∧
    ((∀ x ∈ K, max_block_decodable /
          (alignment * ((symbol_size + alignment * n - 1) / (alignment * n))) < x) →
      Interleaver.KL_index K
        (max_block_decodable /
          (alignment * ((symbol_size + alignment * n - 1) / (alignment * n)))) = 0) ∧
    ((∀ x ∈ K, x ≤ max_block_decodable /
          (alignment * ((symbol_size + alignment * n - 1) / (alignment * n)))) →
      Interleaver.KL_index K
        (max_block_decodable /
          (alignment * ((symbol_size + alignment * n - 1) / (alignment * n)))) =
          K.length - 1) := by
  have hanpos : 0 < alignment * n := Nat.mul_pos hal hn
  have hc : div_ceil symbol_size (alignment * n) =
      (symbol_size + alignment * n - 1) / (alignment * n) := by
    unfold div_ceil
    rw [if_neg (by omega), if_pos ⟨by omega, hn2⟩]
  have hcle := div_ceil_le_self symbol_size (alignment * n) hanpos (by omega) hn2
  have hcpos : 1 ≤ div_ceil symbol_size (alignment * n) := by
    have := le_div_ceil_mul symbol_size (alignment * n) hanpos (by omega) hn2
    by_contra hz
    have h0 : div_ceil symbol_size (alignment * n) = 0 := by omega
    rw [h0, Nat.zero_mul] at this
    omega
  have hdpos : 0 < alignment * div_ceil symbol_size (alignment * n) :=
    Nat.mul_pos hal hcpos
  have hdlt : alignment * div_ceil symbol_size (alignment * n) < 16777216 := by
    have h1 : alignment * div_ceil symbol_size (alignment * n) ≤ 255 * 65535 :=
      Nat.mul_le_mul hal2 (by omega)
    omega
  have hub : Interleaver.upper_bound max_block_decodable alignment symbol_size n =
      max_block_decodable /
        (alignment * ((symbol_size + alignment * n - 1) / (alignment * n))) := by
    unfold Interleaver.upper_bound
    rw [div_floor_eq _ _ hdpos hmax hdlt, hc]
  have hKL : Interleaver.KL K max_block_decodable alignment symbol_size n =
      u16 (K.getD (Interleaver.KL_index K
        (Interleaver.upper_bound max_block_decodable alignment symbol_size n)) 0) := rfl
  rw [hub] at hKL
  refine ⟨hub, ?_⟩
  generalize max_block_decodable /
    (alignment * ((symbol_size + alignment * n - 1) / (alignment * n))) = ub at hKL ⊢
  have hlen : 0 < K.length := List.length_pos.mpr hne
  have hle := Interleaver.scan_le_length ub K
  have htake := Interleaver.scan_take ub K
  have hdrop := Interleaver.scan_drop ub K hpw
  have hmono := List.pairwise_iff_getElem.mp hpw
  have hidx : Interleaver.KL_index K ub < K.length := by
    unfold Interleaver.KL_index
    split <;> omega
  have hget : K.getD (Interleaver.KL_index K ub) 0 = K[Interleaver.KL_index K ub] :=
    List.getD_eq_getElem K 0 hidx
  refine ⟨hidx, hKL, ?_, ?_, ?_, ?_⟩
  · intro h16
    rw [hKL]
    apply u16_of_lt
    rw [hget]
    exact h16 _ (List.getElem_mem _)
  · rintro ⟨x, hx, hxub⟩
    have hpos : Interleaver.scan ub K ≠ 0 := by
      intro h0
      rw [h0, List.drop_zero] at hdrop
      have := hdrop x hx
      omega
    have hj : Interleaver.KL_index K ub = Interleaver.scan ub K - 1 := by
      unfold Interleaver.KL_index
      rw [if_neg hpos]
    rw [hget]
    constructor
    · apply htake
      rw [List.mem_take_iff_getElem]
      exact ⟨Interleaver.KL_index K ub, by omega, rfl⟩
    · intro y hy hyub
      obtain ⟨i, hi, rfl⟩ := List.getElem_of_mem hy
      have hi2 : i < Interleaver.scan ub K := by
        by_contra hc
        have := hdrop K[i] (by
          rw [List.mem_drop_iff_getElem]
          exact ⟨i - Interleaver.scan ub K, by omega, by
            congr 1
            omega⟩)
        omega
      by_cases hij : i = Interleaver.KL_index K ub
      · subst hij
        exact Nat.le_refl _
      · exact Nat.le_of_lt (hmono i _ hi hidx (by omega))
  · intro hall
    unfold Interleaver.KL_index
    split
    · rfl
    · next hpos =>
      exfalso
      have h0 := htake K[0] (by
        rw [List.mem_take_iff_getElem]
        exact ⟨0, by omega, rfl⟩)
      have := hall K[0] (List.getElem_mem _)
      omega
  · intro hall
    have hfull : Interleaver.scan ub K = K.length := by
      by_contra hc
      have hlt : Interleaver.scan ub K < K.length := by omega
      have h1 := hdrop K[Interleaver.scan ub K] (by
        rw [List.mem_drop_iff_getElem]
        exact ⟨0, by omega, rfl⟩)
      have := hall K[Interleaver.scan ub K] (List.getElem_mem _)
      omega
    unfold Interleaver.KL_index
    rw [hfull, if_neg (by omega)]

/-- A table that passes the test `increasing` is strictly increasing. -/
theorem pairwise_of_increasing (K : List Nat) (h : increasing K = true) :
    K.Pairwise (· < ·) := by
  apply List.chain'_iff_pairwise.mp
  induction K with
  | nil => exact List.chain'_nil
  | cons x xs ih =>
    cases xs with
    | nil => exact List.chain'_singleton x
    | cons y rest =>
      simp only [increasing, Bool.and_eq_true, decide_eq_true_eq] at h
      exact List.chain'_cons.mpr ⟨h.1, ih h.2⟩

set_option maxRecDepth 100000 in
/-- The table of RFC 6330 is strictly increasing. -/
theorem K_padded_increasing : K_padded.Pairwise (· < ·) :=
  pairwise_of_increasing K_padded (by decide)

set_option maxRecDepth 100000 in
/-- Claim C17, the code at the failing input: the table of RFC 6330,
`max_block_decodable = 16840695`, one-byte elements, `symbol_size = 65528`,
`min_subsymbol_size = 65528` (`N_max = 1`) and a buffer of 16382000 bytes
(`Kt = 250`).  The exact quotient `16840695 / 65528` is just below 257: the
largest table entry not exceeding it is `248`.  The source converts
`max_block_decodable` to binary32, which gives `16840696`, the quotient it
compares with is `257`, and the value recorded as `KL(1)` is `257`, which
exceeds `upper_bound(1)`.  The constructor then stores `Z = ceil(250/257) = 1`
and yields a valid instance with one source block, where `KL(1) = 248` gives
`Z = ceil(250/248) = 2`. -/
theorem Interleaver.KL_rounded :
    16840695 / (1 * ((65528 + 1 * 1 - 1) / (1 * 1))) = 256 ∧
    248 ∈ K_padded ∧ 248 ≤ 256 ∧ (∀ x ∈ K_padded, x ≤ 256 → x ≤ 248) ∧
    f32 16840695 = 16840696 ∧
    Interleaver.upper_bound 16840695 1 65528 1 = 257 ∧
    Interleaver.KL K_padded 16840695 1 65528 1 = 257 ∧
    16840695 < 257 * (1 * ((65528 + 1 * 1 - 1) / (1 * 1))) ∧
    div_ceil 250 248 = 2 ∧
    ∃ I, Interleaver.ctor true K_padded ⟨0, 0, 0⟩ 1 (List.replicate 16382000 7)
        65528 16840695 65528 = some I ∧
      I.valid = true ∧ I._source_blocks = 1 ∧ I.blocks = 1 ∧ I.source_symbols 0 = 250 :=
  ⟨by decide, by decide, by decide, by decide, by decide, by decide, by decide, by decide,
    by decide, _,
    Interleaver.ctor_run true K_padded ⟨0, 0, 0⟩ 1 (List.replicate 16382000 7)
      65528 16840695 65528 16382000 250 1 1 1 (List.length_replicate _ _)
      (by decide) (by decide) (by decide) (by decide) (by decide) (by decide) (by decide)
      (by decide) (by decide) (by decide) (by decide) (by decide),
    by decide, by decide, by decide, by decide⟩

/-- The loop that fills `sizes` pushes one entry per round. -/
theorem Interleaver.fill_length (K : List Nat) (m a s : Nat) :
    ∀ (n t : Nat), (Interleaver.fill K m a s t n).length = n := by
  intro n
  induction n with
  | zero => intro t; rfl
  | succ n ih =>
    intro t
    simp only [Interleaver.fill, List.length_cons, ih]

/-- Entry `j` of `sizes` is `KL` for the `j`-th value of `tmp`. -/
theorem Interleaver.fill_getD (K : List Nat) (m a s : Nat) :
    ∀ (n t j : Nat), j < n →
      (Interleaver.fill K m a s t n).getD j 0 = Interleaver.KL K m a s (t + j) := by
  intro n
  induction n with
  | zero => intro t j hj; omega
  | succ n ih =>
    intro t j hj
    cases j with
    | zero => simp [Interleaver.fill]
    | succ j =>
      simp only [Interleaver.fill, List.getD_cons_succ]
      rw [ih (t + 1) j (by omega)]
      congr 1
      omega

/-- The search stops at the first entry that is at least `tmp`, when there is
one. -/
theorem Interleaver.search_some (tmp : Nat) :
    ∀ (l : List Nat) (s j : Nat), j < l.length → tmp ≤ l.getD j 0 →
      ∃ i, i ≤ j ∧ Interleaver.search tmp l s = some (s + i) := by
  intro l
  induction l with
  | nil => intro s j hj; simp at hj
  | cons x xs ih =>
    intro s j hj hle
    unfold Interleaver.search
    by_cases hx : tmp ≤ x
    · exact ⟨0, by omega, by rw [if_pos hx]; rfl⟩
    · rw [if_neg hx]
      cases j with
      | zero =>
        simp only [List.getD_cons_zero] at hle
        omega
      | succ j =>
        simp only [List.getD_cons_succ] at hle
        simp only [List.length_cons] at hj
        obtain ⟨i, hi, hs⟩ := ih (s + 1) j (by omega) hle
        exact ⟨i + 1, by omega, by rw [hs]; congr 1; omega⟩

/-- What the search returns: the index found is in the list, the entry there
is at least `tmp`, and every entry before it is below `tmp`. -/
theorem Interleaver.search_spec (tmp : Nat) :
    ∀ (l : List Nat) (s i : Nat), Interleaver.search tmp l s = some (s + i) →
      i < l.length ∧ tmp ≤ l.getD i 0 ∧ ∀ j, j < i → l.getD j 0 < tmp := by
  intro l
  induction l with
  | nil =>
    intro s i h
    simp [Interleaver.search] at h
  | cons x xs ih =>
    intro s i h
    unfold Interleaver.search at h
    by_cases hx : tmp ≤ x
    · rw [if_pos hx] at h
      have hi : i = 0 := by
        have := Option.some.inj h
        omega
      subst hi
      exact ⟨by simp, by simpa using hx, fun j hj => by omega⟩
    · rw [if_neg hx] at h
      cases i with
      | zero =>
        exfalso
        obtain ⟨k, -, hk⟩ : ∃ k, True ∧ Interleaver.search tmp xs (s + 1) = some k :=
          ⟨_, trivial, h⟩
        have hge : ∀ (l : List Nat) (a b : Nat), Interleaver.search tmp l a = some b →
            a ≤ b := by
          intro l
          induction l with
          | nil => intro a b hab; simp [Interleaver.search] at hab
          | cons y ys ihy =>
            intro a b hab
            unfold Interleaver.search at hab
            split at hab
            · have := Option.some.inj hab
              omega
            · have := ihy (a + 1) b hab
              omega
        have := hge xs (s + 1) (s + 0) h
        omega
      | succ i =>
        have h2 : Interleaver.search tmp xs (s + 1) = some (s + 1 + i) := by
          rw [h]
          congr 1
          omega
        obtain ⟨h3, h4, h5⟩ := ih (s + 1) i h2
        refine ⟨by simp only [List.length_cons]; omega, by simpa using h4, ?_⟩
        intro j hj
        cases j with
        | zero =>
          simp only [List.getD_cons_zero]
          omega
        | succ j =>
          simp only [List.getD_cons_succ]
          exact h5 j (by omega)

/-- When the first test of the constructor is passed and the stored
`_source_blocks` is not `0`, every instance the constructor returns holds the
computed `_source_blocks` and `_sub_blocks`, valid or not. -/
theorem Interleaver.ctor_passed_inv (asserts : Bool) (K : List Nat) (mem : Indeterminate)
    (sizeofT : Nat) (raw : List Nat)
    (min_subsymbol_size max_block_decodable symbol_size : Nat) (I : Interleaver)
    (h1 : symbol_size % u8 sizeofT = 0) (h2 : u8 sizeofT ≤ min_subsymbol_size)
    (h3 : min_subsymbol_size % u8 sizeofT = 0) (h4 : min_subsymbol_size ≤ symbol_size)
    (hZ0 : u8 (cast_u16 (div_ceil (div_ceil (raw.length * sizeofT) symbol_size)
      ((Interleaver.fill K max_block_decodable (u8 sizeofT) symbol_size 1
        (div_floor symbol_size min_subsymbol_size)).getD
          (div_floor symbol_size min_subsymbol_size - 1) 0))) ≠ 0)
    (h : Interleaver.ctor asserts K mem sizeofT raw min_subsymbol_size
      max_block_decodable symbol_size = some I) :
    I._source_blocks = u8 (cast_u16 (div_ceil (div_ceil (raw.length * sizeofT) symbol_size)
      ((Interleaver.fill K max_block_decodable (u8 sizeofT) symbol_size 1
        (div_floor symbol_size min_subsymbol_size)).getD
          (div_floor symbol_size min_subsymbol_size - 1) 0))) ∧
    I._sub_blocks = (match Interleaver.search
        (div_ceil (div_ceil (raw.length * sizeofT) symbol_size) I._source_blocks)
        (Interleaver.fill K max_block_decodable (u8 sizeofT) symbol_size 1
          (div_floor symbol_size min_subsymbol_size)) 0 with
      | some i => u16 (i + 1)
      | none => mem._sub_blocks) := by
  have hB : ¬ (symbol_size % u8 sizeofT ≠ 0 ∨ min_subsymbol_size < u8 sizeofT ∨
      min_subsymbol_size % u8 sizeofT ≠ 0 ∨ min_subsymbol_size > symbol_size) := by
    omega
  unfold Interleaver.ctor at h
  simp only at h
  rw [if_neg hB] at h
  simp only [hZ0, false_and, if_false, false_or] at h
  split at h
  · cases h
  · split at h
    · cases h
    · split at h
      · cases h
        exact ⟨rfl, rfl⟩
      · cases h
        exact ⟨rfl, rfl⟩

/-- With assertions compiled out the constructor always returns an
instance. -/
theorem Interleaver.ctor_returns (K : List Nat) (mem : Indeterminate)
    (sizeofT : Nat) (raw : List Nat)
    (min_subsymbol_size max_block_decodable symbol_size : Nat) :
    ∃ I, Interleaver.ctor false K mem sizeofT raw min_subsymbol_size
      max_block_decodable symbol_size = some I := by
  unfold Interleaver.ctor
  simp only [Bool.false_and, Bool.false_eq_true, if_false]
  split
  · exact ⟨_, rfl⟩
  · by_cases hD : u8 (cast_u16 (div_ceil (div_ceil (raw.length * sizeofT) symbol_size)
        ((Interleaver.fill K max_block_decodable (u8 sizeofT) symbol_size 1
          (div_floor symbol_size min_subsymbol_size)).getD
            (div_floor symbol_size min_subsymbol_size - 1) 0))) = 0
    · rw [if_pos (Or.inl hD)]
      exact ⟨_, rfl⟩
    · simp only [hD, false_and, if_false, false_or]
      split
      · exact ⟨_, rfl⟩
      · exact ⟨_, rfl⟩

/-- With assertions compiled in, a configuration that passes the first test
aborts at the assertion on `K'_max` when the tested quotient exceeds 56403. -/
theorem Interleaver.ctor_aborts (K : List Nat) (mem : Indeterminate)
    (sizeofT : Nat) (raw : List Nat)
    (min_subsymbol_size max_block_decodable symbol_size : Nat)
    (h1 : symbol_size % u8 sizeofT = 0) (h2 : u8 sizeofT ≤ min_subsymbol_size)
    (h3 : min_subsymbol_size % u8 sizeofT = 0) (h4 : min_subsymbol_size ≤ symbol_size)
    (hb : 56403 < div_ceil (div_ceil raw.length symbol_size)
      (u8 (cast_u16 (div_ceil (div_ceil (raw.length * sizeofT) symbol_size)
        ((Interleaver.fill K max_block_decodable (u8 sizeofT) symbol_size 1
          (div_floor symbol_size min_subsymbol_size)).getD
            (div_floor symbol_size min_subsymbol_size - 1) 0))))) :
    Interleaver.ctor true K mem sizeofT raw min_subsymbol_size max_block_decodable
      symbol_size = none := by
  have hA : (decide (symbol_size ≥ u8 sizeofT) && decide (symbol_size % u8 sizeofT = 0) &&
      decide (min_subsymbol_size ≥ u8 sizeofT) &&
      decide (min_subsymbol_size % u8 sizeofT = 0)) = true := by
    simp only [Bool.and_eq_true, decide_eq_true_eq]
    exact ⟨⟨⟨by omega, h1⟩, h2⟩, h3⟩
  have hB : ¬ (symbol_size % u8 sizeofT ≠ 0 ∨ min_subsymbol_size < u8 sizeofT ∨
      min_subsymbol_size % u8 sizeofT ≠ 0 ∨ min_subsymbol_size > symbol_size) := by
    omega
  have hD : decide (div_ceil (div_ceil raw.length symbol_size)
      (u8 (cast_u16 (div_ceil (div_ceil (raw.length * sizeofT) symbol_size)
        ((Interleaver.fill K max_block_decodable (u8 sizeofT) symbol_size 1
          (div_floor symbol_size min_subsymbol_size)).getD
            (div_floor symbol_size min_subsymbol_size - 1) 0)))) ≤ 56403) = false := by
    rw [decide_eq_false_iff_not]
    omega
  unfold Interleaver.ctor
  simp only [hA, Bool.not_true, Bool.and_false, Bool.false_eq_true, if_false]
  rw [if_neg hB]
  simp only [hD, Bool.and_false, Bool.not_false, Bool.and_self, if_true]

/-- Claim C20: for every parameter set that passes the first validation and
whose `Z = ceil(Kt / KL(N_max))` is in `1..255`, `ceil(Kt / Z) <= KL(N_max)`
holds and the search loop finds an index `i < N_max`: entry `i` of `sizes`,
which is `KL(i + 1)`, is at least `ceil(Kt / Z)`, and every entry before it is
below `ceil(Kt / Z)`.  Every instance the constructor returns then holds
`_source_blocks = Z` and `_sub_blocks = i + 1`, a value in `1..N_max` that
does not depend on what the storage held.  With assertions compiled out the
constructor does return an instance; when the quotient tested against
`K'_max` is at most 56403 it returns a valid instance, with or without
assertions; when that quotient exceeds 56403 and assertions are compiled in,
the assertion on `K'_max` aborts the constructor. -/
theorem Interleaver.sub_blocks_found (K : List Nat) (mem : Indeterminate)
    (sizeofT : Nat) (raw : List Nat)
    (min_subsymbol_size max_block_decodable symbol_size : Nat)
    (hsz0 : 0 < sizeofT) (hsz : sizeofT < 256) (hss : symbol_size < 65536)
    (h1 : symbol_size % sizeofT = 0) (h2 : sizeofT ≤ min_subsymbol_size)
    (h3 : min_subsymbol_size % sizeofT = 0) (h4 : min_subsymbol_size ≤ symbol_size)
    (hZ1 : 1 ≤ div_ceil (div_ceil (raw.length * sizeofT) symbol_size)
      (Interleaver.KL K max_block_decodable sizeofT symbol_size
        (div_floor symbol_size min_subsymbol_size)))
    (hZ2 : div_ceil (div_ceil (raw.length * sizeofT) symbol_size)
      (Interleaver.KL K max_block_decodable sizeofT symbol_size
        (div_floor symbol_size min_subsymbol_size)) ≤ 255) :
    div_ceil (div_ceil (raw.length * sizeofT) symbol_size)
        (div_ceil (div_ceil (raw.length * sizeofT) symbol_size)
          (Interleaver.KL K max_block_decodable sizeofT symbol_size
            (div_floor symbol_size min_subsymbol_size))) ≤
      Interleaver.KL K max_block_decodable sizeofT symbol_size
        (div_floor symbol_size min_subsymbol_size) ∧
    ∃ i, i < div_floor symbol_size min_subsymbol_size ∧
      Interleaver.search
        (div_ceil (div_ceil (raw.length * sizeofT) symbol_size)
          (div_ceil (div_ceil (raw.length * sizeofT) symbol_size)
            (Interleaver.KL K max_block_decodable sizeofT symbol_size
              (div_floor symbol_size min_subsymbol_size))))
        (Interleaver.fill K max_block_decodable sizeofT symbol_size 1
          (div_floor symbol_size min_subsymbol_size)) 0 = some i ∧
      div_ceil (div_ceil (raw.length * sizeofT) symbol_size)
          (div_ceil (div_ceil (raw.length * sizeofT) symbol_size)
            (Interleaver.KL K max_block_decodable sizeofT symbol_size
              (div_floor symbol_size min_subsymbol_size))) ≤
        Interleaver.KL K max_block_decodable sizeofT symbol_size (i + 1) ∧
      (∀ j, j < i →
        Interleaver.KL K max_block_decodable sizeofT symbol_size (j + 1) <
          div_ceil (div_ceil (raw.length * sizeofT) symbol_size)
            (div_ceil (div_ceil (raw.length * sizeofT) symbol_size)
              (Interleaver.KL K max_block_decodable sizeofT symbol_size
                (div_floor symbol_size min_subsymbol_size)))) ∧
      (∀ asserts I, Interleaver.ctor asserts K mem sizeofT raw min_subsymbol_size
          max_block_decodable symbol_size = some I →
        I._source_blocks = div_ceil (div_ceil (raw.length * sizeofT) symbol_size)
          (Interleaver.KL K max_block_decodable sizeofT symbol_size
            (div_floor symbol_size min_subsymbol_size)) ∧
        I._sub_blocks = i + 1) ∧
      (∃ I, Interleaver.ctor false K mem sizeofT raw min_subsymbol_size
        max_block_decodable symbol_size = some I) ∧
      (div_ceil (div_ceil raw.length symbol_size)
          (div_ceil (div_ceil (raw.length * sizeofT) symbol_size)
            (Interleaver.KL K max_block_decodable sizeofT symbol_size
              (div_floor symbol_size min_subsymbol_size))) ≤ 56403 →
        ∀ asserts, ∃ I, Interleaver.ctor asserts K mem sizeofT raw min_subsymbol_size
          max_block_decodable symbol_size = some I ∧ I.valid = true) ∧
      (56403 < div_ceil (div_ceil raw.length symbol_size)
          (div_ceil (div_ceil (raw.length * sizeofT) symbol_size)
            (Interleaver.KL K max_block_decodable sizeofT symbol_size
              (div_floor symbol_size min_subsymbol_size))) →
        Interleaver.ctor true K mem sizeofT raw min_subsymbol_size
          max_block_decodable symbol_size = none) := by
  have hu := u8_of_lt hsz
  have hminpos : 0 < min_subsymbol_size := by omega
  have hNeq0 : div_floor symbol_size min_subsymbol_size = symbol_size / min_subsymbol_size :=
    div_floor_eq _ _ hminpos (by omega) (by omega)
  have hN : 1 ≤ div_floor symbol_size min_subsymbol_size := by
    rw [hNeq0]
    exact Nat.div_pos h4 hminpos
  have hNle : div_floor symbol_size min_subsymbol_size ≤ symbol_size := by
    rw [hNeq0]
    exact Nat.div_le_self _ _
  have hlast : (Interleaver.fill K max_block_decodable sizeofT symbol_size 1
      (div_floor symbol_size min_subsymbol_size)).getD
        (div_floor symbol_size min_subsymbol_size - 1) 0 =
      Interleaver.KL K max_block_decodable sizeofT symbol_size
        (div_floor symbol_size min_subsymbol_size) := by
    rw [Interleaver.fill_getD K max_block_decodable sizeofT symbol_size _ 1 _ (by omega)]
    congr 1
    omega
  have hklt : Interleaver.KL K max_block_decodable sizeofT symbol_size
      (div_floor symbol_size min_subsymbol_size) < 65536 := Nat.mod_lt _ (by decide)
  have hfill : ∀ j, j < div_floor symbol_size min_subsymbol_size →
      (Interleaver.fill K max_block_decodable sizeofT symbol_size 1
        (div_floor symbol_size min_subsymbol_size)).getD j 0 =
      Interleaver.KL K max_block_decodable sizeofT symbol_size (j + 1) := by
    intro j hj
    rw [Interleaver.fill_getD K max_block_decodable sizeofT symbol_size _ 1 j hj,
      Nat.add_comm]
  have hlen := Interleaver.fill_length K max_block_decodable sizeofT symbol_size
    (div_floor symbol_size min_subsymbol_size) 1
  generalize hNeq : div_floor symbol_size min_subsymbol_size = N at *
  generalize hKteq : div_ceil (raw.length * sizeofT) symbol_size = Kt at *
  generalize hkl : Interleaver.KL K max_block_decodable sizeofT symbol_size N = kl at *
  have hklpos : 0 < kl := by
    by_contra hc
    have h0 : kl = 0 := by omega
    rw [h0] at hZ1
    simp [div_ceil] at hZ1
  have hKtlt : Kt < 16777216 := lt_of_div_ceil_le_255 Kt kl hklpos hklt hZ2
  have hmul := le_div_ceil_mul Kt kl hklpos hKtlt (by omega)
  have htmp : div_ceil Kt (div_ceil Kt kl) ≤ kl :=
    div_ceil_le_of_le_mul Kt (div_ceil Kt kl) kl (by omega) hKtlt (by omega) (by
      rw [Nat.mul_comm]
      exact hmul)
  refine ⟨htmp, ?_⟩
  obtain ⟨i, hi, hs⟩ := Interleaver.search_some (div_ceil Kt (div_ceil Kt kl))
    (Interleaver.fill K max_block_decodable sizeofT symbol_size 1 N) 0 (N - 1)
    (by rw [hlen]; omega) (by rw [hlast]; exact htmp)
  obtain ⟨-, hq, hfirst⟩ := Interleaver.search_spec (div_ceil Kt (div_ceil Kt kl))
    (Interleaver.fill K max_block_decodable sizeofT symbol_size 1 N) 0 i hs
  rw [Nat.zero_add] at hs
  have hZexpr : u8 (cast_u16 (div_ceil Kt
      ((Interleaver.fill K max_block_decodable (u8 sizeofT) symbol_size 1 N).getD
        (N - 1) 0))) = div_ceil Kt kl := by
    rw [hu, hlast, cast_u16_of_lt (by omega), u8_of_lt (by omega)]
  have hsubexpr : (match Interleaver.search (div_ceil Kt (div_ceil Kt kl))
        (Interleaver.fill K max_block_decodable (u8 sizeofT) symbol_size 1 N) 0 with
      | some i => u16 (i + 1)
      | none => mem._sub_blocks) = i + 1 := by
    rw [hu, hs]
    exact u16_of_lt (by omega)
  refine ⟨i, by omega, hs, ?_, ?_, ?_, Interleaver.ctor_returns K mem sizeofT raw
    min_subsymbol_size max_block_decodable symbol_size, ?_, ?_⟩
  · rw [← hfill i (by omega)]
    exact hq
  · intro j hj
    rw [← hfill j (by omega)]
    exact hfirst j hj
  · intro asserts I hI
    obtain ⟨hZ, hsub⟩ := Interleaver.ctor_passed_inv asserts K mem sizeofT raw
      min_subsymbol_size max_block_decodable symbol_size I (by rw [hu]; exact h1)
      (by rw [hu]; exact h2) (by rw [hu]; exact h3) h4
      (by
        rw [hNeq, hKteq, hZexpr]
        omega) hI
    rw [hNeq, hKteq, hZexpr] at hZ
    rw [hNeq, hKteq, hZ, hsubexpr] at hsub
    exact ⟨hZ, hsub⟩
  · intro hbound asserts
    refine ⟨_, Interleaver.ctor_run asserts K mem sizeofT raw min_subsymbol_size
      max_block_decodable symbol_size raw.length Kt N (div_ceil Kt kl) (i + 1) rfl
      (by rw [hu]; exact h1) (by rw [hu]; exact h2) (by rw [hu]; exact h3) h4
      (by rw [hu]; omega) hKteq hNeq hZexpr (by omega) hsubexpr (by omega) hbound, ?_⟩
    simp only [Interleaver.valid, hu, bne_iff_ne, ne_eq]
    omega
  · intro hbound
    exact Interleaver.ctor_aborts K mem sizeofT raw min_subsymbol_size max_block_decodable
      symbol_size (by rw [hu]; exact h1) (by rw [hu]; exact h2) (by rw [hu]; exact h3) h4
      (by
        rw [hNeq, hKteq, hZexpr]
        exact hbound)

set_option maxRecDepth 100000 in
/-- Witness of `Interleaver.sub_blocks_found`: 15 bytes, `symbol_size = 10`,
`min_subsymbol_size = 2`, `max_block_decodable = 10000` and the table of
RFC 6330: `Kt = 2`, `N_max = 5`, `KL(5) = 4954`, `Z = 1`; the search stops at
index 0 (`KL(1) = 989`), and the constructor returns a valid instance with
`_source_blocks = 1` and `_sub_blocks = 1`, with assertions compiled in and
whatever the storage held. -/
theorem Interleaver.sub_blocks_found_witness :
    (0 < 1 ∧ 1 < 256 ∧ 10 < 65536 ∧ 10 % 1 = 0 ∧ 1 ≤ 2 ∧ 2 % 1 = 0 ∧ 2 ≤ 10 ∧
      1 ≤ div_ceil (div_ceil ((List.replicate 15 7).length * 1) 10)
        (Interleaver.KL K_padded 10000 1 10 (div_floor 10 2)) ∧
      div_ceil (div_ceil ((List.replicate 15 7).length * 1) 10)
        (Interleaver.KL K_padded 10000 1 10 (div_floor 10 2)) ≤ 255) ∧
    (Interleaver.KL K_padded 10000 1 10 (div_floor 10 2) = 4954 ∧
      Interleaver.KL K_padded 10000 1 10 1 = 989 ∧
      ∀ mem : Indeterminate, ∃ I, Interleaver.ctor true K_padded mem 1
          (List.replicate 15 7) 2 10000 10 = some I ∧
        I.valid = true ∧ I._source_blocks = 1 ∧ I._sub_blocks = 1) := by
  refine ⟨by decide, by decide, by decide, ?_⟩
  intro mem
  obtain ⟨-, i, -, hs, -, -, hall, -, hval, -⟩ :=
    Interleaver.sub_blocks_found K_padded mem 1 (List.replicate 15 7) 2 10000 10
      (by decide) (by decide) (by decide) (by decide) (by decide) (by decide) (by decide)
      (by decide) (by decide)
  have hi : i = 0 := by
    have h0 : Interleaver.search
        (div_ceil (div_ceil ((List.replicate 15 7).length * 1) 10)
          (div_ceil (div_ceil ((List.replicate 15 7).length * 1) 10)
            (Interleaver.KL K_padded 10000 1 10 (div_floor 10 2))))
        (Interleaver.fill K_padded 10000 1 10 1 (div_floor 10 2)) 0 = some 0 := by
      decide
    rw [h0] at hs
    exact (Option.some.inj hs).symm
  obtain ⟨I, hI, hv⟩ := hval (by decide) true
  obtain ⟨hZ, hsub⟩ := hall true I hI
  refine ⟨I, hI, hv, ?_, ?_⟩
  · rw [hZ]
    decide
  · rw [hsub, hi]

set_option maxRecDepth 100000 in
/-- Claim C19, the code at the failing input: a buffer of 100004 bytes,
`symbol_size = 1`, `min_subsymbol_size = 1`, `max_block_decodable = 21000`.
Here `Kt = 100004`, `KL(1) = 20988`, `Z = 5`, and the source-block partition
has 4 blocks of 20001 symbols and 1 block of 20000.  Block 3 ends at unit
`80004`; block 4 starts at `tot(0) * 1 = 14468` and ends at `34468`, where
`Kt * symbol_size()` is `100004`. -/
theorem Interleaver.ranges_do_not_tile :
    ∃ I, Interleaver.ctor true K_padded ⟨0, 0, 0⟩ 1 (List.replicate 100004 7) 1 21000 1 =
        some I ∧
      I.valid = true ∧ I.blocks = 5 ∧ I.symbol_size = 1 ∧
      I._source_part = ⟨(4, 20001), (1, 20000)⟩ ∧
      div_ceil (100004 * 1) 1 * I.symbol_size = 100004 ∧
      (I.get true 3).map (fun b => (b._start, b._end)) = some (60003, 80004) ∧
      (I.get true 4).map (fun b => (b._start, b._end)) = some (14468, 34468) ∧
      (I.get true 4).map (fun b => b._symbols) = some 20000 ∧
      I.source_symbols 4 = 20000 :=
  ⟨_, Interleaver.ctor_run true K_padded ⟨0, 0, 0⟩ 1 (List.replicate 100004 7) 1 21000 1
      100004 100004 1 5 1 (List.length_replicate _ _)
      (by decide) (by decide) (by decide) (by decide) (by decide) (by decide) (by decide)
      (by decide) (by decide) (by decide) (by decide) (by decide),
    by decide, by decide, by decide, by decide, by decide, by decide, by decide, by decide,
    by decide⟩

set_option maxRecDepth 1000000 in
/-- The search for the sub-block count over the 1024 entries of `sizes`
(`symbol_size = 1024`, `min_subsymbol_size = 1`, `max_block_decodable = 120`)
with `tmp = 25` stops at index 255. -/
theorem Interleaver.search_1024_25 :
    Interleaver.search 25 (Interleaver.fill K_padded 120 1 1024 1 1024) 0 = some 255 := by
  decide

/-- The constructor on a buffer of 25600 bytes with `symbol_size = 1024`,
`min_subsymbol_size = 1`, `max_block_decodable = 120`: it stores
`_sub_blocks = 256` and builds the sub-block partition from `(1024, 256)`. -/
theorem Interleaver.ctor_25600 (mem : Indeterminate) (raw : List Nat)
    (h : raw.length = 25600) :
    Interleaver.ctor true K_padded mem 1 raw 1 120 1024 =
      some ⟨1, raw, 256, 25, 0, 1024, 1, 1, ⟨(0, 0), (1, 25)⟩, Partition.ctor 1024 256⟩ := by
  rw [Interleaver.ctor_run true K_padded mem 1 raw 1 120 1024 25600 25 1024 1 256 h
    (by decide) (by decide) (by decide) (by decide) (by decide) (by decide) (by decide)
    (by
      have e1 : u8 1 = 1 := rfl
      have e6 : 1024 - 1 = 1023 := rfl
      rw [e1, e6, Interleaver.last_1024]
      decide)
    (by decide)
    (by
      have e1 : u8 1 = 1 := rfl
      have e5 : div_ceil 25 1 = 25 := by decide
      rw [e1, e5, Interleaver.search_1024_25]
      rfl)
    (by decide) (by decide)]
  rfl

/-- Claim C16, the code at the failing input: a buffer of 25600 bytes,
`symbol_size = 1024`, `min_subsymbol_size = 1`, `max_block_decodable = 120`.
The smallest `n` with `ceil(Kt/Z) = 25 <= KL(n)` is 256; the valid instance
stores `_sub_blocks = 256`, which `Partition` receives as `uint8_t` 0.  The
sub-block partition then has `tot(0) + tot(1) = 0`, where `symbol_size()` is
1024: for symbol 0 of block 0, `begin()` already equals `end()`. -/
theorem Interleaver.symbol_length_fails :
    ∃ I, Interleaver.ctor true K_padded ⟨0, 0, 0⟩ 1 (List.replicate 25600 7) 1 120 1024 =
        some I ∧
      I.valid = true ∧ I._sub_blocks = 256 ∧ I.symbol_size = 1024 ∧
      I._sub_part = Partition.ctor 1024 0 ∧
      I._sub_part.tot 0 + I._sub_part.tot 1 = 0 ∧
      (I.get true 0).map (fun b => (b.get 0).begin_._idx) = some 0 ∧
      (I.get true 0).map (fun b => (b.get 0).end_._idx) = some 0 ∧
      (I.get true 0).map (fun b => (b.get 0).begin_.eq (b.get 0).end_) = some true :=
  ⟨_, Interleaver.ctor_25600 _ _ (List.length_replicate _ _), by decide, by decide,
    by decide, by decide, by decide, by decide, by decide, by decide⟩

/-- The offset of unit `r` of sub-symbol `symbol_id` in sub-block `j`, for
`n` sub-blocks of `k` sub-symbols of `s` units, is below `n * k * s`. -/
theorem offset_lt (n k s j symbol_id r : Nat) (hj : j < n) (hsid : symbol_id < k)
    (hr : r < s) : (j * k + symbol_id) * s + r < n * k * s := by
  have h1 : j * k + symbol_id + 1 ≤ n * k := by
    have : (j + 1) * k ≤ n * k := Nat.mul_le_mul_right k hj
    rw [Nat.add_mul, Nat.one_mul] at this
    omega
  have h2 : (j * k + symbol_id + 1) * s ≤ n * k * s := Nat.mul_le_mul_right s h1
  rw [Nat.add_mul, Nat.one_mul] at h2
  omega

/-- The offset determines the sub-block, the sub-symbol and the unit. -/
theorem offset_inj (k s j symbol_id r j' symbol_id' r' : Nat)
    (hsid : symbol_id < k) (hsid' : symbol_id' < k) (hr : r < s) (hr' : r' < s)
    (h : (j * k + symbol_id) * s + r = (j' * k + symbol_id') * s + r') :
    j = j' ∧ symbol_id = symbol_id' ∧ r = r' := by
  have hs : 0 < s := by omega
  have hk : 0 < k := by omega
  have hq : j * k + symbol_id = j' * k + symbol_id' := by
    have e1 : ((j * k + symbol_id) * s + r) / s = j * k + symbol_id := by
      rw [Nat.mul_comm, Nat.mul_add_div hs, Nat.div_eq_of_lt hr, Nat.add_zero]
    have e2 : ((j' * k + symbol_id') * s + r') / s = j' * k + symbol_id' := by
      rw [Nat.mul_comm, Nat.mul_add_div hs, Nat.div_eq_of_lt hr', Nat.add_zero]
    rw [← e1, ← e2, h]
  have hr2 : r = r' := by
    rw [hq] at h
    omega
  have hj : j = j' := by
    have e1 : (j * k + symbol_id) / k = j := by
      rw [Nat.mul_comm, Nat.mul_add_div hk, Nat.div_eq_of_lt hsid, Nat.add_zero]
    have e2 : (j' * k + symbol_id') / k = j' := by
      rw [Nat.mul_comm, Nat.mul_add_div hk, Nat.div_eq_of_lt hsid', Nat.add_zero]
    rw [← e1, ← e2, hq]
  subst hj
  exact ⟨rfl, by omega, hr2⟩

/-- Every offset below `n * k * s` is the offset of a unit of a sub-symbol of
a sub-block. -/
theorem offset_surj (n k s d : Nat) (hd : d < n * k * s) :
    ∃ j symbol_id r, j < n ∧ symbol_id < k ∧ r < s ∧ (j * k + symbol_id) * s + r = d := by
  have hs : 0 < s := by
    by_contra hc
    have : s = 0 := by omega
    rw [this, Nat.mul_zero] at hd
    omega
  have hk : 0 < k := by
    by_contra hc
    have : k = 0 := by omega
    rw [this, Nat.mul_zero, Nat.zero_mul] at hd
    omega
  refine ⟨d / s / k, d / s % k, d % s, ?_, Nat.mod_lt _ hk, Nat.mod_lt _ hs, ?_⟩
  · rw [Nat.div_lt_iff_lt_mul hk, Nat.div_lt_iff_lt_mul hs]
    exact hd
  · have h1 := Nat.div_add_mod (d / s) k
    have h2 := Nat.div_add_mod d s
    rw [Nat.mul_comm (d / s / k) k, h1, Nat.mul_comm]
    exact h2

/-- A position below `n * s` splits into a sub-block below `n` and a unit
below `s`. -/
theorem pos_split (n s pos : Nat) (hpos : pos < n * s) :
    pos / s < n ∧ pos % s < s := by
  have hs : 0 < s := by
    by_contra hc
    have : s = 0 := by omega
    rw [this, Nat.mul_zero] at hpos
    omega
  exact ⟨(Nat.div_lt_iff_lt_mul hs).mpr hpos, Nat.mod_lt _ hs⟩

/-- The index of the spec in the first group of sub-blocks, with the
sub-block and the sub-symbol gathered in one factor. -/
theorem spec_index_first (start k symbol_id : Nat) (P : Partition) (pos : Nat)
    (h : pos < P.tot 0) :
    spec_index start k symbol_id P pos =
      start + ((pos / P.size 0 * k + symbol_id) * P.size 0 + pos % P.size 0) := by
  unfold spec_index
  rw [if_pos h, Nat.add_mul]
  omega

/-- The index of the spec in the second group of sub-blocks, with the
sub-block and the sub-symbol gathered in one factor. -/
theorem spec_index_second (start k symbol_id : Nat) (P : Partition) (pos : Nat)
    (h : ¬ pos < P.tot 0) :
    spec_index start k symbol_id P pos =
      start + P.tot 0 * k +
        (((pos - P.tot 0) / P.size 1 * k + symbol_id) * P.size 1 +
          (pos - P.tot 0) % P.size 1) := by
  unfold spec_index
  rw [if_neg h, Nat.add_mul]
  omega

/-- For a partition with exact totals, the index of a position of a symbol of
a block of `k` symbols lies in the block. -/
theorem spec_index_range (start k symbol_id : Nat) (P : Partition) (pos : Nat)
    (hex0 : P.tot 0 = P.num 0 * P.size 0) (hex1 : P.tot 1 = P.num 1 * P.size 1)
    (hsid : symbol_id < k) (hpos : pos < P.tot 0 + P.tot 1) :
    start ≤ spec_index start k symbol_id P pos ∧
    spec_index start k symbol_id P pos < start + k * (P.tot 0 + P.tot 1) ∧
    (pos < P.tot 0 → spec_index start k symbol_id P pos < start + P.tot 0 * k) ∧
    (¬ pos < P.tot 0 → start + P.tot 0 * k ≤ spec_index start k symbol_id P pos) := by
  have hk0 : P.num 0 * k * P.size 0 = P.tot 0 * k := by
    rw [hex0, Nat.mul_right_comm]
  have hk1 : P.num 1 * k * P.size 1 = P.tot 1 * k := by
    rw [hex1, Nat.mul_right_comm]
  have hsum : k * (P.tot 0 + P.tot 1) = P.tot 0 * k + P.tot 1 * k := by
    rw [Nat.mul_add, Nat.mul_comm k, Nat.mul_comm k]
  by_cases h : pos < P.tot 0
  · rw [spec_index_first start k symbol_id P pos h]
    have hsp := pos_split (P.num 0) (P.size 0) pos (by rw [← hex0]; exact h)
    have hlt := offset_lt (P.num 0) k (P.size 0) (pos / P.size 0) symbol_id
      (pos % P.size 0) hsp.1 hsid hsp.2
    rw [hk0] at hlt
    refine ⟨by omega, by omega, fun _ => by omega, fun hc => absurd h hc⟩
  · rw [spec_index_second start k symbol_id P pos h]
    have hsp := pos_split (P.num 1) (P.size 1) (pos - P.tot 0) (by rw [← hex1]; omega)
    have hlt := offset_lt (P.num 1) k (P.size 1) ((pos - P.tot 0) / P.size 1) symbol_id
      ((pos - P.tot 0) % P.size 1) hsp.1 hsid hsp.2
    rw [hk1] at hlt
    refine ⟨by omega, by omega, fun hc => absurd hc h, fun _ => by omega⟩

/-- For a partition with exact totals, two positions of two symbols of a
block with the same index are the same position of the same symbol. -/
theorem spec_index_inj (start k symbol_id pos symbol_id' pos' : Nat) (P : Partition)
    (hex0 : P.tot 0 = P.num 0 * P.size 0) (hex1 : P.tot 1 = P.num 1 * P.size 1)
    (hsid : symbol_id < k) (hpos : pos < P.tot 0 + P.tot 1)
    (hsid' : symbol_id' < k) (hpos' : pos' < P.tot 0 + P.tot 1)
    (h : spec_index start k symbol_id P pos = spec_index start k symbol_id' P pos') :
    symbol_id = symbol_id' ∧ pos = pos' := by
  have hr := spec_index_range start k symbol_id P pos hex0 hex1 hsid hpos
  have hr' := spec_index_range start k symbol_id' P pos' hex0 hex1 hsid' hpos'
  by_cases hb : pos < P.tot 0
  · by_cases hb' : pos' < P.tot 0
    · rw [spec_index_first _ _ _ _ _ hb, spec_index_first _ _ _ _ _ hb'] at h
      have hsp := pos_split (P.num 0) (P.size 0) pos (by rw [← hex0]; exact hb)
      have hsp' := pos_split (P.num 0) (P.size 0) pos' (by rw [← hex0]; exact hb')
      obtain ⟨e1, e2, e3⟩ := offset_inj k (P.size 0) (pos / P.size 0) symbol_id
        (pos % P.size 0) (pos' / P.size 0) symbol_id' (pos' % P.size 0) hsid hsid'
        hsp.2 hsp'.2 (Nat.add_left_cancel h)
      have hd := Nat.div_add_mod pos (P.size 0)
      have hd' := Nat.div_add_mod pos' (P.size 0)
      rw [e1, e3] at hd
      exact ⟨e2, by omega⟩
    · have h1 := hr.2.2.1 hb
      have h2 := hr'.2.2.2 hb'
      omega
  · by_cases hb' : pos' < P.tot 0
    · have h1 := hr.2.2.2 hb
      have h2 := hr'.2.2.1 hb'
      omega
    · rw [spec_index_second _ _ _ _ _ hb, spec_index_second _ _ _ _ _ hb'] at h
      have hsp := pos_split (P.num 1) (P.size 1) (pos - P.tot 0) (by rw [← hex1]; omega)
      have hsp' := pos_split (P.num 1) (P.size 1) (pos' - P.tot 0)
        (by rw [← hex1]; omega)
      obtain ⟨e1, e2, e3⟩ := offset_inj k (P.size 1) ((pos - P.tot 0) / P.size 1)
        symbol_id ((pos - P.tot 0) % P.size 1) ((pos' - P.tot 0) / P.size 1) symbol_id'
        ((pos' - P.tot 0) % P.size 1) hsid hsid' hsp.2 hsp'.2 (Nat.add_left_cancel h)
      have hd := Nat.div_add_mod (pos - P.tot 0) (P.size 1)
      have hd' := Nat.div_add_mod (pos' - P.tot 0) (P.size 1)
      rw [e1, e3] at hd
      exact ⟨e2, by omega⟩

/-- Unit `r` of sub-block `j`, for sub-blocks of `s` units, as a position. -/
theorem pos_join (s j r : Nat) (hr : r < s) :
    (j * s + r) / s = j ∧ (j * s + r) % s = r := by
  have hs : 0 < s := by omega
  constructor
  · rw [Nat.mul_comm, Nat.mul_add_div hs, Nat.div_eq_of_lt hr, Nat.add_zero]
  · rw [Nat.mul_comm, Nat.mul_add_mod, Nat.mod_eq_of_lt hr]

/-- For a partition with exact totals, every unit of a block of `k` symbols is
the index of a position of one of its symbols. -/
theorem spec_index_surj (start k : Nat) (P : Partition) (i : Nat)
    (hex0 : P.tot 0 = P.num 0 * P.size 0) (hex1 : P.tot 1 = P.num 1 * P.size 1)
    (hlo : start ≤ i) (hhi : i < start + k * (P.tot 0 + P.tot 1)) :
    ∃ symbol_id pos, symbol_id < k ∧ pos < P.tot 0 + P.tot 1 ∧
      spec_index start k symbol_id P pos = i := by
  have hk0 : P.num 0 * k * P.size 0 = P.tot 0 * k := by
    rw [hex0, Nat.mul_right_comm]
  have hk1 : P.num 1 * k * P.size 1 = P.tot 1 * k := by
    rw [hex1, Nat.mul_right_comm]
  have hsum : k * (P.tot 0 + P.tot 1) = P.tot 0 * k + P.tot 1 * k := by
    rw [Nat.mul_add, Nat.mul_comm k, Nat.mul_comm k]
  by_cases hd : i - start < P.tot 0 * k
  · obtain ⟨j, symbol_id, r, hj, hsid, hr, he⟩ :=
      offset_surj (P.num 0) k (P.size 0) (i - start) (by rw [hk0]; exact hd)
    have hjoin := pos_join (P.size 0) j r hr
    have hpos : j * P.size 0 + r < P.tot 0 := by
      have : (j + 1) * P.size 0 ≤ P.num 0 * P.size 0 := Nat.mul_le_mul_right _ hj
      rw [Nat.add_mul, Nat.one_mul] at this
      omega
    refine ⟨symbol_id, j * P.size 0 + r, hsid, by omega, ?_⟩
    rw [spec_index_first _ _ _ _ _ hpos, hjoin.1, hjoin.2, he]
    omega
  · obtain ⟨j, symbol_id, r, hj, hsid, hr, he⟩ :=
      offset_surj (P.num 1) k (P.size 1) (i - start - P.tot 0 * k)
        (by rw [hk1]; omega)
    have hjoin := pos_join (P.size 1) j r hr
    have hpos : j * P.size 1 + r < P.tot 1 := by
      have : (j + 1) * P.size 1 ≤ P.num 1 * P.size 1 := Nat.mul_le_mul_right _ hj
      rw [Nat.add_mul, Nat.one_mul] at this
      omega
    refine ⟨symbol_id, P.tot 0 + (j * P.size 1 + r), hsid, by omega, ?_⟩
    rw [spec_index_second _ _ _ _ _ (by omega), Nat.add_sub_cancel_left, hjoin.1,
      hjoin.2, he]
    omega

/-- A partition of a 16-bit total into a non-zero number of parts (as the
constructor receives it) has exact totals, and they add up to the total. -/
theorem Partition.ctor_exact (S N : Nat) (hS : S < 65536) (hp : u8 N ≠ 0) :
    (Partition.ctor S N).tot 0 = (Partition.ctor S N).num 0 * (Partition.ctor S N).size 0 ∧
    (Partition.ctor S N).tot 1 = (Partition.ctor S N).num 1 * (Partition.ctor S N).size 1 ∧
    (Partition.ctor S N).tot 0 + (Partition.ctor S N).tot 1 = S := by
  have hlt : u8 N < 256 := Nat.mod_lt _ (by decide)
  have hpos : 0 < u8 N := Nat.pos_of_ne_zero hp
  have hceil : div_ceil S (u8 N) ≤ 65535 := by
    have := div_ceil_le_self S (u8 N) hpos (by omega) (by omega)
    omega
  have heq := Partition.ctor_eq S (u8 N) hpos (by omega) hceil
  rw [Partition.ctor_u8] at heq
  have harith := Partition.total_arith S (u8 N) hpos
  rw [heq]
  simp only [Partition.tot, Partition.num, Partition.size, if_true, if_false,
    Nat.one_ne_zero]
  have h0 : S % u8 N * (if S % u8 N = 0 then 0 else S / u8 N + 1) < 65536 := by omega
  have h1 : (u8 N - S % u8 N) * (S / u8 N) < 65536 := by omega
  rw [u16_of_lt h0, u16_of_lt h1]
  exact ⟨rfl, rfl, harith⟩

/-- A partition that the constructor builds from zero parts has both totals
zero: a partition of `S >= 1` whose totals add up to `S` was built from a
non-zero number of parts. -/
theorem Partition.u8_ne_zero_of_tot (S N : Nat) (hS1 : 1 ≤ S)
    (h : (Partition.ctor S N).tot 0 + (Partition.ctor S N).tot 1 = S) : u8 N ≠ 0 := by
  intro hp
  rw [← Partition.ctor_u8, hp, Partition.ctor_of_zero] at h
  simp only [Partition.tot, if_true, if_false, Nat.one_ne_zero, Nat.mul_zero] at h
  have e : u16 0 = 0 := rfl
  rw [e] at h
  omega

/-- The sizes and the first total of a partition of a 16-bit total into a
non-zero number of parts are at most the total. -/
theorem Partition.ctor_sizes_le (S N : Nat) (hS : S < 65536) (hp : u8 N ≠ 0) :
    (Partition.ctor S N).size 0 ≤ S ∧ (Partition.ctor S N).size 1 ≤ S ∧
    (Partition.ctor S N).tot 0 ≤ S := by
  have hlt : u8 N < 256 := Nat.mod_lt _ (by decide)
  have hpos : 0 < u8 N := Nat.pos_of_ne_zero hp
  have hceil : div_ceil S (u8 N) ≤ 65535 := by
    have := div_ceil_le_self S (u8 N) hpos (by omega) (by omega)
    omega
  have heq := Partition.ctor_eq S (u8 N) hpos (by omega) hceil
  rw [Partition.ctor_u8] at heq
  have hex := Partition.ctor_exact S N hS hp
  refine ⟨?_, ?_, by omega⟩
  · rw [heq]
    simp only [Partition.size, if_true]
    have hle := div_ceil_le_self S (u8 N) hpos (by omega) (by omega)
    rw [div_ceil_eq S (u8 N) hpos (by omega) (by omega)] at hle
    split
    · omega
    · next h0 =>
      rw [if_neg h0] at hle
      exact hle
  · rw [heq]
    simp only [Partition.size, if_false, Nat.one_ne_zero]
    exact Nat.div_le_self _ _

/-- The index map of a block inside the range of the index arithmetic: for
every source block with range `[start, end)` whose sub-block partition is
built from `(S, N)` and has `tot(0) + tot(1) = S` (`1 <= S <= 65535`, which
leaves no room for `N = 0`), with `k = (end - start) / S` symbols
(`k <= 65535`), `k * S < 2^31` and `start + k * S < 2^64`, the index that
`operator[]` computes for a position `pos < S` of a symbol `symbol_id < k`
lies in `[start, start + k*S)`, two such pairs with the same index are equal,
and every unit of `[start, start + k*S)` is the index of such a pair. -/
theorem Source_Block.index_bijective_in_range (raw : List Nat)
    (start end_ idx S N k : Nat) (hS1 : 1 ≤ S) (hS2 : S < 65536)
    (hS : (Partition.ctor S N).tot 0 + (Partition.ctor S N).tot 1 = S)
    (hk : (end_ - start) / S = k) (hk2 : k < 65536)
    (hkS : k * S < 2147483648) (hst : start + k * S < 2 ^ 64) :
    (∀ symbol_id pos, symbol_id < k → pos < S →
      ∃ i, ((Source_Block.ctor raw start end_ idx (Partition.ctor S N) S).get
          symbol_id).index pos = some i ∧ start ≤ i ∧ i < start + k * S) ∧
    (∀ symbol_id pos symbol_id' pos', symbol_id < k → pos < S → symbol_id' < k →
      pos' < S →
      ((Source_Block.ctor raw start end_ idx (Partition.ctor S N) S).get
          symbol_id).index pos =
        ((Source_Block.ctor raw start end_ idx (Partition.ctor S N) S).get
          symbol_id').index pos' →
      symbol_id = symbol_id' ∧ pos = pos') ∧
    (∀ i, start ≤ i → i < start + k * S →
      ∃ symbol_id pos, symbol_id < k ∧ pos < S ∧
        ((Source_Block.ctor raw start end_ idx (Partition.ctor S N) S).get
          symbol_id).index pos = some i) := by
  have hp := Partition.u8_ne_zero_of_tot S N hS1 hS
  obtain ⟨hex0, hex1, -⟩ := Partition.ctor_exact S N hS2 hp
  obtain ⟨hsz0, hsz1, htot0⟩ := Partition.ctor_sizes_le S N hS2 hp
  have hB : Source_Block.ctor raw start end_ idx (Partition.ctor S N) S =
      ⟨raw, start, end_, idx, Partition.ctor S N, S, k⟩ := by
    unfold Source_Block.ctor
    rw [u16_of_lt hS2, hk, u16_of_lt hk2]
  have hidx : ∀ symbol_id pos, symbol_id < k → pos < S →
      ((Source_Block.ctor raw start end_ idx (Partition.ctor S N) S).get
          symbol_id).index pos =
        some (spec_index start k symbol_id (Partition.ctor S N) pos) := by
    intro symbol_id pos hsid hpos
    have hr := spec_index_range start k symbol_id (Partition.ctor S N) pos hex0 hex1 hsid
      (by omega)
    rw [hS] at hr
    have hm0 : symbol_id * (Partition.ctor S N).size 0 ≤ k * S :=
      Nat.mul_le_mul (le_of_lt hsid) hsz0
    have hm1 : symbol_id * (Partition.ctor S N).size 1 ≤ k * S :=
      Nat.mul_le_mul (le_of_lt hsid) hsz1
    have hm2 : (Partition.ctor S N).tot 0 * k ≤ k * S := by
      rw [Nat.mul_comm k S]
      exact Nat.mul_le_mul_right k htot0
    rw [hB, Source_Block.get_in_range _ _ hsid hk2, Symbol_it.index_eq _ _
      (by
        simp only
        omega)
      (by
        simp only
        omega)
      (by
        simp only
        omega)
      (by
        simp only
        omega)
      (by
        simp only
        omega)]
  refine ⟨?_, ?_, ?_⟩
  · intro symbol_id pos hsid hpos
    have hr := spec_index_range start k symbol_id (Partition.ctor S N) pos hex0 hex1 hsid
      (by omega)
    rw [hS] at hr
    exact ⟨_, hidx symbol_id pos hsid hpos, hr.1, hr.2.1⟩
  · intro symbol_id pos symbol_id' pos' hsid hpos hsid' hpos' h
    rw [hidx symbol_id pos hsid hpos, hidx symbol_id' pos' hsid' hpos'] at h
    exact spec_index_inj start k symbol_id pos symbol_id' pos' (Partition.ctor S N)
      hex0 hex1 hsid (by omega) hsid' (by omega) (Option.some.inj h)
  · intro i hlo hhi
    obtain ⟨symbol_id, pos, hsid, hpos, he⟩ :=
      spec_index_surj start k (Partition.ctor S N) i hex0 hex1 hlo (by rw [hS]; exact hhi)
    rw [hS] at hpos
    exact ⟨symbol_id, pos, hsid, hpos, by rw [hidx symbol_id pos hsid hpos, he]⟩

set_option maxRecDepth 100000 in
/-- The constructor on a buffer of 2400060000 bytes with `symbol_size = 60000`,
`min_subsymbol_size = 60000`, `max_block_decodable = 2500000000`: one source
block of 40001 symbols, one sub-block of 60000 bytes. -/
theorem Interleaver.ctor_2400060000 (mem : Indeterminate) (raw : List Nat)
    (h : raw.length = 2400060000) :
    Interleaver.ctor true K_padded mem 1 raw 60000 2500000000 60000 =
      some ⟨1, raw, 1, 40001, 0, 60000, 1, 1, ⟨(0, 0), (1, 40001)⟩,
        ⟨(0, 0), (1, 60000)⟩⟩ := by
  rw [Interleaver.ctor_run true K_padded mem 1 raw 60000 2500000000 60000 2400060000
    40001 1 1 1 h
    (by decide) (by decide) (by decide) (by decide) (by decide) (by decide) (by decide)
    (by decide) (by decide)
    (by
      have e : Interleaver.search (div_ceil 40001 1)
          (Interleaver.fill K_padded 2500000000 (u8 1) 60000 1 1) 0 = some 0 := by
        decide
      rw [e]
      rfl)
    (by decide) (by decide)]
  rfl

/-- The only source block of that interleaver. -/
theorem Interleaver.get_2400060000 (raw : List Nat) :
    (⟨1, raw, 1, 40001, 0, 60000, 1, 1, ⟨(0, 0), (1, 40001)⟩,
        ⟨(0, 0), (1, 60000)⟩⟩ : Interleaver).get true 0 =
      some ⟨raw, 0, 2400060000, 0, ⟨(0, 0), (1, 60000)⟩, 60000, 40001⟩ := by
  have e1 : u8 0 = 0 := rfl
  have e2 : u16 60000 = 60000 := rfl
  have e3 : u16 0 = 0 := rfl
  have e4 : u16 40001 = 40001 := rfl
  unfold Interleaver.get Source_Block.ctor
  simp only [e1, Partition.num, Partition.size, Partition.tot, if_true, if_false,
    Nat.one_ne_zero, Nat.lt_irrefl, Nat.sub_self, Nat.zero_mul, Nat.mul_zero, e3,
    Nat.div_one, Nat.zero_add, Nat.sub_zero, Nat.lt_one_iff, e2]
  norm_num [e4]

/-- In a block of 40001 symbols of 60000 units in one sub-block, starting at
`0`, `operator[]` computes for position `pos` of symbol `symbol_id` the index
`symbol_id * 60000 + pos` when `symbol_id * 60000` is below `2^31`, and
`symbol_id * 60000 + pos + 2^64 - 2^32` otherwise. -/
theorem Source_Block.index_2400060000 (raw : List Nat) (end_ symbol_id pos : Nat)
    (hs : symbol_id < 40001) (hpos : pos < 60000) :
    ((⟨raw, 0, end_, 0, ⟨(0, 0), (1, 60000)⟩, 60000, 40001⟩ : Source_Block).get
        symbol_id).index pos =
      some (if symbol_id * 60000 < 2147483648 then symbol_id * 60000 + pos
        else symbol_id * 60000 + pos + 18446744069414584320) := by
  have e64 : (2 : Nat) ^ 64 = 18446744073709551616 := by decide
  have e32 : (2 : Nat) ^ 32 = 4294967296 := by decide
  rw [Source_Block.get_in_range _ _ hs (show (40001 : Nat) < 65536 by decide)]
  unfold Symbol_it.index
  simp only [Partition.tot, Partition.size, if_true, if_false, Nat.one_ne_zero,
    Nat.zero_mul, u16, Nat.zero_mod, Nat.not_lt_zero, Nat.sub_zero,
    Nat.div_eq_of_lt hpos, Nat.mod_eq_of_lt hpos, Nat.zero_add, Nat.add_zero,
    int_mul, size_t, e64, e32]
  rw [if_neg (by decide : ¬ (60000 : Nat) = 0), if_pos (by decide : (0 : Nat) < 2147483648)]
  congr 1
  split <;> omega

/-- Claim C18, the code at the failing input: the valid interleaver over a
buffer of 2400060000 bytes with `symbol_size = 60000`,
`min_subsymbol_size = 60000`, `max_block_decodable = 2500000000` has one
source block with range `[0, 2400060000)`: `S = 60000`, `N = 1`, `k = 40001`.
For position 1 of symbol 40000 the index of the spec is `2400000001`;
`operator[]` computes `40000 * 60000` in `int` and arrives at
`2^64 - 1894967295`, which is outside `[0, 2400060000)`; and unit
`2400000001` of the block is the index of no pair. -/
theorem Source_Block.index_leaves_block :
    ∃ I b, Interleaver.ctor true K_padded ⟨0, 0, 0⟩ 1 (List.replicate 2400060000 7)
        60000 2500000000 60000 = some I ∧
      I.valid = true ∧ I.blocks = 1 ∧ I.get true 0 = some b ∧
      b._start = 0 ∧ b._end = 2400060000 ∧ b._symbols = 40001 ∧
      b._sub_blocks = Partition.ctor 60000 1 ∧
      b._sub_blocks.tot 0 + b._sub_blocks.tot 1 = 60000 ∧
      spec_index 0 40001 40000 b._sub_blocks 1 = 2400000001 ∧
      (b.get 40000).index 1 = some 18446744071814584321 ∧
      ¬ (18446744071814584321 < 0 + 40001 * 60000) ∧
      (∀ symbol_id pos, symbol_id < 40001 → pos < 60000 →
        (b.get symbol_id).index pos ≠ some 2400000001) := by
  refine ⟨_, ⟨List.replicate 2400060000 7, 0, 2400060000, 0, ⟨(0, 0), (1, 60000)⟩, 60000,
      40001⟩,
    Interleaver.ctor_2400060000 _ _ (List.length_replicate _ _), by decide, by decide,
    Interleaver.get_2400060000 _, rfl, rfl, rfl, by decide, by decide, by decide, ?_,
    by decide, ?_⟩
  · rw [Source_Block.index_2400060000 _ _ 40000 1 (by decide) (by decide)]
    decide
  · intro symbol_id pos hs hpos
    rw [Source_Block.index_2400060000 _ _ symbol_id pos hs hpos]
    intro hc
    have hc2 := Option.some.inj hc
    split at hc2 <;> omega

/-- Claim C3, the code at the failing input: symbol 40000 of the only source
block of the valid interleaver over 2400060000 bytes, all equal to 7, with
`symbol_size = 60000`, `min_subsymbol_size = 60000` and
`max_block_decodable = 2500000000` (block start 0, `k = 40001`, one sub-block
of size 60000), position 1.  The index of the spec is
`0 + 40000 * 60000 + 1 = 2400000001`, inside the buffer, where the content is
7.  `operator[]` computes `40000 * 60000` in `int`, the index it arrives at is
`2^64 - 1894967295`, and it returns the zero element.  In the other direction,
the view with start 131072, `k = 65535`, one sub-block of size 65535 and
symbol 65535 over the buffer `[7, 8]` has index `4294967297` for position 0,
past the end of the buffer, and `operator[]` returns the content `8` of
unit 1. -/
theorem Symbol_it.index_wraps :
    (∃ I b, Interleaver.ctor true K_padded ⟨0, 0, 0⟩ 1 (List.replicate 2400060000 7)
        60000 2500000000 60000 = some I ∧
      I.valid = true ∧ I.get true 0 = some b ∧
      (b.get 40000)._start = 0 ∧ (b.get 40000)._k = 40001 ∧
      (b.get 40000)._symbol_id = 40000 ∧
      (b.get 40000)._sub_blocks = ⟨(0, 0), (1, 60000)⟩ ∧
      1 < (b.get 40000)._sub_blocks.tot 0 + (b.get 40000)._sub_blocks.tot 1 ∧
      spec_index 0 40001 40000 (b.get 40000)._sub_blocks 1 = 2400000001 ∧
      2400000001 < (b.get 40000)._raw.length ∧
      (b.get 40000)._raw[2400000001]? = some 7 ∧
      (b.get 40000).index 1 = some 18446744071814584321 ∧
      (b.get 40000).get 1 = some 0) ∧
    spec_index 131072 65535 65535 (Partition.ctor 65535 1) 0 = 4294967297 ∧
    ([7, 8] : List Nat).length ≤ 4294967297 ∧
    (Symbol_it.ctor [7, 8] 131072 131072 0 (Partition.ctor 65535 1) 65535 65535
      65535).index 0 = some 1 ∧
    (Symbol_it.ctor [7, 8] 131072 131072 0 (Partition.ctor 65535 1) 65535 65535
      65535).get 0 = some 8 := by
  have hidx : ((⟨List.replicate 2400060000 7, 0, 2400060000, 0, ⟨(0, 0), (1, 60000)⟩,
      60000, 40001⟩ : Source_Block).get 40000).index 1 = some 18446744071814584321 := by
    rw [Source_Block.index_2400060000 _ _ 40000 1 (by decide) (by decide)]
    decide
  have hview : (⟨List.replicate 2400060000 7, 0, 2400060000, 0, ⟨(0, 0), (1, 60000)⟩,
      60000, 40001⟩ : Source_Block).get 40000 =
      ⟨List.replicate 2400060000 7, 0, 2400060000, 0, ⟨(0, 0), (1, 60000)⟩, 60000,
        40000, 40001⟩ := rfl
  refine ⟨⟨_, ⟨List.replicate 2400060000 7, 0, 2400060000, 0, ⟨(0, 0), (1, 60000)⟩,
      60000, 40001⟩,
    Interleaver.ctor_2400060000 _ _ (List.length_replicate _ _), by decide,
    Interleaver.get_2400060000 _, rfl, rfl, rfl, rfl, by decide, by decide, ?_, ?_, hidx,
    ?_⟩, by decide, by decide, by decide, by decide⟩
  · rw [hview]
    simp only [List.length_replicate]
    decide
  · rw [hview]
    simp only [List.getElem?_replicate]
    decide
  · unfold Symbol_it.get
    rw [hidx, hview]
    simp only [Option.map_some', Symbol_it.read, List.length_replicate]
    decide

/-- After `m` prefix increments a view at index `i <= tot(0) + tot(1)` is at
index `min (i + m) (tot(0) + tot(1))`, over the same partition. -/
theorem Symbol_it.iterate_incr (m : Nat) :
    ∀ s : Symbol_it, s._idx ≤ s._sub_blocks.tot 0 + s._sub_blocks.tot 1 →
      (Symbol_it.incr^[m] s)._idx =
          min (s._idx + m) (s._sub_blocks.tot 0 + s._sub_blocks.tot 1) ∧
        (Symbol_it.incr^[m] s)._sub_blocks = s._sub_blocks := by
  induction m with
  | zero =>
    intro s hs
    exact ⟨by simp only [Function.iterate_zero, id_eq, Nat.add_zero]; omega, rfl⟩
  | succ m ih =>
    intro s hs
    rw [Function.iterate_succ_apply]
    by_cases hlt : s._idx < s._sub_blocks.tot 0 + s._sub_blocks.tot 1
    · have hinc : s.incr = { s with _idx := s._idx + 1 } := by
        unfold Symbol_it.incr
        rw [if_pos hlt]
      obtain ⟨h1, h2⟩ := ih s.incr (by rw [hinc]; simp only; omega)
      rw [hinc] at h1 h2
      rw [hinc]
      simp only at h1 h2
      exact ⟨by rw [h1]; omega, h2⟩
    · have hinc : s.incr = s := by
        unfold Symbol_it.incr
        rw [if_neg hlt]
      obtain ⟨h1, h2⟩ := ih s hs
      rw [hinc]
      exact ⟨by rw [h1]; omega, h2⟩

/-- Iteration over a symbol view, for every view: from
`begin()`, exactly `tot(0) + tot(1)` prefix increments reach a state equal to
`end()`, and a further increment leaves it equal to `end()`. -/
theorem Symbol_it.iteration (s : Symbol_it) :
    (Symbol_it.incr^[s._sub_blocks.tot 0 + s._sub_blocks.tot 1] s.begin_).eq s.end_ = true ∧
    (∀ m, m < s._sub_blocks.tot 0 + s._sub_blocks.tot 1 →
      (Symbol_it.incr^[m] s.begin_).eq s.end_ = false) ∧
    (Symbol_it.incr^[s._sub_blocks.tot 0 + s._sub_blocks.tot 1 + 1] s.begin_).eq s.end_ =
      true := by
  have hb : s.begin_._idx = 0 ∧ s.begin_._sub_blocks = s._sub_blocks := ⟨rfl, rfl⟩
  have he : s.end_._idx = s._sub_blocks.tot 0 + s._sub_blocks.tot 1 := rfl
  have hit : ∀ m, (Symbol_it.incr^[m] s.begin_)._idx =
      min m (s._sub_blocks.tot 0 + s._sub_blocks.tot 1) := by
    intro m
    have h := (Symbol_it.iterate_incr m s.begin_ (by rw [hb.1]; omega)).1
    rw [hb.1, hb.2, Nat.zero_add] at h
    exact h
  refine ⟨?_, ?_, ?_⟩
  · simp only [Symbol_it.eq, hit, he, beq_iff_eq]
    omega
  · intro m hm
    simp only [Symbol_it.eq, hit, he, beq_eq_false_iff_ne, ne_eq]
    omega
  · simp only [Symbol_it.eq, hit, he, beq_iff_eq]
    omega

/-- The length of a symbol view, where the stored sub-block count is
not a multiple of 256: for such a valid instance `tot(0) + tot(1)` of the
sub-block partition is `symbol_size()`, which is `symbol_size / alignment`. -/
theorem Interleaver.symbol_length (asserts : Bool) (K : List Nat) (mem : Indeterminate)
    (sizeofT : Nat) (raw : List Nat)
    (min_subsymbol_size max_block_decodable symbol_size : Nat) (I : Interleaver)
    (h : Interleaver.ctor asserts K mem sizeofT raw min_subsymbol_size
      max_block_decodable symbol_size = some I)
    (hv : I.valid = true) (hsz : sizeofT < 256) (hss : symbol_size < 65536)
    (hp : u8 I._sub_blocks ≠ 0) :
    I._sub_part.tot 0 + I._sub_part.tot 1 = I.symbol_size ∧
    I.symbol_size = symbol_size / sizeofT := by
  obtain ⟨-, -, -, -, -, -, -, -, -, -, -, hIsz, -, hIss, -, -, hsubp⟩ :=
    Interleaver.ctor_valid_inv asserts K mem sizeofT raw min_subsymbol_size
      max_block_decodable symbol_size I h hv
  rw [u8_of_lt hsz] at hsubp
  have hS2 : symbol_size / sizeofT < 65536 :=
    lt_of_le_of_lt (Nat.div_le_self _ _) hss
  have hsym : I.symbol_size = symbol_size / sizeofT := by
    unfold Interleaver.symbol_size
    rw [hIsz, hIss]
    exact u16_of_lt hS2
  rw [hsym, hsubp]
  exact ⟨(Partition.ctor_exact _ _ hS2 hp).2.2, rfl⟩

end Impl
end RaptorQ
